import Mathlib

/-!
# Fix2Book: order-book reconstruction from FIX-like messages

A shallow embedding of `src/Exception.hpp`, `src/Message.hpp`, `src/Book.hpp`
and `src/BookSet.hpp`, followed by theorems about the embedded code.

Modelling conventions.
* A C++ `double` is an exact rational (`ℚ`); `static_cast<int64_t>` of a
  `double` truncates toward zero (`Int.tdiv` of numerator by denominator).
  Conversions outside the `int64_t` range are undefined in C++ and are not
  given a wrapped value here.
* `std::map<Key, Level, Sort>` is a list of key/level pairs kept in the order
  of the comparator `Sort`; an iterator is an index into that list and
  `cend()` is `none`.
* A member function that mutates its object returns a `Result`: the state of
  the object when control leaves the function, tagged with whether the
  function returned or threw. A function that only moves a `mutable` cursor
  returns `Except Error (value × object)`.
* A string is the list of its `char` values; an iterator into it is an offset.
  `size_t` and `uint8_t` arithmetic is reduced modulo `2 ^ 64` and `2 ^ 8`.
* A loop is a recursion on a counter that bounds its iterations; lemmas named
  `..._fuel` show that the counter never runs out.
-/

namespace fix2book

/-! ## Exception.hpp -/

/-- The exception classes: `ProtocolError` and its subclass
`UnknownProtocolFieldError`. -/
inductive Error where
  | ProtocolError
  | UnknownProtocolFieldError
  deriving DecidableEq, Repr

/-- State of a mutated object when a member function is left, either by
returning (`ok`) or by throwing (`thrown`). -/
inductive Result (σ : Type) where
  | ok (s : σ)
  | thrown (e : Error) (s : σ)
  deriving DecidableEq, Repr

/-- The object state carried by a `Result`. -/
def Result.state {σ : Type} : Result σ → σ
  | .ok s => s
  | .thrown _ s => s

/-- True when the function returned normally. -/
def Result.isOk {σ : Type} : Result σ → Bool
  | .ok _ => true
  | .thrown _ _ => false

/-! ## Message.hpp: the two enumerations used by the book -/

/-- Tag 269, `Message::MdEntry::MDEntryType`. -/
inductive MDEntryType where
  | MDEntryType_Bid
  | MDEntryType_Offer
  | MDEntryType_Trade
  | MDEntryType_Index
  | MDEntryType_SettlementPrice
  deriving DecidableEq, Repr

/-- Tag 279, `Message::MdEntry::MDUpdateAction`. -/
inductive MDUpdateAction where
  | MDUpdateAction_New
  | MDUpdateAction_Change
  | MDUpdateAction_Delete
  deriving DecidableEq, Repr

/-! ## Message.hpp: `Content` -/

/-- The `char` values of a string literal. -/
def chars (s : String) : List Int := s.toList.map (fun ch => Int.ofNat ch.toNat)

/-- `Content`: a delimiter, a range `[m_begin, m_end)` of iterators into a
caller-owned `std::string` and the `mutable` cursor. Iterators are offsets
into `data`, the `char` values of that string. -/
structure Content where
  m_soh : Int
  data : List Int
  m_begin : Nat
  m_end : Nat
  m_cursor : Nat
  deriving DecidableEq, Repr

namespace Content

/-- `*it`. A read at or past the end of the string yields 0. -/
def deref (c : Content) (it : Nat) : Int := c.data.getD it 0

/-- `std::equal(it, it + tag.size(), tag.cbegin(), tag.cend())`. -/
def equalAt (c : Content) (it : Nat) : List Int → Bool
  | [] => true
  | t :: ts => c.deref it == t && equalAt c (it + 1) ts

/-- Loop of `std::find`: `n` is the distance from `it` to `last`. -/
def findLoop (c : Content) (value : Int) : Nat → Nat → Nat
  | 0, it => it
  | n + 1, it => if c.deref it = value then it else findLoop c value n (it + 1)

/-- `std::find(it, last, value)`, for `it ≤ last`. -/
def find (c : Content) (it last : Nat) (value : Int) : Nat :=
  findLoop c value (last - it) it

/-- The inner `while` loop of `FindTagBegin`, returning the final `it`. Each
iteration that continues moves `it` forward, so `fuel = end - it + 1` bounds
the number of iterations. -/
def FindTagBegin.scan (c : Content) (tag : List Int) (end_ : Nat) : Nat → Nat → Nat
  | 0, it => it
  | fuel + 1, it =>
    if end_ > it ∧
        -- `static_cast<size_t>(std::distance(end, it)) >= tag.size()`
        ((it : Int) - (end_ : Int)) % 2 ^ 64 ≥ (tag.length : Int) ∧
        ¬ c.equalAt it tag = true then
      if c.find it end_ c.m_soh = end_ then end_
      else FindTagBegin.scan c tag end_ fuel (c.find it end_ c.m_soh + 1) -- skipping SOH
    else it

/-- `Content::FindTagBegin`: `some cursor` for `true` with the updated
cursor, `none` for `false`. The `for (;;)` runs at most twice: once up to
`m_end`, once over the first part of the message up to the cursor. -/
def FindTagBegin (c : Content) (tag : List Int) (cursor : Nat) : Option Nat :=
  let it := FindTagBegin.scan c tag c.m_end (c.m_end - cursor + 1) cursor
  if it < c.m_end then some it
  else if c.m_end = cursor then none
  else
    -- checking tag in the first part of message
    let it2 := FindTagBegin.scan c tag cursor (cursor - c.m_begin + 1) c.m_begin
    if it2 < cursor then some it2 else none

/-- `Content::FindTag`. -/
def FindTag (c : Content) (tag : List Int) (cursor : Nat) : Option Nat :=
  match c.FindTagBegin tag cursor with
  | none => none
  | some it => some (it + tag.length)

/-- `Content::CheckValueCursor`. -/
def CheckValueCursor (c : Content) (cursor : Nat) : Except Error Unit :=
  if c.deref cursor = c.m_soh ∨ cursor ≥ c.m_end then .error Error.ProtocolError
  else .ok ()

/-- `Content::ReadStringValue`: the value and the updated cursor. -/
def ReadStringValue (c : Content) (cursor : Nat) : Except Error (List Int × Nat) :=
  match c.CheckValueCursor cursor with
  | .error e => .error e
  | .ok () =>
    let end_ := c.find cursor c.m_end c.m_soh
    if end_ = c.m_end then .error Error.ProtocolError
    else .ok ((c.data.drop cursor).take (end_ - cursor), end_ + 1)

/-- The `do ... while` loop of `ReadIntValue` for a `Result` of `w` bits. The
loop throws when `it` reaches `m_end`, so `fuel = m_end - it` bounds it. -/
def ReadIntValue.loop (c : Content) (w : Nat) : Nat → Int → Nat → Except Error (Int × Nat)
  | 0, _, _ => .error Error.ProtocolError
  | fuel + 1, result, it =>
    if it + 1 ≥ c.m_end then .error Error.ProtocolError
    else if c.deref (it + 1) ≠ c.m_soh then
      ReadIntValue.loop c w fuel ((result * 10 + (c.deref it - 48)) % 2 ^ w) (it + 1)
    else .ok ((result * 10 + (c.deref it - 48)) % 2 ^ w, it + 1)

/-- `Content::ReadIntValue<Result>` for an unsigned `Result` of `w` bits:
the value and the updated cursor. -/
def ReadIntValue (c : Content) (w : Nat) (cursor : Nat) : Except Error (Nat × Nat) :=
  match c.CheckValueCursor cursor with
  | .error e => .error e
  | .ok () =>
    match ReadIntValue.loop c w (c.m_end - cursor) 0 cursor with
    | .error e => .error e
    | .ok (result, it) => .ok (result.toNat, it + 1)

/-- The two `while (*it >= '0' && *it <= '9')` loops of `ReadDoubleValue`:
accumulated value, number of digits read and final `it`. -/
def ReadDoubleValue.digits (c : Content) : Nat → ℚ → Nat → Nat → Except Error (ℚ × Nat × Nat)
  | 0, _, _, _ => .error Error.ProtocolError
  | fuel + 1, acc, n, it =>
    if c.deref it ≥ 48 ∧ c.deref it ≤ 57 then
      if it + 1 ≥ c.m_end then .error Error.ProtocolError
      else ReadDoubleValue.digits c fuel (acc * 10 + ((c.deref it - 48 : Int) : ℚ)) (n + 1) (it + 1)
    else .ok (acc, n, it)

/-- `Content::ReadDoubleValue`: the value and the updated cursor. -/
def ReadDoubleValue (c : Content) (cursor : Nat) : Except Error (ℚ × Nat) :=
  match c.CheckValueCursor cursor with
  | .error e => .error e
  | .ok () =>
    let isNegative : Bool := c.deref cursor = 45
    let it0 := if isNegative then cursor + 1 else cursor
    match ReadDoubleValue.digits c (c.m_end - it0 + 1) 0 0 it0 with
    | .error e => .error e
    | .ok (result, _, it) =>
      if c.deref it = 46 then
        match ReadDoubleValue.digits c (c.m_end - (it + 1) + 1) 0 0 (it + 1) with
        | .error e => .error e
        | .ok (f, n, it2) =>
          if c.deref it2 ≠ c.m_soh then .error Error.ProtocolError
          else
            .ok (if isNegative then -(result + f / 10 ^ n) else result + f / 10 ^ n, it2 + 1)
      else if c.deref it ≠ c.m_soh then .error Error.ProtocolError
      else .ok (if isNegative then -result else result, it + 1)

/-- `Content::ReadField`: the value read and the object with its `mutable`
cursor updated. -/
def ReadField {α : Type} (c : Content) (tag : List Int)
    (read : Content → Nat → Except Error (α × Nat)) : Except Error (α × Content) :=
  match c.FindTag tag c.m_cursor with
  | none => .error Error.UnknownProtocolFieldError
  | some cursor =>
    match read c cursor with
    | .error e => .error e
    | .ok (v, cursor2) => .ok (v, { c with m_cursor := cursor2 })

/-- `Content::ReadIntField<Result>` for an unsigned `Result` of `w` bits. -/
def ReadIntField (c : Content) (w : Nat) (tag : List Int) : Except Error (Nat × Content) :=
  c.ReadField tag (fun c2 it => c2.ReadIntValue w it)

/-- `Content::ReadDoubleField`. -/
def ReadDoubleField (c : Content) (tag : List Int) : Except Error (ℚ × Content) :=
  c.ReadField tag (fun c2 it => c2.ReadDoubleValue it)

/-- `Content::ReadStringField`. -/
def ReadStringField (c : Content) (tag : List Int) : Except Error (List Int × Content) :=
  c.ReadField tag (fun c2 it => c2.ReadStringValue it)

end Content

/-! ## Message.hpp: `Message` and `Message::MdEntry` -/

/-- `Message`, in the state its constructor leaves it in: the range is the
message body, `m_type` the value of tag 35. -/
structure Message extends Content where
  m_type : Int
  deriving DecidableEq, Repr

/-- `Message::MdEntry`. The reference `m_message` is not stored: the
functions that use it take the message as an argument and return it with its
`mutable` cursor updated. -/
structure MdEntry extends Content where
  m_numbeOfNextEntities : Nat
  m_firstTag : List Int
  deriving DecidableEq, Repr

namespace Message

/-- `Message::GetType`. -/
def GetType (m : Message) : Int := m.m_type

/-- `Message::ReadMsgSecNum`. -/
def ReadMsgSecNum (m : Message) : Except Error (Nat × Message) :=
  match m.toContent.ReadIntField 64 (chars "34=") with
  | .error e => .error e
  | .ok (v, c) => .ok (v, { m with toContent := c })

/-- `Message::ReadNoMDEntries`. -/
def ReadNoMDEntries (m : Message) : Except Error (Nat × Message) :=
  match m.toContent.ReadIntField 64 (chars "268=") with
  | .error e => .error e
  | .ok (v, c) => .ok (v, { m with toContent := c })

/-- `Message::ReadSymbol`. -/
def ReadSymbol (m : Message) : Except Error (List Int × Message) :=
  match m.toContent.ReadStringField (chars "55=") with
  | .error e => .error e
  | .ok (v, c) => .ok (v, { m with toContent := c })

/-- `Message::ReadMDEntry`: the new element and the message with its cursor
moved. -/
def ReadMDEntry (m : Message) (begin_ : Nat) (size : Nat) (tag : List Int) :
    Except Error (MdEntry × Message) :=
  if size > 1 then
    match m.toContent.FindTagBegin tag (begin_ + tag.length) with
    | none => .error Error.ProtocolError
    | some cursor =>
      .ok ({ m_soh := m.m_soh, data := m.data, m_begin := begin_, m_end := cursor,
             m_cursor := begin_, m_numbeOfNextEntities := size - 1, m_firstTag := tag },
           { m with m_cursor := cursor })
  else
    .ok ({ m_soh := m.m_soh, data := m.data, m_begin := begin_, m_end := m.m_end,
           m_cursor := begin_, m_numbeOfNextEntities := size - 1, m_firstTag := tag },
         { m with m_cursor := m.m_end })

/-- `Message::ReadFirstMDEntry`: `none` is the empty `unique_ptr`. -/
def ReadFirstMDEntry (m : Message) : Except Error (Option MdEntry × Message) :=
  match m.ReadNoMDEntries with
  | .error e => .error e
  | .ok (size, m1) =>
    if size = 0 then .ok (none, m1)
    else
      let begin_ := m1.m_cursor
      let it := m1.toContent.find m1.m_cursor m1.m_end 61
      if it = m1.m_end then .error Error.ProtocolError
      else
        match m1.ReadMDEntry begin_ size ((m1.data.drop begin_).take (it + 1 - begin_)) with
        | .error e => .error e
        | .ok (entry, m2) => .ok (some entry, m2)

end Message

namespace MdEntry

/-- `MdEntry::ReadMDUpdateAction`. -/
def ReadMDUpdateAction (e : MdEntry) : Except Error (MDUpdateAction × MdEntry) :=
  match e.toContent.ReadIntField 8 (chars "279=") with
  | .error err => .error err
  | .ok (result, c) =>
    if result = 0 then .ok (MDUpdateAction.MDUpdateAction_New, { e with toContent := c })
    else if result = 1 then .ok (MDUpdateAction.MDUpdateAction_Change, { e with toContent := c })
    else if result = 2 then .ok (MDUpdateAction.MDUpdateAction_Delete, { e with toContent := c })
    else .error Error.ProtocolError

/-- `MdEntry::ReadMDEntryType`. -/
def ReadMDEntryType (e : MdEntry) : Except Error (MDEntryType × MdEntry) :=
  match e.toContent.ReadIntField 8 (chars "269=") with
  | .error err => .error err
  | .ok (result, c) =>
    if result = 0 then .ok (MDEntryType.MDEntryType_Bid, { e with toContent := c })
    else if result = 1 then .ok (MDEntryType.MDEntryType_Offer, { e with toContent := c })
    else if result = 2 then .ok (MDEntryType.MDEntryType_Trade, { e with toContent := c })
    else if result = 3 then .ok (MDEntryType.MDEntryType_Index, { e with toContent := c })
    else if result = 6 then
      .ok (MDEntryType.MDEntryType_SettlementPrice, { e with toContent := c })
    else .error Error.ProtocolError

/-- `MdEntry::ReadMDEntryPx`. -/
def ReadMDEntryPx (e : MdEntry) : Except Error (ℚ × MdEntry) :=
  match e.toContent.ReadDoubleField (chars "270=") with
  | .error err => .error err
  | .ok (v, c) => .ok (v, { e with toContent := c })

/-- `MdEntry::ReadMDEntrySize`. -/
def ReadMDEntrySize (e : MdEntry) : Except Error (ℚ × MdEntry) :=
  match e.toContent.ReadDoubleField (chars "271=") with
  | .error err => .error err
  | .ok (v, c) => .ok (v, { e with toContent := c })

/-- `MdEntry::ReadNextMDEntry`, with the message `m_message` refers to. -/
def ReadNextMDEntry (e : MdEntry) (m : Message) : Except Error (Option MdEntry × Message) :=
  if e.m_numbeOfNextEntities = 0 then .ok (none, m)
  else
    match m.ReadMDEntry e.m_end e.m_numbeOfNextEntities e.m_firstTag with
    | .error err => .error err
    | .ok (entry, m2) => .ok (some entry, m2)

end MdEntry

/-! ## Message.hpp: the constructor of `Message` -/

namespace Message

/-- The loop of `Message::CalcCheckSum` over the `n` elements from `begin_`:
`result += static_cast<uint32_t>(*begin == m_soh ? 1 : *begin)`. -/
def CalcCheckSum.loop (c : Content) : Nat → Nat → Int → Int
  | 0, _, result => result
  | n + 1, begin_, result =>
    CalcCheckSum.loop c n (begin_ + 1)
      ((result + (if c.deref begin_ = c.m_soh then 1 else c.deref begin_) % 2 ^ 32) % 2 ^ 32)

/-- `Message::CalcCheckSum(begin, end)` for `begin ≤ end`; it is called while
the message is being constructed, hence on a `Content`. -/
def CalcCheckSum (c : Content) (begin_ end_ : Nat) : Nat :=
  (CalcCheckSum.loop c (end_ - begin_) begin_ 0 % 256).toNat

/-- The `std::find_if` over reverse iterators in `Normalize`: the new `m_end`,
just past the last `char` that is neither `\r` nor `\n`; `n` is the distance
from `m_begin` to `e`. -/
def Normalize.trim (c : Content) : Nat → Nat → Nat
  | 0, e => e
  | n + 1, e =>
    if c.deref (e - 1) ≠ 13 ∧ c.deref (e - 1) ≠ 10 then e else Normalize.trim c n (e - 1)

/-- `m_cursor + len` for a `size_t` `len`: the offset is converted to the
signed `difference_type`. -/
def Normalize.advance (cursor len : Nat) : Nat :=
  if len < 2 ^ 63 then cursor + len else cursor - (2 ^ 64 - len)

/-- The first statement of `Normalize`: `m_end` is moved before the trailing
`\r` and `\n`. -/
def Normalize.trimmed (c0 : Content) : Content :=
  { c0 with m_end := Normalize.trim c0 (c0.m_end - c0.m_begin) c0.m_end }

/-- The statements of `Normalize` after the trimming, on the `Content` with
the trimmed `m_end`; every `throw` in them is a `ProtocolError`. -/
def Normalize.checks (c : Content) : Except Error Message :=
  -- `minLen` is 9 + 1 + 2 + 1 + 3 + 1 + 1 + 3 + 3 + 1
  if (c.m_end : Int) - (c.m_begin : Int) ≤ 0 ∨ (c.m_end : Int) - (c.m_begin : Int) ≤ 25 then
    .error Error.ProtocolError
  else if c.deref (c.m_end - 1) ≠ c.m_soh then .error Error.ProtocolError
  -- Checks protocol and version.
  else if ¬ c.equalAt c.m_begin (chars "8=FIX.4.4") = true then .error Error.ProtocolError
  else if c.deref (c.m_begin + 9 + 1 - 1) ≠ c.m_soh then .error Error.ProtocolError
  -- Extracts and checks message length.
  else if ¬ c.equalAt (c.m_begin + 9 + 1) (chars "9=") = true then .error Error.ProtocolError
  else
    match c.ReadIntValue 64 (c.m_begin + 9 + 1 + 2) with
    | .error e => .error e
    | .ok (len, cursor) =>
      if (c.m_end : Int) - (cursor : Int) ≤ 0 ∨
          (c.m_end : Int) - (cursor : Int) < ((len + 7) % 2 ^ 64 : Nat) then
        .error Error.ProtocolError
      -- Extracts message control sum.
      else if c.deref (Normalize.advance cursor len - 1) ≠ c.m_soh then
        .error Error.ProtocolError
      else if ¬ c.equalAt (Normalize.advance cursor len) (chars "10=") = true then
        .error Error.ProtocolError
      else
        match c.ReadIntValue 64 (Normalize.advance cursor len + 3) with
        | .error e => .error e
        | .ok (messageChecksum, cursor2) =>
          if CalcCheckSum c c.m_begin (Normalize.advance cursor len) ≠ messageChecksum ∨
              cursor2 ≠ c.m_end then
            .error Error.ProtocolError
          -- Extracts message type.
          else if ¬ c.equalAt cursor (chars "35=") = true then .error Error.ProtocolError
          else if c.deref (cursor + 3) = c.m_soh then .error Error.ProtocolError
          else if c.deref (cursor + 3 + 1) ≠ c.m_soh then .error Error.ProtocolError
          else
            -- Now begin and end show range inside message, without checked fields.
            .ok { m_soh := c.m_soh, data := c.data, m_begin := cursor + 3 + 1 + 1,
                  m_end := Normalize.advance cursor len, m_cursor := cursor + 3 + 1 + 1,
                  m_type := c.deref (cursor + 3) }

/-- `Message::Normalize`, run by the constructor on the freshly built
`Content`. -/
def Normalize (c0 : Content) : Except Error Message :=
  Normalize.checks (Normalize.trimmed c0)

/-- The constructor `Message::Message(soh, begin, end)`. -/
def ctor (soh : Int) (data : List Int) (begin_ end_ : Nat) : Except Error Message :=
  Normalize { m_soh := soh, data := data, m_begin := begin_, m_end := end_, m_cursor := begin_ }

end Message

/-! ## Book.hpp: `Book::Side` -/

/-- `Details::Bool2Sort<isAscendingSort, Key>::Sort`: `std::less` for
`true`, `std::greater` for `false`. -/
def Bool2Sort (isAscendingSort : Bool) (a b : Int) : Bool :=
  if isAscendingSort then decide (a < b) else decide (a > b)

/-- `Book::Side::Level`. -/
structure Level where
  price : ℚ
  value : ℚ
  deriving DecidableEq, Repr

/-- `Book::Side::Key`. -/
abbrev Key := Int

/-- `Book::Side::Levels`: the contents of the `std::map`, in iteration
order. -/
abbrev Levels := List (Key × Level)

/-- `std::map::emplace`: the map afterwards and the `.second` of the returned
pair (`true` when the insertion took place). Keys `a`, `b` are equivalent
when neither `cmp a b` nor `cmp b a`. -/
def Levels.emplace (cmp : Key → Key → Bool) (k : Key) (v : Level) :
    Levels → Levels × Bool
  | [] => ([(k, v)], true)
  | x :: xs =>
    if cmp k x.1 then ((k, v) :: x :: xs, true)
    else if cmp x.1 k then
      ((x :: (Levels.emplace cmp k v xs).1), (Levels.emplace cmp k v xs).2)
    else (x :: xs, false)

/-- `std::map::find`: the position of the element equivalent to `k`, or
`none` for `cend()`. -/
def Levels.find (cmp : Key → Key → Bool) (k : Key) : Levels → Option Nat
  | [] => none
  | x :: xs =>
    if cmp x.1 k then (Levels.find cmp k xs).map (· + 1)
    else if cmp k x.1 then none
    else some 0

/-- `it->second.value = val` for the iterator at position `it`. -/
def Levels.assignValue (it : Nat) (val : ℚ) : Levels → Levels
  | [] => []
  | x :: xs =>
    match it with
    | 0 => (x.1, { x.2 with value := val }) :: xs
    | n + 1 => x :: Levels.assignValue n val xs

/-- `Book::Side<isAscendingSort>`. -/
structure Book.Side (isAscendingSort : Bool) where
  m_levels : Levels
  deriving DecidableEq, Repr

namespace Book.Side

variable {isAscendingSort : Bool}

/-- `Side::CreateKey`: `static_cast<Key>(price * 100000000)`. -/
def CreateKey (price : ℚ) : Key :=
  Int.tdiv (price * 100000000).num (price * 100000000).den

/-- `Side() = default`. -/
def empty : Book.Side isAscendingSort := ⟨[]⟩

/-- `Side::GetSize`. -/
def GetSize (s : Book.Side isAscendingSort) : Nat := s.m_levels.length

/-- `Side::GetLevelAt`: `cbegin()` advanced `index` times; `none` when the
iterator is not dereferenceable. -/
def GetLevelAt (s : Book.Side isAscendingSort) (index : Nat) : Option (Key × Level) :=
  s.m_levels.get? index

/-- `Side::Add`. -/
def Add (s : Book.Side isAscendingSort) (price value : ℚ) :
    Result (Book.Side isAscendingSort) :=
  let r := Levels.emplace (Bool2Sort isAscendingSort) (CreateKey price)
    { price := price, value := value } s.m_levels
  if !r.2 then
    -- Adding without removing.
    .thrown Error.ProtocolError ⟨r.1⟩
  else .ok ⟨r.1⟩

/-- `Side::Set`. -/
def Set (s : Book.Side isAscendingSort) (action : MDUpdateAction) (price val : ℚ) :
    Result (Book.Side isAscendingSort) :=
  if action = MDUpdateAction.MDUpdateAction_New then
    s.Add price val
  else
    match Levels.find (Bool2Sort isAscendingSort) (CreateKey price) s.m_levels with
    | none =>
      -- Modifying without adding.
      .thrown Error.ProtocolError s
    | some it =>
      if action = MDUpdateAction.MDUpdateAction_Delete then
        .ok ⟨s.m_levels.eraseIdx it⟩
      else
        .ok ⟨Levels.assignValue it val s.m_levels⟩

end Book.Side

/-! ## Book.hpp: `Book` -/

/-- `Book`. -/
structure Book where
  m_asks : Book.Side true
  m_bids : Book.Side false
  deriving DecidableEq, Repr

namespace Book

/-- The `switch (type)` of `Book::Book(const Message&)`; a thrown exception
abandons the object under construction. -/
def ctor.switch (b : Book) (type : MDEntryType) (price val : ℚ) : Except Error Book :=
  match type with
  | MDEntryType.MDEntryType_Bid =>
    match b.m_bids.Add price val with
    | .ok s => .ok { b with m_bids := s }
    | .thrown e _ => .error e
  | MDEntryType.MDEntryType_Offer =>
    match b.m_asks.Add price val with
    | .ok s => .ok { b with m_asks := s }
    | .thrown e _ => .error e
  | _ => .ok b

/-- Body and increment of the `for` loop of `Book::Book(const Message&)`,
started at `entry`. The remaining-element counter of the entries goes down by
one per iteration, so `fuel` above the counter of the first entry is never
used up. -/
def ctor.loop : Nat → Message → Option MdEntry → Book → Except Error Book
  | _, _, none, b => .ok b
  | 0, _, some _, _ => .error Error.ProtocolError
  | fuel + 1, m, some entry, b =>
    match entry.ReadMDEntryType with
    | .error e => .error e
    | .ok (type, e1) =>
      match e1.ReadMDEntryPx with
      | .error e => .error e
      | .ok (price, e2) =>
        match e2.ReadMDEntrySize with
        | .error e => .error e
        | .ok (val, e3) =>
          match ctor.switch b type price val with
          | .error e => .error e
          | .ok b2 =>
            match e3.ReadNextMDEntry m with
            | .error e => .error e
            | .ok (next, m2) => ctor.loop fuel m2 next b2

/-- The constructor `Book::Book(const Message& snapshot)`. -/
def ctor (snapshot : Message) : Except Error Book :=
  match snapshot.ReadFirstMDEntry with
  | .error e => .error e
  | .ok (none, _) => .ok { m_asks := Book.Side.empty, m_bids := Book.Side.empty }
  | .ok (some entry, m1) =>
    ctor.loop (entry.m_numbeOfNextEntities + 1) m1 (some entry)
      { m_asks := Book.Side.empty, m_bids := Book.Side.empty }

/-- The `switch (type)` of `Book::Update`; the Book keeps what `Set` left
behind when it throws. -/
def Update.switch (b : Book) (action : MDUpdateAction) (type : MDEntryType)
    (price val : ℚ) : Result Book :=
  match type with
  | MDEntryType.MDEntryType_Bid =>
    match b.m_bids.Set action price val with
    | .ok s => .ok { b with m_bids := s }
    | .thrown e s => .thrown e { b with m_bids := s }
  | MDEntryType.MDEntryType_Offer =>
    match b.m_asks.Set action price val with
    | .ok s => .ok { b with m_asks := s }
    | .thrown e s => .thrown e { b with m_asks := s }
  | _ => .ok b

/-- Body and increment of the `for` loop of `Book::Update`, started at
`entry`; the Book keeps the entries applied before an exception. -/
def Update.loop : Nat → Message → Option MdEntry → Book → Result Book
  | _, _, none, b => .ok b
  | 0, _, some _, b => .thrown Error.ProtocolError b
  | fuel + 1, m, some entry, b =>
    match entry.ReadMDUpdateAction with
    | .error e => .thrown e b
    | .ok (action, e0) =>
      match e0.ReadMDEntryType with
      | .error e => .thrown e b
      | .ok (type, e1) =>
        match e1.ReadMDEntryPx with
        | .error e => .thrown e b
        | .ok (price, e2) =>
          match e2.ReadMDEntrySize with
          | .error e => .thrown e b
          | .ok (val, e3) =>
            match Update.switch b action type price val with
            | .thrown e b2 => .thrown e b2
            | .ok b2 =>
              match e3.ReadNextMDEntry m with
              | .error e => .thrown e b2
              | .ok (next, m2) => Update.loop fuel m2 next b2

/-- `Book::Update`. -/
def Update (b : Book) (message : Message) : Result Book :=
  match message.ReadFirstMDEntry with
  | .error e => .thrown e b
  | .ok (none, _) => .ok b
  | .ok (some entry, m1) => Update.loop (entry.m_numbeOfNextEntities + 1) m1 (some entry) b

/-- One line written by `Print`; a level line carries `none` when the
iterator it reads is not dereferenceable. -/
inductive OutLine where
  | blank
  | symbol (name : List Int)
  | totalSell (n : Nat)
  | level (index : Nat) (l : Option Level)
  | separator
  | totalBuy (n : Nat)
  deriving DecidableEq, Repr

/-- `Book::Print`. -/
def Print (b : Book) (size : Nat) : List OutLine :=
  [OutLine.totalSell b.m_asks.GetSize]
  ++ (let levelSize := min size b.m_asks.GetSize
      (List.range levelSize).map (fun j =>
        -- `i = j + 1`, the iterator stands at `levelSize - 1 - j`
        OutLine.level (levelSize - (j + 1))
          ((b.m_asks.GetLevelAt (levelSize - 1 - j)).map Prod.snd)))
  ++ [OutLine.separator]
  ++ (let levelSize := min size b.m_asks.GetSize
      (List.range levelSize).map (fun i =>
        OutLine.level i ((b.m_bids.GetLevelAt i).map Prod.snd)))
  ++ [OutLine.totalBuy b.m_bids.GetSize]

end Book

/-! ## BookSet.hpp -/

/-- `BookSet`: `m_books` lists the elements of the `std::unordered_map`, a
missing `Book` being the empty `shared_ptr`. -/
structure BookSet where
  m_seqNum : Nat
  m_books : List (List Int × (Nat × Option Book))
  deriving DecidableEq, Repr

namespace BookSet

/-- `BookSet() = default`. -/
def empty : BookSet := { m_seqNum := 0, m_books := [] }

/-- `BookSet::GetRevision`. -/
def GetRevision (bs : BookSet) : Nat := bs.m_seqNum

/-- `m_books[key]`: the map with a value-initialised element inserted when
the key is new. -/
def subscript (books : List (List Int × (Nat × Option Book))) (key : List Int) :
    List (List Int × (Nat × Option Book)) :=
  match books.lookup key with
  | some _ => books
  | none => books ++ [(key, (0, none))]

/-- Assignment through the reference `m_books[key]` returned. -/
def assign (books : List (List Int × (Nat × Option Book))) (key : List Int)
    (v : Nat × Option Book) : List (List Int × (Nat × Option Book)) :=
  books.map (fun kv => if kv.1 = key then (kv.1, v) else kv)

/-- `BookSet::Update`. -/
def Update (bs : BookSet) (message : Message) : Result BookSet :=
  if message.GetType ≠ 87 ∧ message.GetType ≠ 88 then .ok bs
  else
    match message.ReadMsgSecNum with
    | .error e => .thrown e bs
    | .ok (seqNum, m1) =>
      if bs.m_seqNum ≥ seqNum then .ok bs
      else
        match m1.ReadSymbol with
        | .error e => .thrown e bs
        | .ok (symbol, m2) =>
          let books := subscript bs.m_books symbol
          let book := (books.lookup symbol).getD (0, none)
          if m2.GetType = 87 then
            match Book.ctor m2 with
            | .error e => .thrown e { bs with m_books := books }
            | .ok b =>
              .ok { m_seqNum := seqNum, m_books := assign books symbol (seqNum, some b) }
          else
            match book.2 with
            | none =>
              -- no snapshot for book
              .thrown Error.ProtocolError { bs with m_books := books }
            | some b =>
              match b.Update m2 with
              | .thrown e b2 =>
                .thrown e { bs with m_books := assign books symbol (book.1, some b2) }
              | .ok b2 =>
                .ok { m_seqNum := seqNum, m_books := assign books symbol (seqNum, some b2) }

/-- `BookSet::Print`. A listed symbol whose `shared_ptr` is empty has no
`Book` to print and contributes `none`. -/
def Print (bs : BookSet) (revision size : Nat) : List (Option (List Book.OutLine)) :=
  (bs.m_books.filter (fun book => ¬ revision > book.2.1)).map (fun book =>
    book.2.2.map (fun b =>
      [Book.OutLine.blank, Book.OutLine.symbol book.1] ++ b.Print size))

end BookSet

/-! ## Specification vocabulary for messages, `Book` and `BookSet` -/

deriving instance DecidableEq for Except

/-- The group elements of a snapshot, decoded the way the loop of
`Book::Book(const Message&)` reads them: type, price, size, next element. -/
def Message.snapshotEntries.loop :
    Nat → Message → Option MdEntry → Except Error (List (MDEntryType × ℚ × ℚ))
  | _, _, none => .ok []
  | 0, _, some _ => .error Error.ProtocolError
  | fuel + 1, m, some entry =>
    match entry.ReadMDEntryType with
    | .error e => .error e
    | .ok (type, e1) =>
      match e1.ReadMDEntryPx with
      | .error e => .error e
      | .ok (price, e2) =>
        match e2.ReadMDEntrySize with
        | .error e => .error e
        | .ok (val, e3) =>
          match e3.ReadNextMDEntry m with
          | .error e => .error e
          | .ok (next, m2) =>
            match Message.snapshotEntries.loop fuel m2 next with
            | .error e => .error e
            | .ok rest => .ok ((type, price, val) :: rest)

/-- The decoded group elements of a snapshot message, or the error raised
while reading them. -/
def Message.snapshotEntries (snapshot : Message) :
    Except Error (List (MDEntryType × ℚ × ℚ)) :=
  match snapshot.ReadFirstMDEntry with
  | .error e => .error e
  | .ok (none, _) => .ok []
  | .ok (some entry, m1) =>
    Message.snapshotEntries.loop (entry.m_numbeOfNextEntities + 1) m1 (some entry)

/-- The levels, keyed, that the entries of type `t` stand for. -/
def levelsOf (t : MDEntryType) (es : List (MDEntryType × ℚ × ℚ)) : Levels :=
  (es.filter (fun e => e.1 = t)).map
    (fun e => (Book.Side.CreateKey e.2.1, { price := e.2.1, value := e.2.2 }))

/-- The sequence number with which `Update` applies `message` to `bs`: the
kind is snapshot or incremental, the number is above `m_seqNum` and `Update`
returns; `none` when the message is ignored or `Update` throws. -/
def BookSet.accepted (bs : BookSet) (message : Message) : Option Nat :=
  if message.GetType = 87 ∨ message.GetType = 88 then
    match message.ReadMsgSecNum with
    | .error _ => none
    | .ok (seqNum, _) =>
      if bs.m_seqNum < seqNum ∧ (bs.Update message).isOk = true then some seqNum else none
  else none

/-- `Run bs acc`: `bs` is reached from the empty BookSet by `Update` calls
(returning, ignoring or throwing), and `acc` lists the sequence numbers of
the messages applied on the way, latest first. -/
inductive BookSet.Run : BookSet → List Nat → Prop where
  | empty : BookSet.Run BookSet.empty []
  | update {bs : BookSet} {acc : List Nat} (message : Message) :
      BookSet.Run bs acc →
      BookSet.Run (bs.Update message).state ((bs.accepted message).toList ++ acc)

/-- Sample snapshot, sequence 1, symbol EUR/USD, entries Bid 1.1000 (100) and
Offer 1.1010 (50); the delimiter is `|`. -/
def snapEUR : Message :=
  { m_soh := 124
    data := chars
      "8=FIX.4.4|9=76|35=W|34=1|55=EUR/USD|268=2|269=0|270=1.1000|271=100|269=1|270=1.1010|271=50|10=075|"
    m_begin := 20, m_end := 91, m_cursor := 20, m_type := 87 }

/-- Sample incremental message, sequence 2, symbol EUR/USD, one entry:
Change of the bid at 1.1000 to size 75. -/
def incEUR : Message :=
  { m_soh := 124
    data := chars
      "8=FIX.4.4|9=57|35=X|34=2|55=EUR/USD|268=1|279=1|269=0|270=1.1000|271=75|10=242|"
    m_begin := 20, m_end := 72, m_cursor := 20, m_type := 88 }

/-- Sample snapshot, sequence 2, symbol GBP/USD, one entry: Bid 1.3000 (10). -/
def snapGBP : Message :=
  { m_soh := 124
    data := chars "8=FIX.4.4|9=51|35=W|34=2|55=GBP/USD|268=1|269=0|270=1.3000|271=10|10=190|"
    m_begin := 20, m_end := 66, m_cursor := 20, m_type := 87 }

/-- The consistency of the sequence numbers and of the map: no stored
sequence number exceeds `m_seqNum`, and no symbol is listed twice. -/
def BookSet.Inv (bs : BookSet) : Prop :=
  (∀ kv ∈ bs.m_books, kv.2.1 ≤ bs.m_seqNum) ∧ (bs.m_books.map Prod.fst).Nodup

/-- The BookSet after the snapshot `snapEUR`. -/
def bookSetEUR : BookSet := (BookSet.empty.Update snapEUR).state

/-- Sample snapshot, sequence 1, symbol EUR/USD, one entry: Offer 1.1010 (50). -/
def snapAskOnly : Message :=
  { m_soh := 124
    data := chars
      "8=FIX.4.4|9=51|35=W|34=1|55=EUR/USD|268=1|269=1|270=1.1010|271=50|10=212|"
    m_begin := 20, m_end := 66, m_cursor := 20, m_type := 87 }

/-- Sample snapshot whose only entry has the entry type 256. -/
def snapType256 : Message :=
  { m_soh := 124
    data := chars
      "8=FIX.4.4|9=54|35=W|34=1|55=EUR/USD|268=1|269=256|270=1.1000|271=100|10=110|"
    m_begin := 20, m_end := 69, m_cursor := 20, m_type := 87 }

/-- Sample incremental message, sequence 2, whose entry lists tag 279 last:
Change of the bid at 1.1000 to size 75. -/
def incLast279 : Message :=
  { m_soh := 124
    data := chars
      "8=FIX.4.4|9=57|35=X|34=2|55=EUR/USD|268=1|269=0|270=1.1000|271=75|279=1|10=242|"
    m_begin := 20, m_end := 72, m_cursor := 20, m_type := 88 }

/-- Sample snapshot that declares two entries and holds one: Bid 1.1000 (100). -/
def snapShort : Message :=
  { m_soh := 124
    data := chars
      "8=FIX.4.4|9=52|35=W|34=1|55=EUR/USD|268=2|269=0|270=1.1000|271=100|10=000|"
    m_begin := 20, m_end := 67, m_cursor := 20, m_type := 87 }

/-- Sample incremental message, sequence 2, symbol EUR/USD, two entries: Change
of the bid at 1.1000 to size 75, then Change of a bid at 1.2000, a price with
no level. -/
def incPartial : Message :=
  { m_soh := 124
    data := chars
      "8=FIX.4.4|9=86|35=X|34=2|55=EUR/USD|268=2|279=1|269=0|270=1.1000|271=75|279=1|269=0|270=1.2000|271=5|10=026|"
    m_begin := 20, m_end := 101, m_cursor := 20, m_type := 88 }

/-- The group elements of an incremental message, decoded the way the loop of
`Book::Update` reads them (action, type, price, size, next element), up to
the first read that throws. -/
def Message.incrementalEntries.loop :
    Nat → Message → Option MdEntry → List (MDUpdateAction × MDEntryType × ℚ × ℚ)
  | _, _, none => []
  | 0, _, some _ => []
  | fuel + 1, m, some entry =>
    match entry.ReadMDUpdateAction with
    | .error _ => []
    | .ok (action, e0) =>
      match e0.ReadMDEntryType with
      | .error _ => []
      | .ok (type, e1) =>
        match e1.ReadMDEntryPx with
        | .error _ => []
        | .ok (price, e2) =>
          match e2.ReadMDEntrySize with
          | .error _ => []
          | .ok (val, e3) =>
            (action, type, price, val) ::
              (match e3.ReadNextMDEntry m with
               | .error _ => []
               | .ok (next, m2) => Message.incrementalEntries.loop fuel m2 next)

/-- The decoded group elements of an incremental message, up to the first
read that throws. -/
def Message.incrementalEntries (message : Message) :
    List (MDUpdateAction × MDEntryType × ℚ × ℚ) :=
  match message.ReadFirstMDEntry with
  | .error _ => []
  | .ok (none, _) => []
  | .ok (some entry, m1) =>
    Message.incrementalEntries.loop (entry.m_numbeOfNextEntities + 1) m1 (some entry)

/-- The Book after the entries have been applied one after the other, each
by the `switch` of `Book::Update`; `none` when one of them throws. -/
def Book.applyEntries (b : Book) :
    List (MDUpdateAction × MDEntryType × ℚ × ℚ) → Option Book
  | [] => some b
  | entry :: rest =>
    match Book.Update.switch b entry.1 entry.2.1 entry.2.2.1 entry.2.2.2 with
    | .ok b2 => Book.applyEntries b2 rest
    | .thrown _ _ => none

/-- The unsigned value, 0..255, of a `char`. -/
def byteOf (ch : Int) : Int := ch % 256

/-- The bytes of the range `[begin_, end_)` of the string, as unsigned
values. -/
def Content.bytes (c : Content) (begin_ end_ : Nat) : List Int :=
  ((c.data.drop begin_).take (end_ - begin_)).map byteOf

/-- The checksum as the specification words it: the sum of the byte values,
each delimiter byte counted as 1, taken modulo 256. -/
def checkSumSpec (soh : Int) (bytes : List Int) : Int :=
  (bytes.map (fun u => if u = soh then 1 else u)).sum % 256

/-- The text of `snapEUR` as a line read with its line ending, `\r\n`. -/
def lineEUR : List Int := snapEUR.data ++ [13, 10]

/-- The loop of a caller that walks the group: `ReadNextMDEntry` is called on
each element in turn until it returns the empty pointer. The remaining count
falls with every element, so `fuel = m_numbeOfNextEntities + 1` bounds the
number of iterations. -/
def Message.elements.loop : Nat → Message → Option MdEntry → Except Error (List MdEntry)
  | _, _, none => .ok []
  | 0, _, some _ => .error Error.ProtocolError
  | fuel + 1, m, some entry =>
    match entry.ReadNextMDEntry m with
    | .error e => .error e
    | .ok (next, m2) =>
      match Message.elements.loop fuel m2 next with
      | .error e => .error e
      | .ok rest => .ok (entry :: rest)

/-- The elements that `ReadFirstMDEntry` followed by repeated
`ReadNextMDEntry` yields, in order, or the error raised on the way. -/
def Message.elements (m : Message) : Except Error (List MdEntry) :=
  match m.ReadFirstMDEntry with
  | .error e => .error e
  | .ok (none, _) => .ok []
  | .ok (some entry, m1) =>
    Message.elements.loop (entry.m_numbeOfNextEntities + 1) m1 (some entry)

/-- The elements of a group whose elements start at the offsets `bs`: each
spans to the start of the next one, the last one to the body end, and carries
the number of elements after it. -/
def Message.groupElements (m : Message) (tag : List Int) : List Nat → List MdEntry
  | [] => []
  | b :: rest =>
    { m_soh := m.m_soh, data := m.data, m_begin := b, m_end := rest.headD m.m_end,
      m_cursor := b, m_numbeOfNextEntities := rest.length, m_firstTag := tag }
      :: Message.groupElements m tag rest

/-- Sample snapshot, sequence 2, symbol EUR/USD, whose two entries are both
Bid at 1.1000 (sizes 100 and 50): the second shares the key of the first. -/
def snapDupEUR : Message :=
  { m_soh := 124
    data := chars
      "8=FIX.4.4|9=76|35=W|34=2|55=EUR/USD|268=2|269=0|270=1.1000|271=100|269=0|270=1.1000|271=50|10=074|"
    m_begin := 20, m_end := 91, m_cursor := 20, m_type := 87 }

/-- Sample snapshot, sequence 2, symbol EUR/USD, whose second entry has no
size field (tag 271). -/
def snapNoSizeEUR : Message :=
  { m_soh := 124
    data := chars
      "8=FIX.4.4|9=69|35=W|34=2|55=EUR/USD|268=2|269=0|270=1.1000|271=100|269=1|270=1.1010|10=017|"
    m_begin := 20, m_end := 84, m_cursor := 20, m_type := 87 }

/-- The Book `b2` is `b` after the entries that precede the failing one have
been applied, in order: the first `k` entries are applied and lead to `b2`,
and either every decoded entry has been applied (the failure is a read) or
entry `k` is the failing one, the `switch` of `Book::Update` throwing `e` on
it at `b2` and leaving `b2` as it is. -/
def Book.appliedUpTo (b b2 : Book) (entries : List (MDUpdateAction × MDEntryType × ℚ × ℚ))
    (e : Error) : Prop :=
  ∃ k, k ≤ entries.length ∧ Book.applyEntries b (entries.take k) = some b2 ∧
    (k = entries.length ∨
      ∃ entry, entries[k]? = some entry ∧
        Book.Update.switch b2 entry.1 entry.2.1 entry.2.2.1 entry.2.2.2 = .thrown e b2)

/-! ## Specification vocabulary for `Side` -/

/-- The keys of a level list, in iteration order. -/
def Levels.keys (l : Levels) : List Key := l.map Prod.fst

/-- The container invariant of `std::map`: the elements are strictly ordered
by the comparator. -/
def Levels.Ordered (cmp : Key → Key → Bool) (l : Levels) : Prop :=
  l.Pairwise (fun a b => cmp a.1 b.1 = true)

instance Levels.decidableOrdered (cmp : Key → Key → Bool) (l : Levels) :
    Decidable (Levels.Ordered cmp l) := by
  unfold Levels.Ordered
  infer_instance

/-- Sides obtained from the empty Side by `Add` and `Set` calls; a call that
throws leaves the Side in the state `Result.state` records. -/
inductive Book.Side.Reachable {isAscendingSort : Bool} :
    Book.Side isAscendingSort → Prop where
  | empty : Reachable Book.Side.empty
  | add {s : Book.Side isAscendingSort} (price value : ℚ) :
      Reachable s → Reachable (s.Add price value).state
  | set {s : Book.Side isAscendingSort} (action : MDUpdateAction) (price val : ℚ) :
      Reachable s → Reachable (s.Set action price val).state

/-- An ask Side with two levels, 1.1000 (100) and 1.1010 (50). -/
def sampleAsks : Book.Side true :=
  ⟨[(110000000, ⟨11 / 10, 100⟩), (110100000, ⟨1101 / 1000, 50⟩)]⟩

/-- A bid Side with two levels, 1.1000 (100) and 1.0990 (70). -/
def sampleBids : Book.Side false :=
  ⟨[(110000000, ⟨11 / 10, 100⟩), (109900000, ⟨1099 / 1000, 70⟩)]⟩

/-! ## Lemmas on the comparator and on the `std::map` operations -/

theorem Bool2Sort_irrefl (asc : Bool) (a : Int) : Bool2Sort asc a a = false := by
  cases asc <;> simp [Bool2Sort]

theorem Bool2Sort_trans {asc : Bool} {a b c : Int}
    (h1 : Bool2Sort asc a b = true) (h2 : Bool2Sort asc b c = true) :
    Bool2Sort asc a c = true := by
  cases asc <;> simp [Bool2Sort] at * <;> omega

theorem Bool2Sort_asymm {asc : Bool} {a b : Int}
    (h1 : Bool2Sort asc a b = true) : Bool2Sort asc b a = false := by
  cases asc <;> simp [Bool2Sort] at * <;> omega

theorem Bool2Sort_equiv {asc : Bool} {a b : Int}
    (h1 : Bool2Sort asc a b = false) (h2 : Bool2Sort asc b a = false) : a = b := by
  cases asc <;> simp [Bool2Sort] at * <;> omega

theorem Levels.emplace_false (cmp : Key → Key → Bool) (k : Key) (v : Level) (l : Levels)
    (h : (Levels.emplace cmp k v l).2 = false) : (Levels.emplace cmp k v l).1 = l := by
  induction l with
  | nil => simp [Levels.emplace] at h
  | cons x xs ih =>
    unfold Levels.emplace at h ⊢
    cases h1 : cmp k x.1
    · cases h2 : cmp x.1 k
      · simp
      · simp only [h1, h2, ↓reduceIte, Bool.false_eq_true] at h ⊢
        rw [ih h]
    · simp [h1] at h

theorem Levels.emplace_of_mem {asc : Bool} (k : Key) (v : Level) (l : Levels)
    (ho : Levels.Ordered (Bool2Sort asc) l) (hk : k ∈ Levels.keys l) :
    (Levels.emplace (Bool2Sort asc) k v l).2 = false := by
  induction l with
  | nil => simp [Levels.keys] at hk
  | cons x xs ih =>
    unfold Levels.emplace
    simp only [Levels.Ordered, List.pairwise_cons] at ho
    simp only [Levels.keys, List.map_cons, List.mem_cons] at hk
    rcases hk with hk | hk
    · subst hk
      simp [Bool2Sort_irrefl]
    · obtain ⟨y, hy, hyk⟩ := List.mem_map.1 hk
      have hxy : Bool2Sort asc x.1 k = true := hyk ▸ ho.1 y hy
      have hkx : Bool2Sort asc k x.1 = false := Bool2Sort_asymm hxy
      simp only [hkx, hxy, ↓reduceIte, Bool.false_eq_true]
      exact ih ho.2 hk

theorem Levels.emplace_of_not_mem (asc : Bool) (k : Key) (v : Level) (l : Levels)
    (hk : k ∉ Levels.keys l) :
    (Levels.emplace (Bool2Sort asc) k v l).2 = true ∧
      List.Perm (Levels.emplace (Bool2Sort asc) k v l).1 ((k, v) :: l) := by
  induction l with
  | nil => simp [Levels.emplace]
  | cons x xs ih =>
    unfold Levels.emplace
    simp only [Levels.keys, List.map_cons, List.mem_cons, not_or] at hk
    cases h1 : Bool2Sort asc k x.1
    · cases h2 : Bool2Sort asc x.1 k
      · exact absurd (Bool2Sort_equiv h1 h2) hk.1
      · simp only [↓reduceIte, Bool.false_eq_true]
        have := ih hk.2
        refine ⟨this.1, ?_⟩
        exact (List.Perm.cons x this.2).trans (List.Perm.swap _ _ _)
    · simp

theorem Levels.emplace_mem (cmp : Key → Key → Bool) (k : Key) (v : Level) (l : Levels) :
    ∀ a, a ∈ (Levels.emplace cmp k v l).1 → a = (k, v) ∨ a ∈ l := by
  induction l with
  | nil => intro a; simp [Levels.emplace]
  | cons x xs ih =>
    intro a
    unfold Levels.emplace
    cases h1 : cmp k x.1
    · cases h2 : cmp x.1 k
      · simp only [↓reduceIte, Bool.false_eq_true]
        exact fun h => Or.inr h
      · simp only [↓reduceIte, Bool.false_eq_true, List.mem_cons]
        rintro (h | h)
        · exact Or.inr (Or.inl h)
        · rcases ih a h with h | h
          · exact Or.inl h
          · exact Or.inr (Or.inr h)
    · simp

theorem Levels.emplace_ordered {asc : Bool} (k : Key) (v : Level) (l : Levels)
    (ho : Levels.Ordered (Bool2Sort asc) l) :
    Levels.Ordered (Bool2Sort asc) (Levels.emplace (Bool2Sort asc) k v l).1 := by
  induction l with
  | nil => simp [Levels.emplace, Levels.Ordered]
  | cons x xs ih =>
    unfold Levels.emplace
    have ho2 := ho
    simp only [Levels.Ordered, List.pairwise_cons] at ho2
    cases h1 : Bool2Sort asc k x.1
    · cases h2 : Bool2Sort asc x.1 k
      · simp only [↓reduceIte, Bool.false_eq_true]
        exact ho
      · simp only [↓reduceIte, Bool.false_eq_true, Levels.Ordered, List.pairwise_cons]
        refine ⟨?_, ih ho2.2⟩
        intro a ha
        rcases Levels.emplace_mem _ k v xs a ha with ha | ha
        · rw [ha]; exact h2
        · exact ho2.1 a ha
    · simp only [↓reduceIte, Levels.Ordered, List.pairwise_cons]
      refine ⟨?_, ho2⟩
      intro a ha
      rcases List.mem_cons.1 ha with ha | ha
      · rw [ha]; exact h1
      · exact Bool2Sort_trans h1 (ho2.1 a ha)

theorem Levels.find_of_not_mem (asc : Bool) (k : Key) (l : Levels)
    (hk : k ∉ Levels.keys l) : Levels.find (Bool2Sort asc) k l = none := by
  induction l with
  | nil => rfl
  | cons x xs ih =>
    unfold Levels.find
    simp only [Levels.keys, List.map_cons, List.mem_cons, not_or] at hk
    cases h1 : Bool2Sort asc x.1 k
    · cases h2 : Bool2Sort asc k x.1
      · exact absurd (Bool2Sort_equiv h2 h1) hk.1
      · simp
    · simp only [↓reduceIte]
      rw [ih hk.2]; rfl

theorem Levels.find_decomp {asc : Bool} (k : Key) (l : Levels) :
    ∀ i, Levels.find (Bool2Sort asc) k l = some i →
      ∃ pre lv post, l = pre ++ (k, lv) :: post ∧ pre.length = i := by
  induction l with
  | nil => intro i h; simp [Levels.find] at h
  | cons x xs ih =>
    intro i h
    unfold Levels.find at h
    cases h1 : Bool2Sort asc x.1 k
    · cases h2 : Bool2Sort asc k x.1
      · simp only [h1, h2, ↓reduceIte, Bool.false_eq_true, Option.some.injEq] at h
        have hx : x.1 = k := Bool2Sort_equiv h1 h2
        refine ⟨[], x.2, xs, ?_, by simpa using h⟩
        simp [← hx]
      · simp [h1, h2] at h
    · simp only [h1, ↓reduceIte, Option.map_eq_some'] at h
      obtain ⟨j, hj, hji⟩ := h
      obtain ⟨pre, lv, post, hl, hlen⟩ := ih j hj
      exact ⟨x :: pre, lv, post, by simp [hl], by simp [hlen, hji]⟩

theorem Levels.find_of_mem {asc : Bool} (k : Key) (l : Levels)
    (ho : Levels.Ordered (Bool2Sort asc) l) (hk : k ∈ Levels.keys l) :
    ∃ i, Levels.find (Bool2Sort asc) k l = some i := by
  induction l with
  | nil => simp [Levels.keys] at hk
  | cons x xs ih =>
    unfold Levels.find
    simp only [Levels.Ordered, List.pairwise_cons] at ho
    simp only [Levels.keys, List.map_cons, List.mem_cons] at hk
    rcases hk with hk | hk
    · subst hk
      simp [Bool2Sort_irrefl]
    · obtain ⟨y, hy, hyk⟩ := List.mem_map.1 hk
      have hxy : Bool2Sort asc x.1 k = true := hyk ▸ ho.1 y hy
      obtain ⟨i, hi⟩ := ih ho.2 hk
      exact ⟨i + 1, by simp [hxy, hi]⟩

theorem Levels.assignValue_append (pre : Levels) (x : Key × Level) (post : Levels) (val : ℚ) :
    Levels.assignValue pre.length val (pre ++ x :: post)
      = pre ++ (x.1, { x.2 with value := val }) :: post := by
  induction pre with
  | nil => simp [Levels.assignValue]
  | cons y ys ih => simp [Levels.assignValue, ih]

theorem Levels.eraseIdx_append (pre : Levels) (x : Key × Level) (post : Levels) :
    List.eraseIdx (pre ++ x :: post) pre.length = pre ++ post := by
  induction pre with
  | nil => simp
  | cons y ys ih => simp [ih]

theorem Levels.ordered_decomp {asc : Bool} (pre : Levels) (k : Key) (lv : Level) (post : Levels)
    (ho : Levels.Ordered (Bool2Sort asc) (pre ++ (k, lv) :: post)) :
    k ∉ Levels.keys pre ∧ k ∉ Levels.keys post := by
  simp only [Levels.Ordered, List.pairwise_append, List.pairwise_cons] at ho
  obtain ⟨_, ⟨hpost, _⟩, hpre⟩ := ho
  constructor
  · intro hmem
    obtain ⟨y, hy, hyk⟩ := List.mem_map.1 hmem
    have := hpre y hy (k, lv) (List.mem_cons_self _ _)
    rw [hyk] at this
    simp [Bool2Sort_irrefl] at this
  · intro hmem
    obtain ⟨y, hy, hyk⟩ := List.mem_map.1 hmem
    have := hpost y hy
    rw [hyk] at this
    simp [Bool2Sort_irrefl] at this

theorem Levels.ordered_assign {asc : Bool} (pre : Levels) (k : Key) (lv lv2 : Level)
    (post : Levels) (ho : Levels.Ordered (Bool2Sort asc) (pre ++ (k, lv) :: post)) :
    Levels.Ordered (Bool2Sort asc) (pre ++ (k, lv2) :: post) := by
  simp only [Levels.Ordered, List.pairwise_append, List.pairwise_cons, List.mem_cons] at ho ⊢
  obtain ⟨h1, ⟨h2, h3⟩, h4⟩ := ho
  refine ⟨h1, ⟨h2, h3⟩, ?_⟩
  intro a ha b hb
  rcases hb with hb | hb
  · have := h4 a ha (k, lv) (Or.inl rfl)
    rw [hb]; exact this
  · exact h4 a ha b (Or.inr hb)

theorem Levels.ordered_erase {asc : Bool} (pre : Levels) (x : Key × Level)
    (post : Levels) (ho : Levels.Ordered (Bool2Sort asc) (pre ++ x :: post)) :
    Levels.Ordered (Bool2Sort asc) (pre ++ post) := by
  simp only [Levels.Ordered, List.pairwise_append, List.pairwise_cons, List.mem_cons] at ho ⊢
  obtain ⟨h1, ⟨_, h3⟩, h4⟩ := ho
  exact ⟨h1, h3, fun a ha b hb => h4 a ha b (Or.inr hb)⟩

theorem Book.Side.Add_ordered {asc : Bool} (s : Book.Side asc) (price value : ℚ)
    (ho : Levels.Ordered (Bool2Sort asc) s.m_levels) :
    Levels.Ordered (Bool2Sort asc) (s.Add price value).state.m_levels := by
  have h := Levels.emplace_ordered (Book.Side.CreateKey price)
    { price := price, value := value } s.m_levels ho
  unfold Book.Side.Add
  dsimp only
  split <;> exact h

theorem Book.Side.Set_ordered {asc : Bool} (s : Book.Side asc) (action : MDUpdateAction)
    (price val : ℚ) (ho : Levels.Ordered (Bool2Sort asc) s.m_levels) :
    Levels.Ordered (Bool2Sort asc) (s.Set action price val).state.m_levels := by
  unfold Book.Side.Set
  split
  · exact Book.Side.Add_ordered s price val ho
  · split
    · exact ho
    · rename_i it hfind
      obtain ⟨pre, lv, post, hl, hlen⟩ := Levels.find_decomp _ _ _ hfind
      subst hlen
      rw [hl] at ho ⊢
      split
      · simp only [Result.state, Levels.eraseIdx_append]
        exact Levels.ordered_erase _ _ _ ho
      · simp only [Result.state, Levels.assignValue_append]
        exact Levels.ordered_assign _ _ _ _ _ ho

theorem Book.Side.Reachable.ordered {asc : Bool} {s : Book.Side asc} (h : s.Reachable) :
    Levels.Ordered (Bool2Sort asc) s.m_levels := by
  induction h with
  | empty => simp [Book.Side.empty, Levels.Ordered]
  | add price value _ ih => exact Book.Side.Add_ordered _ price value ih
  | set action price val _ ih => exact Book.Side.Set_ordered _ action price val ih

theorem Book.Side.Add_of_not_mem {asc : Bool} (s : Book.Side asc) (price size : ℚ)
    (hk : Book.Side.CreateKey price ∉ Levels.keys s.m_levels) :
    ∃ s2 : Book.Side asc, s.Add price size = .ok s2 ∧
      List.Perm s2.m_levels
        ((Book.Side.CreateKey price, { price := price, value := size }) :: s.m_levels) := by
  have h := Levels.emplace_of_not_mem asc (Book.Side.CreateKey price)
    { price := price, value := size } s.m_levels hk
  refine ⟨⟨(Levels.emplace (Bool2Sort asc) (Book.Side.CreateKey price)
    { price := price, value := size } s.m_levels).1⟩, ?_, h.2⟩
  unfold Book.Side.Add
  simp only [h.1]
  rfl

/-! ## Claims on `Book::Side` -/

/-- C1: in every Side reachable from the empty Side by `Add`/`Set` calls, the
levels listed by `GetLevelAt 0 .. GetSize-1` have strictly increasing keys for
an ask Side and strictly decreasing keys for a bid Side, and no two levels
share a key. -/
theorem Book.Side.levels_strictly_ordered {asc : Bool} (s : Book.Side asc)
    (h : s.Reachable) :
    (∀ i j, i < j → j < s.GetSize →
      ∃ a b, s.GetLevelAt i = some a ∧ s.GetLevelAt j = some b ∧
        (if asc then a.1 < b.1 else b.1 < a.1)) ∧
    (Levels.keys s.m_levels).Nodup := by
  have ho := h.ordered
  constructor
  · intro i j hij hj
    have hi : i < s.m_levels.length := lt_trans hij hj
    refine ⟨s.m_levels.get ⟨i, hi⟩, s.m_levels.get ⟨j, hj⟩, ?_, ?_, ?_⟩
    · simp [Book.Side.GetLevelAt, List.get?_eq_get hi]
    · simp [Book.Side.GetLevelAt, List.get?_eq_get hj]
    · have := List.pairwise_iff_get.1 ho ⟨i, hi⟩ ⟨j, hj⟩ hij
      cases asc <;> simpa [Bool2Sort] using this
  · unfold Levels.keys
    rw [List.Nodup, List.pairwise_map]
    refine List.Pairwise.imp ?_ ho
    intro a b hab heq
    rw [heq, Bool2Sort_irrefl] at hab
    exact Bool.false_ne_true hab

/-- Witness for C1: the ask Side built by `Add 1.1010 50` then `Add 1.1000 100`
is reachable, and its two levels are listed with increasing keys. -/
theorem Book.Side.levels_strictly_ordered_witness :
    Book.Side.Reachable
        (((Book.Side.empty : Book.Side true).Add (1101 / 1000) 50).state.Add (11 / 10) 100).state ∧
      ∃ a b,
        (((Book.Side.empty : Book.Side true).Add (1101 / 1000) 50).state.Add
            (11 / 10) 100).state.GetLevelAt 0 = some a ∧
        (((Book.Side.empty : Book.Side true).Add (1101 / 1000) 50).state.Add
            (11 / 10) 100).state.GetLevelAt 1 = some b ∧
        (if true then a.1 < b.1 else b.1 < a.1) :=
  ⟨Book.Side.Reachable.add _ _ (Book.Side.Reachable.add _ _ Book.Side.Reachable.empty),
    (Book.Side.levels_strictly_ordered _
      (Book.Side.Reachable.add _ _ (Book.Side.Reachable.add _ _ Book.Side.Reachable.empty))).1
      0 1 (by decide) (by with_unfolding_all decide)⟩

/-- C2: on a Side whose levels are ordered (the `std::map` invariant), `Add`
of a price whose key is present throws `ProtocolError` and leaves the levels
unchanged; when the key is absent `Add` returns and the levels afterwards are
the old levels plus the level `(price, size)`. -/
theorem Book.Side.Add_spec {asc : Bool} (s : Book.Side asc)
    (ho : Levels.Ordered (Bool2Sort asc) s.m_levels) (price size : ℚ) :
    (Book.Side.CreateKey price ∈ Levels.keys s.m_levels →
      s.Add price size = .thrown Error.ProtocolError s) ∧
    (Book.Side.CreateKey price ∉ Levels.keys s.m_levels →
      ∃ s2 : Book.Side asc, s.Add price size = .ok s2 ∧
        List.Perm s2.m_levels
          ((Book.Side.CreateKey price, { price := price, value := size }) :: s.m_levels)) := by
  constructor
  · intro hk
    have h2 := Levels.emplace_of_mem (Book.Side.CreateKey price)
      { price := price, value := size } s.m_levels ho hk
    have h1 := Levels.emplace_false _ _ _ _ h2
    unfold Book.Side.Add
    simp only [h2, h1]
    rfl
  · intro hk
    exact Book.Side.Add_of_not_mem s price size hk

/-- Witness for C2 on `sampleAsks`: adding 1.1000 again throws and changes
nothing, adding 1.1020 returns with the new level included. -/
theorem Book.Side.Add_spec_witness :
    Levels.Ordered (Bool2Sort true) sampleAsks.m_levels ∧
      sampleAsks.Add (11 / 10) 5 = .thrown Error.ProtocolError sampleAsks ∧
      ∃ s2 : Book.Side true, sampleAsks.Add (1102 / 1000) 5 = .ok s2 ∧
        List.Perm s2.m_levels
          ((Book.Side.CreateKey (1102 / 1000), { price := 1102 / 1000, value := 5 })
            :: sampleAsks.m_levels) :=
  ⟨by with_unfolding_all decide,
    (Book.Side.Add_spec sampleAsks (by with_unfolding_all decide) (11 / 10) 5).1
      (by with_unfolding_all decide),
    (Book.Side.Add_spec sampleAsks (by with_unfolding_all decide) (1102 / 1000) 5).2
      (by with_unfolding_all decide)⟩

/-- C3: when the key of `price` is absent from the Side, `Set` with `Change`
and `Set` with `Delete` both throw `ProtocolError` and leave the levels
unchanged. -/
theorem Book.Side.Set_absent {asc : Bool} (s : Book.Side asc) (price size : ℚ)
    (hk : Book.Side.CreateKey price ∉ Levels.keys s.m_levels) :
    s.Set MDUpdateAction.MDUpdateAction_Change price size = .thrown Error.ProtocolError s ∧
    s.Set MDUpdateAction.MDUpdateAction_Delete price size = .thrown Error.ProtocolError s := by
  have h := Levels.find_of_not_mem asc _ _ hk
  constructor <;> simp [Book.Side.Set, h]

/-- Witness for C3 on `sampleBids` with the absent price 1.2000. -/
theorem Book.Side.Set_absent_witness :
    Book.Side.CreateKey (12 / 10) ∉ Levels.keys sampleBids.m_levels ∧
      sampleBids.Set MDUpdateAction.MDUpdateAction_Change (12 / 10) 5
        = .thrown Error.ProtocolError sampleBids ∧
      sampleBids.Set MDUpdateAction.MDUpdateAction_Delete (12 / 10) 5
        = .thrown Error.ProtocolError sampleBids :=
  ⟨by with_unfolding_all decide,
    Book.Side.Set_absent sampleBids (12 / 10) 5 (by with_unfolding_all decide)⟩

/-- C4: `Set` with action `New` is `Add`: same outcome (returned or thrown,
same error) and same resulting Side, for every Side, price and size. -/
theorem Book.Side.Set_New_eq_Add {asc : Bool} (s : Book.Side asc) (price size : ℚ) :
    s.Set MDUpdateAction.MDUpdateAction_New price size = s.Add price size := by
  simp [Book.Side.Set]

/-- C5: on an ordered Side holding a level at the key of `price`, `Set Change`
returns, keeps the level count and the key sequence, gives the level at that
key the size `v` and leaves all other levels as they were; a following
`Set Delete` returns, leaves no level with that key, lowers the count by one
and leaves all other levels as they were. -/
theorem Book.Side.Change_then_Delete {asc : Bool} (s : Book.Side asc)
    (ho : Levels.Ordered (Bool2Sort asc) s.m_levels) (price v w : ℚ)
    (hk : Book.Side.CreateKey price ∈ Levels.keys s.m_levels) :
    ∃ s1 s2 : Book.Side asc,
      s.Set MDUpdateAction.MDUpdateAction_Change price v = .ok s1 ∧
      s1.GetSize = s.GetSize ∧
      Levels.keys s1.m_levels = Levels.keys s.m_levels ∧
      (∀ a ∈ s1.m_levels, a.1 = Book.Side.CreateKey price → a.2.value = v) ∧
      (∀ a : Key × Level, a.1 ≠ Book.Side.CreateKey price →
        (a ∈ s1.m_levels ↔ a ∈ s.m_levels)) ∧
      s1.Set MDUpdateAction.MDUpdateAction_Delete price w = .ok s2 ∧
      Book.Side.CreateKey price ∉ Levels.keys s2.m_levels ∧
      s2.GetSize + 1 = s1.GetSize ∧
      (∀ a : Key × Level, a.1 ≠ Book.Side.CreateKey price →
        (a ∈ s2.m_levels ↔ a ∈ s1.m_levels)) := by
  obtain ⟨i, hfind⟩ := Levels.find_of_mem _ _ ho hk
  obtain ⟨pre, lv, post, hl, hlen⟩ := Levels.find_decomp _ _ _ hfind
  subst hlen
  obtain ⟨s_levels⟩ := s
  simp only at hl ho hk hfind
  subst hl
  have hdec := Levels.ordered_decomp _ _ _ _ ho
  have ho1 := Levels.ordered_assign pre _ lv { lv with value := v } post ho
  have hk1 : Book.Side.CreateKey price ∈
      Levels.keys (pre ++ (Book.Side.CreateKey price, { lv with value := v }) :: post) := by
    simp [Levels.keys]
  obtain ⟨j, hfind1⟩ := Levels.find_of_mem _ _ ho1 hk1
  obtain ⟨pre1, lv1, post1, hl1, hlen1⟩ := Levels.find_decomp _ _ _ hfind1
  have hdec1 := Levels.ordered_decomp _ _ _ _ (hl1 ▸ ho1)
  refine ⟨⟨pre ++ (Book.Side.CreateKey price, { lv with value := v }) :: post⟩,
    ⟨pre1 ++ post1⟩, ?_, ?_, ?_, ?_, ?_, ?_, ?_, ?_, ?_⟩
  · simp [Book.Side.Set, hfind, Levels.assignValue_append]
  · simp [Book.Side.GetSize]
  · simp [Levels.keys]
  · intro a ha hak
    simp only [List.mem_append, List.mem_cons] at ha
    rcases ha with ha | ha | ha
    · exact absurd (hak ▸ List.mem_map_of_mem Prod.fst ha) hdec.1
    · rw [ha]
    · exact absurd (hak ▸ List.mem_map_of_mem Prod.fst ha) hdec.2
  · intro a hak
    simp only [List.mem_append, List.mem_cons]
    constructor
    · rintro (h | h | h)
      · exact Or.inl h
      · exact absurd (by rw [h]) hak
      · exact Or.inr (Or.inr h)
    · rintro (h | h | h)
      · exact Or.inl h
      · exact absurd (by rw [h]) hak
      · exact Or.inr (Or.inr h)
  · subst hlen1
    simp only [Book.Side.Set, hfind1]
    simp only [hl1, Levels.eraseIdx_append]
    simp
  · simp only [Levels.keys, List.map_append, List.mem_append, not_or]
    exact hdec1
  · simp only [Book.Side.GetSize, hl1]
    simp
    omega
  · intro a hak
    simp only [hl1, List.mem_append, List.mem_cons]
    constructor
    · rintro (h | h)
      · exact Or.inl h
      · exact Or.inr (Or.inr h)
    · rintro (h | h | h)
      · exact Or.inl h
      · exact absurd (by rw [h]) hak
      · exact Or.inr h

/-- Witness for C5 on `sampleBids`: the level at 1.1000 is changed to size 75
and then deleted. -/
theorem Book.Side.Change_then_Delete_witness :
    Levels.Ordered (Bool2Sort false) sampleBids.m_levels ∧
      Book.Side.CreateKey (11 / 10) ∈ Levels.keys sampleBids.m_levels ∧
      ∃ s1 s2 : Book.Side false,
        sampleBids.Set MDUpdateAction.MDUpdateAction_Change (11 / 10) 75 = .ok s1 ∧
        s1.GetSize = sampleBids.GetSize ∧
        Levels.keys s1.m_levels = Levels.keys sampleBids.m_levels ∧
        (∀ a ∈ s1.m_levels, a.1 = Book.Side.CreateKey (11 / 10) → a.2.value = 75) ∧
        (∀ a : Key × Level, a.1 ≠ Book.Side.CreateKey (11 / 10) →
          (a ∈ s1.m_levels ↔ a ∈ sampleBids.m_levels)) ∧
        s1.Set MDUpdateAction.MDUpdateAction_Delete (11 / 10) 0 = .ok s2 ∧
        Book.Side.CreateKey (11 / 10) ∉ Levels.keys s2.m_levels ∧
        s2.GetSize + 1 = s1.GetSize ∧
        (∀ a : Key × Level, a.1 ≠ Book.Side.CreateKey (11 / 10) →
          (a ∈ s2.m_levels ↔ a ∈ s1.m_levels)) :=
  ⟨by with_unfolding_all decide, by with_unfolding_all decide,
    Book.Side.Change_then_Delete sampleBids (by with_unfolding_all decide) (11 / 10) 75 0
      (by with_unfolding_all decide)⟩

/-! ## Lemmas on the scanning loops of `Content` -/

theorem Content.findLoop_bounds (c : Content) (value : Int) (n : Nat) :
    ∀ it, it ≤ c.findLoop value n it ∧ c.findLoop value n it ≤ it + n := by
  induction n with
  | zero => intro it; simp [Content.findLoop]
  | succ n ih =>
    intro it
    unfold Content.findLoop
    split
    · omega
    · have := ih (it + 1)
      omega

theorem Content.find_bounds (c : Content) (value : Int) (it last : Nat) (h : it ≤ last) :
    it ≤ c.find it last value ∧ c.find it last value ≤ last := by
  have := Content.findLoop_bounds c value (last - it) it
  unfold Content.find
  omega

/-- The fuel of the scan is never used up: above `end - it`, more fuel
changes nothing. -/
theorem Content.FindTagBegin.scan_fuel (c : Content) (tag : List Int) (end_ : Nat)
    (fuel : Nat) :
    ∀ (extra it : Nat), end_ - it < fuel →
      Content.FindTagBegin.scan c tag end_ (fuel + extra) it
        = Content.FindTagBegin.scan c tag end_ fuel it := by
  induction fuel with
  | zero => intro extra it h; omega
  | succ fuel ih =>
    intro extra it h
    rw [show fuel + 1 + extra = (fuel + extra) + 1 by omega]
    simp only [Content.FindTagBegin.scan]
    split
    · rename_i hc
      split
      · rfl
      · rename_i hne
        have hb := Content.find_bounds c c.m_soh it end_ (le_of_lt hc.1)
        apply ih
        omega
    · rfl

/-- The fuel of the integer loop is never used up: from `m_end - it` on,
more fuel changes nothing. -/
theorem Content.ReadIntValue.loop_fuel_int (c : Content) (w : Nat) (fuel : Nat) :
    ∀ (extra : Nat) (result : Int) (it : Nat), c.m_end - it ≤ fuel →
      Content.ReadIntValue.loop c w (fuel + extra) result it
        = Content.ReadIntValue.loop c w fuel result it := by
  induction fuel with
  | zero =>
    intro extra result it h
    cases extra with
    | zero => rfl
    | succ extra =>
      have : it + 1 ≥ c.m_end := by omega
      simp [Content.ReadIntValue.loop, this]
  | succ fuel ih =>
    intro extra result it h
    rw [show fuel + 1 + extra = (fuel + extra) + 1 by omega]
    simp only [Content.ReadIntValue.loop]
    split
    · rfl
    · split
      · apply ih
        omega
      · rfl

/-- The fuel of the digit loops is never used up. -/
theorem Content.ReadDoubleValue.digits_fuel (c : Content) (fuel : Nat) :
    ∀ (extra : Nat) (acc : ℚ) (n it : Nat), c.m_end - it < fuel →
      Content.ReadDoubleValue.digits c (fuel + extra) acc n it
        = Content.ReadDoubleValue.digits c fuel acc n it := by
  induction fuel with
  | zero => intro extra acc n it h; omega
  | succ fuel ih =>
    intro extra acc n it h
    rw [show fuel + 1 + extra = (fuel + extra) + 1 by omega]
    simp only [Content.ReadDoubleValue.digits]
    split
    · split
      · rfl
      · apply ih
        omega
    · rfl

/-! ## Lemmas on the loops of `Book` -/

theorem levelsOf_nil (t : MDEntryType) : levelsOf t [] = [] := rfl

theorem levelsOf_cons_same (t : MDEntryType) (p v : ℚ) (es : List (MDEntryType × ℚ × ℚ)) :
    levelsOf t ((t, p, v) :: es)
      = (Book.Side.CreateKey p, { price := p, value := v }) :: levelsOf t es := by
  simp [levelsOf]

theorem levelsOf_cons_other (t t2 : MDEntryType) (p v : ℚ) (es : List (MDEntryType × ℚ × ℚ))
    (h : t2 ≠ t) : levelsOf t ((t2, p, v) :: es) = levelsOf t es := by
  simp [levelsOf, h]

theorem Levels.perm_insert {s2 l : Levels} {x : Key × Level} (r : Levels)
    (h : List.Perm s2 (x :: l)) : List.Perm (r ++ s2) (x :: r ++ l) :=
  (List.Perm.append_left r h).trans List.perm_middle

theorem Book.ctor.loop_spec (fuel : Nat) :
    ∀ (m : Message) (entry : Option MdEntry) (b : Book) (es : List (MDEntryType × ℚ × ℚ)),
      Message.snapshotEntries.loop fuel m entry = .ok es →
      (Levels.keys (levelsOf MDEntryType.MDEntryType_Bid es ++ b.m_bids.m_levels)).Nodup →
      (Levels.keys (levelsOf MDEntryType.MDEntryType_Offer es ++ b.m_asks.m_levels)).Nodup →
      ∃ b2 : Book, Book.ctor.loop fuel m entry b = .ok b2 ∧
        List.Perm b2.m_bids.m_levels
          (levelsOf MDEntryType.MDEntryType_Bid es ++ b.m_bids.m_levels) ∧
        List.Perm b2.m_asks.m_levels
          (levelsOf MDEntryType.MDEntryType_Offer es ++ b.m_asks.m_levels) := by
  induction fuel with
  | zero =>
    intro m entry b es hdec hb ha
    cases entry with
    | none =>
      simp only [Message.snapshotEntries.loop, Except.ok.injEq] at hdec
      subst hdec
      exact ⟨b, by simp [Book.ctor.loop], by simp [levelsOf_nil], by simp [levelsOf_nil]⟩
    | some e => simp [Message.snapshotEntries.loop] at hdec
  | succ fuel ih =>
    intro m entry b es hdec hb ha
    cases entry with
    | none =>
      simp only [Message.snapshotEntries.loop, Except.ok.injEq] at hdec
      subst hdec
      exact ⟨b, by simp [Book.ctor.loop], by simp [levelsOf_nil], by simp [levelsOf_nil]⟩
    | some e =>
      simp only [Message.snapshotEntries.loop] at hdec
      simp only [Book.ctor.loop]
      cases h1 : e.ReadMDEntryType with
      | error err => simp [h1] at hdec
      | ok r1 =>
        obtain ⟨type, e1⟩ := r1
        simp only [h1] at hdec ⊢
        cases h2 : e1.ReadMDEntryPx with
        | error err => simp [h2] at hdec
        | ok r2 =>
          obtain ⟨price, e2⟩ := r2
          simp only [h2] at hdec ⊢
          cases h3 : e2.ReadMDEntrySize with
          | error err => simp [h3] at hdec
          | ok r3 =>
            obtain ⟨val, e3⟩ := r3
            simp only [h3] at hdec ⊢
            cases h4 : e3.ReadNextMDEntry m with
            | error err => simp [h4] at hdec
            | ok r4 =>
              obtain ⟨next, m2⟩ := r4
              simp only [h4] at hdec
              cases h5 : Message.snapshotEntries.loop fuel m2 next with
              | error err => simp [h5] at hdec
              | ok rest =>
                simp only [h5, Except.ok.injEq] at hdec
                subst hdec
                cases type with
                | MDEntryType_Bid =>
                  rw [levelsOf_cons_same] at hb
                  rw [levelsOf_cons_other _ _ _ _ _ (by decide)] at ha
                  have hk : Book.Side.CreateKey price ∉ Levels.keys b.m_bids.m_levels := by
                    intro hmem
                    simp only [Levels.keys, List.cons_append, List.map_cons, List.map_append,
                      List.nodup_cons, List.mem_append, not_or] at hb
                    exact hb.1.2 hmem
                  obtain ⟨s2, hadd, hperm⟩ := Book.Side.Add_of_not_mem b.m_bids price val hk
                  have hp2 := Levels.perm_insert (levelsOf MDEntryType.MDEntryType_Bid rest) hperm
                  have hb2 : (Levels.keys (levelsOf MDEntryType.MDEntryType_Bid rest
                      ++ s2.m_levels)).Nodup :=
                    ((List.Perm.map Prod.fst hp2).nodup_iff).2 hb
                  obtain ⟨b3, hloop, hpb, hpa⟩ :=
                    ih m2 next { b with m_bids := s2 } rest h5 hb2 ha
                  refine ⟨b3, ?_, ?_, ?_⟩
                  · simp only [Book.ctor.switch, hadd, h4]
                    exact hloop
                  · rw [levelsOf_cons_same]
                    exact hpb.trans hp2
                  · rw [levelsOf_cons_other _ _ _ _ _ (by decide)]
                    exact hpa
                | MDEntryType_Offer =>
                  rw [levelsOf_cons_same] at ha
                  rw [levelsOf_cons_other _ _ _ _ _ (by decide)] at hb
                  have hk : Book.Side.CreateKey price ∉ Levels.keys b.m_asks.m_levels := by
                    intro hmem
                    simp only [Levels.keys, List.cons_append, List.map_cons, List.map_append,
                      List.nodup_cons, List.mem_append, not_or] at ha
                    exact ha.1.2 hmem
                  obtain ⟨s2, hadd, hperm⟩ := Book.Side.Add_of_not_mem b.m_asks price val hk
                  have hp2 := Levels.perm_insert (levelsOf MDEntryType.MDEntryType_Offer rest) hperm
                  have ha2 : (Levels.keys (levelsOf MDEntryType.MDEntryType_Offer rest
                      ++ s2.m_levels)).Nodup :=
                    ((List.Perm.map Prod.fst hp2).nodup_iff).2 ha
                  obtain ⟨b3, hloop, hpb, hpa⟩ :=
                    ih m2 next { b with m_asks := s2 } rest h5 hb ha2
                  refine ⟨b3, ?_, ?_, ?_⟩
                  · simp only [Book.ctor.switch, hadd, h4]
                    exact hloop
                  · rw [levelsOf_cons_other _ _ _ _ _ (by decide)]
                    exact hpb
                  · rw [levelsOf_cons_same]
                    exact hpa.trans hp2
                | MDEntryType_Trade =>
                  rw [levelsOf_cons_other _ _ _ _ _ (by decide)] at ha hb ⊢
                  rw [levelsOf_cons_other _ _ _ _ _ (by decide)]
                  obtain ⟨b3, hloop, hpb, hpa⟩ := ih m2 next b rest h5 hb ha
                  exact ⟨b3, by simp only [Book.ctor.switch, h4]; exact hloop, hpb, hpa⟩
                | MDEntryType_Index =>
                  rw [levelsOf_cons_other _ _ _ _ _ (by decide)] at ha hb ⊢
                  rw [levelsOf_cons_other _ _ _ _ _ (by decide)]
                  obtain ⟨b3, hloop, hpb, hpa⟩ := ih m2 next b rest h5 hb ha
                  exact ⟨b3, by simp only [Book.ctor.switch, h4]; exact hloop, hpb, hpa⟩
                | MDEntryType_SettlementPrice =>
                  rw [levelsOf_cons_other _ _ _ _ _ (by decide)] at ha hb ⊢
                  rw [levelsOf_cons_other _ _ _ _ _ (by decide)]
                  obtain ⟨b3, hloop, hpb, hpa⟩ := ih m2 next b rest h5 hb ha
                  exact ⟨b3, by simp only [Book.ctor.switch, h4]; exact hloop, hpb, hpa⟩





theorem MdEntry.ReadMDEntryType_count {e e1 : MdEntry} {t : MDEntryType}
    (h : e.ReadMDEntryType = .ok (t, e1)) :
    e1.m_numbeOfNextEntities = e.m_numbeOfNextEntities := by
  unfold MdEntry.ReadMDEntryType at h
  split at h
  · cases h
  · repeat' split at h
    all_goals (cases h; try rfl)

theorem MdEntry.ReadMDUpdateAction_count {e e1 : MdEntry} {t : MDUpdateAction}
    (h : e.ReadMDUpdateAction = .ok (t, e1)) :
    e1.m_numbeOfNextEntities = e.m_numbeOfNextEntities := by
  unfold MdEntry.ReadMDUpdateAction at h
  split at h
  · cases h
  · repeat' split at h
    all_goals (cases h; try rfl)

theorem MdEntry.ReadMDEntryPx_count {e e1 : MdEntry} {v : ℚ}
    (h : e.ReadMDEntryPx = .ok (v, e1)) :
    e1.m_numbeOfNextEntities = e.m_numbeOfNextEntities := by
  unfold MdEntry.ReadMDEntryPx at h
  split at h
  · cases h
  · simp only [Except.ok.injEq, Prod.mk.injEq] at h; rw [← h.2]

theorem MdEntry.ReadMDEntrySize_count {e e1 : MdEntry} {v : ℚ}
    (h : e.ReadMDEntrySize = .ok (v, e1)) :
    e1.m_numbeOfNextEntities = e.m_numbeOfNextEntities := by
  unfold MdEntry.ReadMDEntrySize at h
  split at h
  · cases h
  · simp only [Except.ok.injEq, Prod.mk.injEq] at h; rw [← h.2]

theorem Message.ReadMDEntry_count {m m2 : Message} {begin_ size : Nat} {tag : List Int}
    {e : MdEntry} (h : m.ReadMDEntry begin_ size tag = .ok (e, m2)) :
    e.m_numbeOfNextEntities = size - 1 := by
  unfold Message.ReadMDEntry at h
  split at h
  · split at h
    · cases h
    · simp only [Except.ok.injEq, Prod.mk.injEq] at h; rw [← h.1]
  · simp only [Except.ok.injEq, Prod.mk.injEq] at h; rw [← h.1]

theorem MdEntry.ReadNextMDEntry_count {e e2 : MdEntry} {m m2 : Message}
    (h : e.ReadNextMDEntry m = .ok (some e2, m2)) :
    e2.m_numbeOfNextEntities + 1 = e.m_numbeOfNextEntities := by
  unfold MdEntry.ReadNextMDEntry at h
  split at h
  · cases h
  · rename_i hne
    split at h
    · cases h
    · rename_i entry m3 hread
      simp only [Except.ok.injEq, Prod.mk.injEq, Option.some.injEq] at h
      have := Message.ReadMDEntry_count hread
      rw [← h.1, this]
      omega

/-- The fuel of the constructor's loop is never used up: above the
remaining-element counter of the entry, more fuel changes nothing. -/
theorem Book.ctor_loop_fuel (fuel : Nat) :
    ∀ (extra : Nat) (m : Message) (e : MdEntry) (b : Book),
      e.m_numbeOfNextEntities < fuel →
      Book.ctor.loop (fuel + extra) m (some e) b = Book.ctor.loop fuel m (some e) b := by
  induction fuel with
  | zero => intro extra m e b h; omega
  | succ fuel ih =>
    intro extra m e b h
    rw [show fuel + 1 + extra = (fuel + extra) + 1 by omega]
    simp only [Book.ctor.loop]
    cases h1 : e.ReadMDEntryType with
    | error err => rfl
    | ok r1 =>
      obtain ⟨type, e1⟩ := r1
      simp only []
      cases h2 : e1.ReadMDEntryPx with
      | error err => rfl
      | ok r2 =>
        obtain ⟨price, e2⟩ := r2
        simp only []
        cases h3 : e2.ReadMDEntrySize with
        | error err => rfl
        | ok r3 =>
          obtain ⟨val, e3⟩ := r3
          simp only []
          cases h5 : Book.ctor.switch b type price val with
          | error err => rfl
          | ok b2 =>
            simp only []
            cases h4 : e3.ReadNextMDEntry m with
            | error err => rfl
            | ok r4 =>
              obtain ⟨next, m2⟩ := r4
              simp only []
              cases next with
              | none => cases fuel <;> simp [Book.ctor.loop]
              | some e4 =>
                apply ih
                have := MdEntry.ReadNextMDEntry_count h4
                have c1 := MdEntry.ReadMDEntryType_count h1
                have c2 := MdEntry.ReadMDEntryPx_count h2
                have c3 := MdEntry.ReadMDEntrySize_count h3
                omega

/-! ## Lemmas on `BookSet` -/

theorem Message.ReadMsgSecNum_type {m m1 : Message} {v : Nat}
    (h : m.ReadMsgSecNum = .ok (v, m1)) : m1.m_type = m.m_type := by
  unfold Message.ReadMsgSecNum at h
  split at h
  · cases h
  · cases h; rfl

theorem Message.ReadSymbol_type {m m1 : Message} {v : List Int}
    (h : m.ReadSymbol = .ok (v, m1)) : m1.m_type = m.m_type := by
  unfold Message.ReadSymbol at h
  split at h
  · cases h
  · cases h; rfl

theorem BookSet.lookup_mem {books : List (List Int × (Nat × Option Book))} {key : List Int}
    {v : Nat × Option Book} (h : books.lookup key = some v) : (key, v) ∈ books := by
  induction books with
  | nil => simp at h
  | cons x xs ih =>
    obtain ⟨k, w⟩ := x
    simp only [List.lookup_cons] at h
    split at h
    · rename_i heq
      simp only [beq_iff_eq] at heq
      simp only [Option.some.injEq] at h
      subst heq; subst h
      exact List.mem_cons_self _ _
    · exact List.mem_cons_of_mem _ (ih h)

theorem BookSet.lookup_none {books : List (List Int × (Nat × Option Book))} {key : List Int}
    (h : books.lookup key = none) : key ∉ books.map Prod.fst := by
  induction books with
  | nil => simp
  | cons x xs ih =>
    obtain ⟨k, w⟩ := x
    simp only [List.lookup_cons] at h
    split at h
    · cases h
    · rename_i hne
      simp only [beq_eq_false_iff_ne, ne_eq] at hne
      simp only [List.map_cons, List.mem_cons, not_or]
      exact ⟨hne, ih h⟩

theorem BookSet.lookup_append_self (books : List (List Int × (Nat × Option Book)))
    (key : List Int) (v : Nat × Option Book) (h : books.lookup key = none) :
    (books ++ [(key, v)]).lookup key = some v := by
  induction books with
  | nil => simp [List.lookup]
  | cons x xs ih =>
    obtain ⟨k, w⟩ := x
    simp only [List.lookup_cons] at h
    split at h
    · cases h
    · rename_i hne
      simp only [List.cons_append, List.lookup_cons, hne]
      exact ih h

theorem BookSet.assign_keys (books : List (List Int × (Nat × Option Book)))
    (key : List Int) (v : Nat × Option Book) :
    (BookSet.assign books key v).map Prod.fst = books.map Prod.fst := by
  induction books with
  | nil => rfl
  | cons x xs ih =>
    simp only [BookSet.assign, List.map_cons, List.map_map] at ih ⊢
    rw [ih]
    split <;> rfl

theorem BookSet.mem_assign {books : List (List Int × (Nat × Option Book))}
    {key : List Int} {v : Nat × Option Book} {kv : List Int × (Nat × Option Book)}
    (h : kv ∈ BookSet.assign books key v) :
    (kv.1 = key ∧ kv.2 = v) ∨ (kv.1 ≠ key ∧ kv ∈ books) := by
  simp only [BookSet.assign, List.mem_map] at h
  obtain ⟨a, ha, hkv⟩ := h
  split at hkv
  · rename_i heq
    left; rw [← hkv]; exact ⟨heq, rfl⟩
  · rename_i hne
    right; rw [← hkv]; exact ⟨hne, ha⟩

theorem BookSet.assign_mem_self {books : List (List Int × (Nat × Option Book))}
    {key : List Int} (v : Nat × Option Book) (h : key ∈ books.map Prod.fst) :
    (key, v) ∈ BookSet.assign books key v := by
  simp only [BookSet.assign, List.mem_map] at h ⊢
  obtain ⟨a, ha, hk⟩ := h
  exact ⟨a, ha, by simp [hk]⟩

theorem BookSet.subscript_keys (books : List (List Int × (Nat × Option Book)))
    (key : List Int) : key ∈ (BookSet.subscript books key).map Prod.fst := by
  unfold BookSet.subscript
  split
  · rename_i v h
    exact List.mem_map.2 ⟨_, BookSet.lookup_mem h, rfl⟩
  · simp

theorem BookSet.subscript_nodup {books : List (List Int × (Nat × Option Book))}
    (key : List Int) (h : (books.map Prod.fst).Nodup) :
    ((BookSet.subscript books key).map Prod.fst).Nodup := by
  unfold BookSet.subscript
  split
  · exact h
  · rename_i hnone
    rw [List.map_append, List.nodup_append]
    refine ⟨h, by simp, ?_⟩
    intro a ha hb
    simp only [List.map_cons, List.map_nil, List.mem_singleton] at hb
    subst hb
    exact BookSet.lookup_none hnone ha

theorem BookSet.mem_subscript {books : List (List Int × (Nat × Option Book))}
    {key : List Int} {kv : List Int × (Nat × Option Book)}
    (h : kv ∈ BookSet.subscript books key) : kv ∈ books ∨ kv = (key, (0, none)) := by
  unfold BookSet.subscript at h
  split at h
  · exact Or.inl h
  · simpa using h

theorem BookSet.Inv_subscript {bs : BookSet} (key : List Int) (h : bs.Inv) :
    BookSet.Inv { bs with m_books := BookSet.subscript bs.m_books key } := by
  refine ⟨?_, BookSet.subscript_nodup key h.2⟩
  intro kv hkv
  rcases BookSet.mem_subscript hkv with hmem | heq
  · exact h.1 kv hmem
  · rw [heq]; exact Nat.zero_le _

theorem BookSet.Inv_assign_new {bs : BookSet} (key : List Int) (seqNum : Nat)
    (b : Option Book) (h : bs.Inv) (hlt : bs.m_seqNum < seqNum) :
    BookSet.Inv { m_seqNum := seqNum,
                  m_books := BookSet.assign (BookSet.subscript bs.m_books key) key (seqNum, b) } := by
  have h2 := BookSet.Inv_subscript key h
  refine ⟨?_, by rw [BookSet.assign_keys]; exact h2.2⟩
  intro kv hkv
  rcases BookSet.mem_assign hkv with ⟨_, hv⟩ | ⟨_, hmem⟩
  · rw [hv]
  · exact le_trans (h2.1 kv hmem) (le_of_lt hlt)

theorem BookSet.Inv_assign_old {bs : BookSet} (key : List Int)
    (b : Option Book) (h : bs.Inv) :
    BookSet.Inv { bs with
      m_books := BookSet.assign (BookSet.subscript bs.m_books key) key
        ((((BookSet.subscript bs.m_books key).lookup key).getD (0, none)).1, b) } := by
  have h2 := BookSet.Inv_subscript key h
  refine ⟨?_, by rw [BookSet.assign_keys]; exact h2.2⟩
  intro kv hkv
  rcases BookSet.mem_assign hkv with ⟨_, hv⟩ | ⟨_, hmem⟩
  · rw [hv]
    cases hl : (BookSet.subscript bs.m_books key).lookup key with
    | none => simp
    | some v => exact h2.1 _ (BookSet.lookup_mem hl)
  · exact h2.1 kv hmem

/-- What one `Update` does to the sequence numbers: the invariant is kept,
and `m_seqNum` moves to the number of the message exactly when the message is
applied. -/
theorem BookSet.Update_inv (bs : BookSet) (message : Message) (h : bs.Inv) :
    (bs.Update message).state.Inv ∧
      (∀ s, bs.accepted message = some s →
        bs.m_seqNum < s ∧ (bs.Update message).state.m_seqNum = s) ∧
      (bs.accepted message = none →
        (bs.Update message).state.m_seqNum = bs.m_seqNum) := by
  by_cases htype : message.GetType = 87 ∨ message.GetType = 88
  · have htype2 : ¬ (message.GetType ≠ 87 ∧ message.GetType ≠ 88) := by
      intro hc; rcases htype with h1 | h1
      · exact hc.1 h1
      · exact hc.2 h1
    cases hseq : message.ReadMsgSecNum with
    | error e =>
      simp [BookSet.Update, BookSet.accepted, htype2, htype, hseq, Result.state, h]
    | ok r =>
      obtain ⟨seqNum, m1⟩ := r
      by_cases hge : bs.m_seqNum ≥ seqNum
      · have : ¬ bs.m_seqNum < seqNum := by omega
        simp [BookSet.Update, BookSet.accepted, htype2, htype, hseq, Result.state, h, hge, this]
      · have hlt : bs.m_seqNum < seqNum := by omega
        cases hsym : m1.ReadSymbol with
        | error e =>
          simp [BookSet.Update, BookSet.accepted, htype2, htype, hseq, Result.state, h, hge,
            hsym, Result.isOk]
        | ok r2 =>
          obtain ⟨symbol, m2⟩ := r2
          have hty : m2.GetType = message.GetType := by
            simp only [Message.GetType]
            rw [Message.ReadSymbol_type hsym, Message.ReadMsgSecNum_type hseq]
          by_cases h87 : message.GetType = 87
          · cases hctor : Book.ctor m2 with
            | error e =>
              simp only [BookSet.Update, BookSet.accepted, htype2, htype, hseq, Result.state, hge,
                hsym, Result.isOk, hty, h87, hctor, if_true, if_false, and_false]
              simp
              exact BookSet.Inv_subscript symbol h
            | ok b =>
              simp only [BookSet.Update, BookSet.accepted, htype2, htype, hseq, Result.state, hge,
                hsym, Result.isOk, hty, h87, hctor, if_true, if_false, and_false, hlt]
              simp
              exact ⟨BookSet.Inv_assign_new symbol seqNum (some b) h hlt, hlt⟩
          · have h88 : message.GetType = 88 := by
              rcases htype with h1 | h1
              · exact absurd h1 h87
              · exact h1
            have h87b : ¬ (88 : Int) = 87 := by decide
            cases hbook : (((BookSet.subscript bs.m_books symbol).lookup symbol).getD
                (0, none)).2 with
            | none =>
              simp only [BookSet.Update, BookSet.accepted, htype2, htype, hseq, Result.state, hge,
                hsym, Result.isOk, hty, h88, h87b, hbook, if_true, if_false, and_false]
              simp
              exact BookSet.Inv_subscript symbol h
            | some b =>
              cases hupd : b.Update m2 with
              | thrown e b2 =>
                simp only [BookSet.Update, BookSet.accepted, htype2, htype, hseq, Result.state,
                  hge, hsym, Result.isOk, hty, h88, h87b, hbook, hupd, if_true, if_false,
                  and_false]
                simp
                exact BookSet.Inv_assign_old symbol (some b2) h
              | ok b2 =>
                simp only [BookSet.Update, BookSet.accepted, htype2, htype, hseq, Result.state,
                  hge, hsym, Result.isOk, hty, h88, h87b, hbook, hupd, if_true, if_false,
                  and_false, hlt]
                simp
                exact ⟨BookSet.Inv_assign_new symbol seqNum (some b2) h hlt, hlt⟩
  · have htype2 : message.GetType ≠ 87 ∧ message.GetType ≠ 88 := by
      constructor
      · intro hc; exact htype (Or.inl hc)
      · intro hc; exact htype (Or.inr hc)
    simp [BookSet.Update, BookSet.accepted, htype2, htype, Result.state, h]

theorem BookSet.filter_unique {l : List (List Int × (Nat × Option Book))}
    (p : List Int × (Nat × Option Book) → Bool) (key : List Int) (v : Nat × Option Book)
    (hnd : (l.map Prod.fst).Nodup) (hmem : (key, v) ∈ l)
    (hp : ∀ kv ∈ l, p kv = true ↔ kv.1 = key) : l.filter p = [(key, v)] := by
  induction l with
  | nil => simp at hmem
  | cons x xs ih =>
    simp only [List.map_cons, List.nodup_cons] at hnd
    by_cases hx : x.1 = key
    · have hxv : x = (key, v) := by
        rcases List.mem_cons.1 hmem with h | h
        · exact h.symm
        · exact absurd (hx ▸ List.mem_map_of_mem Prod.fst h) hnd.1
      have hpx : p x = true := (hp x (List.mem_cons_self _ _)).2 hx
      have hrest : xs.filter p = [] := by
        rw [List.filter_eq_nil_iff]
        intro a ha hpa
        have := (hp a (List.mem_cons_of_mem _ ha)).1 hpa
        exact hnd.1 (hx ▸ this ▸ List.mem_map_of_mem Prod.fst ha)
      rw [List.filter_cons, hpx, if_pos rfl, hrest, hxv]
    · have hpx : ¬ p x = true := fun h => hx ((hp x (List.mem_cons_self _ _)).1 h)
      have hmem2 : (key, v) ∈ xs := by
        rcases List.mem_cons.1 hmem with h | h
        · exact absurd (by rw [← h]) hx
        · exact h
      rw [List.filter_cons, if_neg hpx]
      exact ih hnd.2 hmem2 (fun kv hkv => hp kv (List.mem_cons_of_mem _ hkv))

/-- The state `Update` returns when it applies a message. -/
theorem BookSet.Update_ok_shape {bs bs2 : BookSet} {message m1 m2 : Message}
    {seqNum : Nat} {symbol : List Int}
    (htype : message.GetType = 87 ∨ message.GetType = 88)
    (hseq : message.ReadMsgSecNum = .ok (seqNum, m1)) (hgt : bs.m_seqNum < seqNum)
    (hsym : m1.ReadSymbol = .ok (symbol, m2)) (hok : bs.Update message = .ok bs2) :
    ∃ b : Book, bs2 = BookSet.mk seqNum
      (BookSet.assign (BookSet.subscript bs.m_books symbol) symbol (seqNum, some b)) := by
  have htype2 : ¬ (message.GetType ≠ 87 ∧ message.GetType ≠ 88) := by
    intro hc; rcases htype with h1 | h1
    · exact hc.1 h1
    · exact hc.2 h1
  have hge : ¬ bs.m_seqNum ≥ seqNum := by omega
  have hty : m2.GetType = message.GetType := by
    simp only [Message.GetType]
    rw [Message.ReadSymbol_type hsym, Message.ReadMsgSecNum_type hseq]
  simp only [BookSet.Update, htype2, hseq, hge, hsym, hty, if_false] at hok
  split at hok
  · split at hok
    · cases hok
    · rename_i b _
      exact ⟨b, by cases hok; rfl⟩
  · split at hok
    · cases hok
    · split at hok
      · cases hok
      · rename_i b2 _
        exact ⟨b2, by cases hok; rfl⟩

theorem BookSet.Run.inv {bs : BookSet} {acc : List Nat} (h : BookSet.Run bs acc) :
    bs.Inv ∧ bs.m_seqNum = acc.foldr max 0 := by
  induction h with
  | empty => exact ⟨⟨by simp [BookSet.empty], by simp [BookSet.empty]⟩, rfl⟩
  | update message _ ih =>
    rename_i bs0 acc0 _
    obtain ⟨hinv, hacc, hnone⟩ := BookSet.Update_inv bs0 message ih.1
    refine ⟨hinv, ?_⟩
    cases ha : bs0.accepted message with
    | none =>
      rw [hnone ha]
      simpa using ih.2
    | some s =>
      obtain ⟨hlt, hs⟩ := hacc s ha
      rw [hs]
      simp only [Option.toList, List.singleton_append, List.foldr_cons]
      rw [← ih.2]
      exact (max_eq_left (le_of_lt hlt)).symm

/-- The fuel of the decoding loop is never used up either. -/
theorem Message.snapshotEntries_loop_fuel (fuel : Nat) :
    ∀ (extra : Nat) (m : Message) (e : MdEntry),
      e.m_numbeOfNextEntities < fuel →
      Message.snapshotEntries.loop (fuel + extra) m (some e)
        = Message.snapshotEntries.loop fuel m (some e) := by
  induction fuel with
  | zero => intro extra m e h; omega
  | succ fuel ih =>
    intro extra m e h
    rw [show fuel + 1 + extra = (fuel + extra) + 1 by omega]
    simp only [Message.snapshotEntries.loop]
    cases h1 : e.ReadMDEntryType with
    | error err => rfl
    | ok r1 =>
      obtain ⟨type, e1⟩ := r1
      simp only []
      cases h2 : e1.ReadMDEntryPx with
      | error err => rfl
      | ok r2 =>
        obtain ⟨price, e2⟩ := r2
        simp only []
        cases h3 : e2.ReadMDEntrySize with
        | error err => rfl
        | ok r3 =>
          obtain ⟨val, e3⟩ := r3
          simp only []
          cases h4 : e3.ReadNextMDEntry m with
          | error err => rfl
          | ok r4 =>
            obtain ⟨next, m2⟩ := r4
            simp only []
            cases next with
            | none => cases fuel <;> simp [Message.snapshotEntries.loop]
            | some e4 =>
              rw [ih]
              have := MdEntry.ReadNextMDEntry_count h4
              have c1 := MdEntry.ReadMDEntryType_count h1
              have c2 := MdEntry.ReadMDEntryPx_count h2
              have c3 := MdEntry.ReadMDEntrySize_count h3
              omega

/-- The fuel of the loop of `Book::Update` is never used up. -/
theorem Book.Update_loop_fuel (fuel : Nat) :
    ∀ (extra : Nat) (m : Message) (e : MdEntry) (b : Book),
      e.m_numbeOfNextEntities < fuel →
      Book.Update.loop (fuel + extra) m (some e) b = Book.Update.loop fuel m (some e) b := by
  induction fuel with
  | zero => intro extra m e b h; omega
  | succ fuel ih =>
    intro extra m e b h
    rw [show fuel + 1 + extra = (fuel + extra) + 1 by omega]
    simp only [Book.Update.loop]
    cases h0 : e.ReadMDUpdateAction with
    | error err => rfl
    | ok r0 =>
      obtain ⟨action, e0⟩ := r0
      simp only []
      cases h1 : e0.ReadMDEntryType with
      | error err => rfl
      | ok r1 =>
        obtain ⟨type, e1⟩ := r1
        simp only []
        cases h2 : e1.ReadMDEntryPx with
        | error err => rfl
        | ok r2 =>
          obtain ⟨price, e2⟩ := r2
          simp only []
          cases h3 : e2.ReadMDEntrySize with
          | error err => rfl
          | ok r3 =>
            obtain ⟨val, e3⟩ := r3
            simp only []
            cases h5 : Book.Update.switch b action type price val with
            | thrown err b2 => rfl
            | ok b2 =>
              simp only []
              cases h4 : e3.ReadNextMDEntry m with
              | error err => rfl
              | ok r4 =>
                obtain ⟨next, m2⟩ := r4
                simp only []
                cases next with
                | none => cases fuel <;> simp [Book.Update.loop]
                | some e4 =>
                  apply ih
                  have := MdEntry.ReadNextMDEntry_count h4
                  have c0 := MdEntry.ReadMDUpdateAction_count h0
                  have c1 := MdEntry.ReadMDEntryType_count h1
                  have c2 := MdEntry.ReadMDEntryPx_count h2
                  have c3 := MdEntry.ReadMDEntrySize_count h3
                  omega

/-! ## Claims on `Book` and `BookSet` -/

/-- C6: when the group entries of a snapshot all decode (`snapshotEntries`
returns `es`, the entries as the reads of the constructor yield them) and no
two Bid entries and no two Offer entries have the same key, the constructor
returns a Book whose bid levels are exactly one level `(price, size)` per
Bid entry and whose ask levels are exactly one level per Offer entry; entries
of the other types leave no level. -/
theorem Book.ctor_snapshot (snapshot : Message) (es : List (MDEntryType × ℚ × ℚ))
    (hdec : snapshot.snapshotEntries = .ok es)
    (hbid : (Levels.keys (levelsOf MDEntryType.MDEntryType_Bid es)).Nodup)
    (hask : (Levels.keys (levelsOf MDEntryType.MDEntryType_Offer es)).Nodup) :
    ∃ b : Book, Book.ctor snapshot = .ok b ∧
      List.Perm b.m_bids.m_levels (levelsOf MDEntryType.MDEntryType_Bid es) ∧
      List.Perm b.m_asks.m_levels (levelsOf MDEntryType.MDEntryType_Offer es) := by
  unfold Message.snapshotEntries at hdec
  unfold Book.ctor
  cases hfirst : snapshot.ReadFirstMDEntry with
  | error e => simp [hfirst] at hdec
  | ok r =>
    obtain ⟨first, m1⟩ := r
    cases first with
    | none =>
      simp only [hfirst, Except.ok.injEq] at hdec
      subst hdec
      exact ⟨_, rfl, by simp [levelsOf_nil, Book.Side.empty],
        by simp [levelsOf_nil, Book.Side.empty]⟩
    | some entry =>
      simp only [hfirst] at hdec
      have h := Book.ctor.loop_spec (entry.m_numbeOfNextEntities + 1) m1 (some entry)
        { m_asks := Book.Side.empty, m_bids := Book.Side.empty } es hdec
        (by simpa [Book.Side.empty] using hbid) (by simpa [Book.Side.empty] using hask)
      simpa [Book.Side.empty] using h

/-- Witness for C6: the snapshot `snapEUR` with entries Bid 1.1000 (100) and
Offer 1.1010 (50). -/
theorem Book.ctor_snapshot_witness :
    snapEUR.snapshotEntries
        = .ok [(MDEntryType.MDEntryType_Bid, 11 / 10, 100),
               (MDEntryType.MDEntryType_Offer, 1101 / 1000, 50)] ∧
      (Levels.keys (levelsOf MDEntryType.MDEntryType_Bid
        [(MDEntryType.MDEntryType_Bid, 11 / 10, 100),
         (MDEntryType.MDEntryType_Offer, 1101 / 1000, 50)])).Nodup ∧
      (Levels.keys (levelsOf MDEntryType.MDEntryType_Offer
        [(MDEntryType.MDEntryType_Bid, 11 / 10, 100),
         (MDEntryType.MDEntryType_Offer, 1101 / 1000, 50)])).Nodup ∧
      ∃ b : Book, Book.ctor snapEUR = .ok b ∧
        List.Perm b.m_bids.m_levels (levelsOf MDEntryType.MDEntryType_Bid
          [(MDEntryType.MDEntryType_Bid, 11 / 10, 100),
           (MDEntryType.MDEntryType_Offer, 1101 / 1000, 50)]) ∧
        List.Perm b.m_asks.m_levels (levelsOf MDEntryType.MDEntryType_Offer
          [(MDEntryType.MDEntryType_Bid, 11 / 10, 100),
           (MDEntryType.MDEntryType_Offer, 1101 / 1000, 50)]) :=
  ⟨by decide!, by decide!, by decide!,
    Book.ctor_snapshot snapEUR _ (by decide!) (by decide!) (by decide!)⟩

/-- C7: a snapshot or incremental message whose sequence number (the value
`ReadMsgSecNum` returns for tag 34) is at most `m_seqNum` makes `Update` return
without error and leave the whole BookSet (sequence numbers, symbols, Books)
as it was. -/
theorem BookSet.Update_stale (bs : BookSet) (message m1 : Message) (seqNum : Nat)
    (htype : message.GetType = 87 ∨ message.GetType = 88)
    (hseq : message.ReadMsgSecNum = .ok (seqNum, m1))
    (hle : seqNum ≤ bs.m_seqNum) :
    bs.Update message = .ok bs := by
  have htype2 : ¬ (message.GetType ≠ 87 ∧ message.GetType ≠ 88) := by
    intro hc; rcases htype with h1 | h1
    · exact hc.1 h1
    · exact hc.2 h1
  simp [BookSet.Update, htype2, hseq, hle]

/-- Witness for C7: `snapEUR` (sequence 1) sent again to the BookSet that has
already applied it. -/
theorem BookSet.Update_stale_witness :
    (snapEUR.GetType = 87 ∨ snapEUR.GetType = 88) ∧
      snapEUR.ReadMsgSecNum = .ok (1, { snapEUR with m_cursor := 25 }) ∧
      1 ≤ bookSetEUR.m_seqNum ∧
      bookSetEUR.Update snapEUR = .ok bookSetEUR :=
  ⟨by decide, by decide!, by decide!,
    BookSet.Update_stale bookSetEUR snapEUR { snapEUR with m_cursor := 25 } 1
      (by decide) (by decide!) (by decide!)⟩

/-- C8: an incremental message with a sequence number above `m_seqNum`, for a
symbol that has no Book, makes `Update` throw `ProtocolError`; `m_seqNum` is not
advanced and the entries already in the map are untouched. -/
theorem BookSet.Update_no_snapshot (bs : BookSet) (message m1 m2 : Message)
    (seqNum : Nat) (symbol : List Int)
    (htype : message.GetType = 88)
    (hseq : message.ReadMsgSecNum = .ok (seqNum, m1))
    (hgt : bs.m_seqNum < seqNum)
    (hsym : m1.ReadSymbol = .ok (symbol, m2))
    (hno : ∀ v, bs.m_books.lookup symbol = some v → v.2 = none) :
    ∃ bs2 : BookSet, bs.Update message = .thrown Error.ProtocolError bs2 ∧
      bs2.m_seqNum = bs.m_seqNum ∧
      ∀ kv ∈ bs.m_books, kv ∈ bs2.m_books := by
  have htype2 : ¬ (message.GetType ≠ 87 ∧ message.GetType ≠ 88) := by
    intro hc; exact hc.2 htype
  have hge : ¬ bs.m_seqNum ≥ seqNum := by omega
  have hty : m2.GetType = 88 := by
    simp only [Message.GetType] at htype ⊢
    rw [Message.ReadSymbol_type hsym, Message.ReadMsgSecNum_type hseq, htype]
  have h87 : ¬ (88 : Int) = 87 := by decide
  have hbook : (((BookSet.subscript bs.m_books symbol).lookup symbol).getD (0, none)).2
      = none := by
    unfold BookSet.subscript
    cases hl : bs.m_books.lookup symbol with
    | none => simp [BookSet.lookup_append_self _ _ _ hl]
    | some v => simp [hl, hno v hl]
  refine ⟨{ bs with m_books := BookSet.subscript bs.m_books symbol }, ?_, rfl, ?_⟩
  · simp only [BookSet.Update, htype2, hseq, hge, hsym, hty, h87, hbook, if_false]
  · intro kv hkv
    simp only [BookSet.subscript]
    split
    · exact hkv
    · exact List.mem_append_left _ hkv

/-- Witness for C8: the incremental message `incEUR` sent to the empty
BookSet. -/
theorem BookSet.Update_no_snapshot_witness :
    incEUR.GetType = 88 ∧
      incEUR.ReadMsgSecNum = .ok (2, { incEUR with m_cursor := 25 }) ∧
      BookSet.empty.m_seqNum < 2 ∧
      Message.ReadSymbol { incEUR with m_cursor := 25 }
        = .ok (chars "EUR/USD", { incEUR with m_cursor := 36 }) ∧
      (∀ v, BookSet.empty.m_books.lookup (chars "EUR/USD") = some v → v.2 = none) ∧
      ∃ bs2 : BookSet, BookSet.empty.Update incEUR = .thrown Error.ProtocolError bs2 ∧
        bs2.m_seqNum = BookSet.empty.m_seqNum ∧
        ∀ kv ∈ BookSet.empty.m_books, kv ∈ bs2.m_books :=
  ⟨by decide, by decide!, by decide, by decide!, by simp [BookSet.empty],
    BookSet.Update_no_snapshot BookSet.empty incEUR { incEUR with m_cursor := 25 }
      { incEUR with m_cursor := 36 } 2 (chars "EUR/USD")
      (by decide) (by decide!) (by decide) (by decide!) (by simp [BookSet.empty])⟩

/-- C9: in every BookSet reached from the empty one by `Update` calls
(applied, ignored or throwing), `m_seqNum` is the maximum of the sequence
numbers of the messages accepted so far, that is of those `Update` applied
(0 if none), every stored sequence number is at most `m_seqNum`, and a
further `Update` never lowers `m_seqNum`. -/
theorem BookSet.Run_seqNum (bs : BookSet) (acc : List Nat) (h : BookSet.Run bs acc) :
    bs.m_seqNum = acc.foldr max 0 ∧
      (∀ kv ∈ bs.m_books, kv.2.1 ≤ bs.m_seqNum) ∧
      ∀ message : Message, bs.m_seqNum ≤ (bs.Update message).state.m_seqNum := by
  obtain ⟨hinv, hmax⟩ := h.inv
  refine ⟨hmax, hinv.1, ?_⟩
  intro message
  obtain ⟨_, hacc, hnone⟩ := BookSet.Update_inv bs message hinv
  cases ha : bs.accepted message with
  | none => rw [hnone ha]
  | some s =>
    obtain ⟨hlt, hs⟩ := hacc s ha
    rw [hs]
    exact le_of_lt hlt

/-- Witness for C9: the run `snapEUR` (applied, 1), `snapEUR` again (ignored),
`snapGBP` (applied, 2). -/
theorem BookSet.Run_seqNum_witness :
    BookSet.Run ((bookSetEUR.Update snapEUR).state.Update snapGBP).state [2, 1] ∧
      ((bookSetEUR.Update snapEUR).state.Update snapGBP).state.m_seqNum
        = ([2, 1] : List Nat).foldr max 0 ∧
      (∀ kv ∈ ((bookSetEUR.Update snapEUR).state.Update snapGBP).state.m_books,
        kv.2.1 ≤ ((bookSetEUR.Update snapEUR).state.Update snapGBP).state.m_seqNum) ∧
      ∀ message : Message,
        ((bookSetEUR.Update snapEUR).state.Update snapGBP).state.m_seqNum
          ≤ ((((bookSetEUR.Update snapEUR).state.Update snapGBP).state).Update
              message).state.m_seqNum :=
  have hrun : BookSet.Run ((bookSetEUR.Update snapEUR).state.Update snapGBP).state [2, 1] :=
    (show ((bookSetEUR.Update snapEUR).state.accepted snapGBP).toList
        ++ ((bookSetEUR.accepted snapEUR).toList
          ++ ((BookSet.empty.accepted snapEUR).toList ++ [])) = [2, 1] by decide!) ▸
      BookSet.Run.update snapGBP
        (BookSet.Run.update snapEUR (BookSet.Run.update snapEUR BookSet.Run.empty))
  ⟨hrun, BookSet.Run_seqNum _ _ hrun⟩

/-- C10: when a BookSet reached from the empty one applies a message with
sequence number `s` and symbol `S`, `GetRevision` is `s` afterwards, `S` is the
only symbol whose stored sequence number is at least `s`, and `Print` with
revision `s` shows the Book of `S` and nothing else. -/
theorem BookSet.Update_applied (bs bs2 : BookSet) (acc : List Nat)
    (message m1 m2 : Message) (s : Nat) (S : List Int) (size : Nat)
    (hrun : BookSet.Run bs acc)
    (htype : message.GetType = 87 ∨ message.GetType = 88)
    (hseq : message.ReadMsgSecNum = .ok (s, m1))
    (hgt : bs.m_seqNum < s)
    (hsym : m1.ReadSymbol = .ok (S, m2))
    (hok : bs.Update message = .ok bs2) :
    bs2.GetRevision = s ∧
      (∀ kv ∈ bs2.m_books, s ≤ kv.2.1 ↔ kv.1 = S) ∧
      ∃ b : Book, (S, (s, some b)) ∈ bs2.m_books ∧
        bs2.Print s size
          = [some ([Book.OutLine.blank, Book.OutLine.symbol S] ++ b.Print size)] := by
  obtain ⟨b, hshape⟩ := BookSet.Update_ok_shape htype hseq hgt hsym hok
  have hinv := BookSet.Inv_subscript S hrun.inv.1
  have hmemS : (S, (s, some b)) ∈ bs2.m_books := by
    rw [hshape]
    exact BookSet.assign_mem_self _ (BookSet.subscript_keys _ _)
  have hiff : ∀ kv ∈ bs2.m_books, s ≤ kv.2.1 ↔ kv.1 = S := by
    intro kv hkv
    rw [hshape] at hkv
    rcases BookSet.mem_assign hkv with ⟨hk, hv⟩ | ⟨hk, hmem⟩
    · simp [hk, hv]
    · have := hinv.1 kv hmem
      simp only at this
      constructor
      · intro hs; omega
      · intro hs; exact absurd hs hk
  have hnd : (bs2.m_books.map Prod.fst).Nodup := by
    rw [hshape]
    simp only
    rw [BookSet.assign_keys]
    exact hinv.2
  refine ⟨by rw [hshape]; rfl, hiff, b, hmemS, ?_⟩
  unfold BookSet.Print
  rw [BookSet.filter_unique _ S (s, some b) hnd hmemS]
  · rfl
  · intro kv hkv
    rw [← hiff kv hkv]
    simp

/-- Witness for C10: after `snapEUR` (sequence 1), the snapshot `snapGBP`
(sequence 2) is applied; the revision is 2 and only GBP/USD is printed. -/
theorem BookSet.Update_applied_witness :
    BookSet.Run bookSetEUR [1] ∧
      (snapGBP.GetType = 87 ∨ snapGBP.GetType = 88) ∧
      snapGBP.ReadMsgSecNum = .ok (2, { snapGBP with m_cursor := 25 }) ∧
      bookSetEUR.m_seqNum < 2 ∧
      Message.ReadSymbol { snapGBP with m_cursor := 25 }
        = .ok (chars "GBP/USD", { snapGBP with m_cursor := 36 }) ∧
      bookSetEUR.Update snapGBP = .ok (bookSetEUR.Update snapGBP).state ∧
      (bookSetEUR.Update snapGBP).state.GetRevision = 2 ∧
      (∀ kv ∈ (bookSetEUR.Update snapGBP).state.m_books,
        2 ≤ kv.2.1 ↔ kv.1 = chars "GBP/USD") ∧
      ∃ b : Book, (chars "GBP/USD", (2, some b)) ∈ (bookSetEUR.Update snapGBP).state.m_books ∧
        (bookSetEUR.Update snapGBP).state.Print 2 5
          = [some ([Book.OutLine.blank, Book.OutLine.symbol (chars "GBP/USD")]
              ++ b.Print 5)] :=
  have hrun : BookSet.Run bookSetEUR [1] :=
    (show (BookSet.empty.accepted snapEUR).toList ++ [] = [1] by decide!) ▸
      BookSet.Run.update snapEUR BookSet.Run.empty
  ⟨hrun, by decide, by decide!, by decide!, by decide!, by decide!,
    BookSet.Update_applied bookSetEUR (bookSetEUR.Update snapGBP).state [1] snapGBP
      { snapGBP with m_cursor := 25 } { snapGBP with m_cursor := 36 } 2 (chars "GBP/USD") 5
      hrun (by decide) (by decide!) (by decide!) (by decide!) (by decide!)⟩

/-! ## Worked scenarios -/

/-- The snapshot `snapEUR` builds a Book with the bid level (1.1000, 100) and
the ask level (1.1010, 50). -/
theorem Book.ctor_snapEUR :
    Book.ctor snapEUR
      = .ok { m_asks := ⟨[(110100000, ⟨1101 / 1000, 50⟩)]⟩,
              m_bids := ⟨[(110000000, ⟨11 / 10, 100⟩)]⟩ } := by
  decide!

/-- After `snapEUR`, the incremental message `incEUR` changes the bid at 1.1000
to size 75, leaves the ask side as it was and moves both sequence numbers
to 2. -/
theorem BookSet.Update_incEUR :
    bookSetEUR.Update incEUR
      = .ok { m_seqNum := 2,
              m_books := [(chars "EUR/USD", (2, some
                { m_asks := ⟨[(110100000, ⟨1101 / 1000, 50⟩)]⟩,
                  m_bids := ⟨[(110000000, ⟨11 / 10, 75⟩)]⟩ }))] } := by
  decide!

/-! ## The sample messages pass the constructor -/

/-- The samples are the messages the constructor builds from their text. -/
theorem Message.ctor_samples :
    Message.ctor 124 snapEUR.data 0 snapEUR.data.length = .ok snapEUR ∧
    Message.ctor 124 incEUR.data 0 incEUR.data.length = .ok incEUR ∧
    Message.ctor 124 snapGBP.data 0 snapGBP.data.length = .ok snapGBP ∧
    Message.ctor 124 snapAskOnly.data 0 snapAskOnly.data.length = .ok snapAskOnly ∧
    Message.ctor 124 snapType256.data 0 snapType256.data.length = .ok snapType256 ∧
    Message.ctor 124 incLast279.data 0 incLast279.data.length = .ok incLast279 ∧
    Message.ctor 124 snapShort.data 0 snapShort.data.length = .ok snapShort ∧
    Message.ctor 124 incPartial.data 0 incPartial.data.length = .ok incPartial := by
  decide!

/-! ## Claims on the field scanner and the group elements -/

/-- C15, where the code departs from it: with the cursor at the range end the
lookup never runs the wrapped pass. In the element `269=0|270=1.1000|271=75|279=1|`
of `incLast279`, once tag 279 has been read the cursor stands at the range
end; tag 269 stands at the range start, inside `[m_begin, m_cursor)`, and its
lookup throws `UnknownProtocolFieldError`. -/
theorem MdEntry.ReadField_at_range_end :
    ∃ (e e1 : MdEntry) (m1 : Message),
      incLast279.ReadFirstMDEntry = .ok (some e, m1) ∧
      e.ReadMDUpdateAction = .ok (MDUpdateAction.MDUpdateAction_Change, e1) ∧
      e1.m_cursor = e1.m_end ∧ e1.m_begin < e1.m_cursor ∧
      e1.toContent.equalAt e1.m_begin (chars "269=") = true ∧
      e1.toContent.FindTag (chars "269=") e1.m_cursor = none ∧
      e1.ReadMDEntryType = .error Error.UnknownProtocolFieldError :=
  ⟨{ m_soh := 124, data := incLast279.data, m_begin := 42, m_end := 72, m_cursor := 42,
     m_numbeOfNextEntities := 0, m_firstTag := chars "269=" },
   { m_soh := 124, data := incLast279.data, m_begin := 42, m_end := 72, m_cursor := 72,
     m_numbeOfNextEntities := 0, m_firstTag := chars "269=" },
   { incLast279 with m_cursor := 72 },
   by decide!, by decide!, by decide!, by decide!, by decide!, by decide!, by decide!⟩

/-- C16, where the code departs from it: the value is accumulated in a
`uint8_t`, so the entry type `256` reads as 0 and `ReadMDEntryType` returns
`MDEntryType_Bid`; the snapshot `snapType256` builds a Book with that bid. -/
theorem MdEntry.ReadMDEntryType_256 :
    ∃ (e e1 : MdEntry) (m1 : Message),
      snapType256.ReadFirstMDEntry = .ok (some e, m1) ∧
      e.toContent.equalAt e.m_begin (chars "269=256|") = true ∧
      e.ReadMDEntryType = .ok (MDEntryType.MDEntryType_Bid, e1) ∧
      Book.ctor snapType256
        = .ok { m_asks := ⟨[]⟩, m_bids := ⟨[(110000000, ⟨11 / 10, 100⟩)]⟩ } :=
  ⟨{ m_soh := 124, data := snapType256.data, m_begin := 42, m_end := 69, m_cursor := 42,
     m_numbeOfNextEntities := 0, m_firstTag := chars "269=" },
   { m_soh := 124, data := snapType256.data, m_begin := 42, m_end := 69, m_cursor := 50,
     m_numbeOfNextEntities := 0, m_firstTag := chars "269=" },
   { snapType256 with m_cursor := 69 },
   by decide!, by decide!, by decide!, by decide!⟩

/-- C17, where the code departs from it: `snapShort` declares two entries and
holds one, so the body has no occurrence of the token `269=` after the first
element's own token; the construction of the first element does not throw:
the wrapped pass finds the element's own token and the element gets the empty
range `[42, 42)`. The Book constructor then fails in the first field read
with `UnknownProtocolFieldError`. -/
theorem Message.ReadMDEntry_wraps :
    (∀ p, 42 + 4 ≤ p → p < snapShort.m_end →
        snapShort.toContent.equalAt p (chars "269=") = false) ∧
      snapShort.ReadFirstMDEntry
        = .ok (some { m_soh := 124, data := snapShort.data, m_begin := 42, m_end := 42,
                      m_cursor := 42, m_numbeOfNextEntities := 1,
                      m_firstTag := chars "269=" },
               { snapShort with m_cursor := 42 }) ∧
      Book.ctor snapShort = .error Error.UnknownProtocolFieldError := by
  refine ⟨?_, by decide!, by decide!⟩
  intro p h1 h2
  have h3 : p < 67 := h2
  interval_cases p <;> decide!

/-! ## Claims on `Book::Print` and `CreateKey` -/

/-- C19, where the code departs from it: the loop over the bid levels is
bounded by the number of ask levels. For the Book of `snapAskOnly`, one ask
level and no bid level, `Print` reads the bid level at index 0, which is not
below `m_bids.GetSize = 0`. -/
theorem Book.Print_reads_past_bids :
    Book.ctor snapAskOnly
        = .ok { m_asks := ⟨[(110100000, ⟨1101 / 1000, 50⟩)]⟩, m_bids := ⟨[]⟩ } ∧
      (Book.mk ⟨[(110100000, ⟨1101 / 1000, 50⟩)]⟩ ⟨[]⟩).m_bids.GetSize = 0 ∧
      (Book.mk ⟨[(110100000, ⟨1101 / 1000, 50⟩)]⟩ ⟨[]⟩).Print 5
        = [Book.OutLine.totalSell 1,
           Book.OutLine.level 0 (some ⟨1101 / 1000, 50⟩),
           Book.OutLine.separator,
           Book.OutLine.level 0 none,
           Book.OutLine.totalBuy 0] := by
  decide!

theorem Book.Side.Set_thrown {asc : Bool} {s s2 : Book.Side asc} {action : MDUpdateAction}
    {price val : ℚ} {e : Error} (h : s.Set action price val = .thrown e s2) : s2 = s := by
  unfold Book.Side.Set at h
  split at h
  · unfold Book.Side.Add at h
    dsimp only at h
    split at h
    · rename_i hr
      simp only [Bool.not_eq_true', ] at hr
      have := Levels.emplace_false _ _ _ _ hr
      cases h
      cases s
      simp only [Book.Side.mk.injEq]
      exact this
    · cases h
  · split at h
    · cases h; rfl
    · split at h <;> cases h

theorem Book.Update.switch_thrown {b b2 : Book} {action : MDUpdateAction} {type : MDEntryType}
    {price val : ℚ} {e : Error}
    (h : Book.Update.switch b action type price val = .thrown e b2) : b2 = b := by
  unfold Book.Update.switch at h
  split at h
  · split at h
    · cases h
    · rename_i hs
      cases h
      rw [Book.Side.Set_thrown hs]
  · split at h
    · cases h
    · rename_i hs
      cases h
      rw [Book.Side.Set_thrown hs]
  · cases h

theorem Book.Update.loop_applied (fuel : Nat) :
    ∀ (m : Message) (entry : Option MdEntry) (b : Book),
      (∀ b2, Book.Update.loop fuel m entry b = .ok b2 →
        Book.applyEntries b (Message.incrementalEntries.loop fuel m entry) = some b2) ∧
      (∀ e b2, Book.Update.loop fuel m entry b = .thrown e b2 →
        ∃ k, Book.applyEntries b ((Message.incrementalEntries.loop fuel m entry).take k)
          = some b2) := by
  induction fuel with
  | zero =>
    intro m entry b
    cases entry with
    | none =>
      simp only [Book.Update.loop, Message.incrementalEntries.loop]
      exact ⟨fun b2 h => by cases h; rfl, fun e b2 h => by cases h⟩
    | some x =>
      simp only [Book.Update.loop, Message.incrementalEntries.loop]
      exact ⟨fun b2 h => (by cases h), fun e b2 h => ⟨0, by cases h; rfl⟩⟩
  | succ fuel ih =>
    intro m entry b
    cases entry with
    | none =>
      simp only [Book.Update.loop, Message.incrementalEntries.loop]
      exact ⟨fun b2 h => by cases h; rfl, fun e b2 h => by cases h⟩
    | some x =>
      simp only [Book.Update.loop, Message.incrementalEntries.loop]
      cases h0 : x.ReadMDUpdateAction with
      | error err => exact ⟨fun b2 h => (by cases h), fun e b2 h => ⟨0, by cases h; rfl⟩⟩
      | ok r0 =>
        obtain ⟨action, e0⟩ := r0
        simp only []
        cases h1 : e0.ReadMDEntryType with
        | error err => exact ⟨fun b2 h => (by cases h), fun e b2 h => ⟨0, by cases h; rfl⟩⟩
        | ok r1 =>
          obtain ⟨type, e1⟩ := r1
          simp only []
          cases h2 : e1.ReadMDEntryPx with
          | error err => exact ⟨fun b2 h => (by cases h), fun e b2 h => ⟨0, by cases h; rfl⟩⟩
          | ok r2 =>
            obtain ⟨price, e2⟩ := r2
            simp only []
            cases h3 : e2.ReadMDEntrySize with
            | error err => exact ⟨fun b2 h => (by cases h), fun e b2 h => ⟨0, by cases h; rfl⟩⟩
            | ok r3 =>
              obtain ⟨val, e3⟩ := r3
              simp only []
              cases h5 : Book.Update.switch b action type price val with
              | thrown err b1 =>
                refine ⟨fun b2 h => (by cases h), fun e b2 h => ⟨0, ?_⟩⟩
                cases h
                rw [Book.Update.switch_thrown h5]
                rfl
              | ok b1 =>
                simp only []
                cases h4 : e3.ReadNextMDEntry m with
                | error err =>
                  refine ⟨fun b2 h => (by cases h), fun e b2 h => ⟨1, ?_⟩⟩
                  cases h
                  simp [Book.applyEntries, h5]
                | ok r4 =>
                  obtain ⟨next, m2⟩ := r4
                  simp only []
                  obtain ⟨ihok, ihthrown⟩ := ih m2 next b1
                  constructor
                  · intro b2 h
                    simp only [Book.applyEntries, h5]
                    exact ihok b2 h
                  · intro e b2 h
                    obtain ⟨k, hk⟩ := ihthrown e b2 h
                    exact ⟨k + 1, by simp only [List.take_succ_cons, Book.applyEntries, h5]; exact hk⟩

theorem Book.Update_thrown_prefix {b b2 : Book} {message : Message} {e : Error}
    (h : b.Update message = .thrown e b2) :
    ∃ k, Book.applyEntries b (message.incrementalEntries.take k) = some b2 := by
  unfold Book.Update at h
  unfold Message.incrementalEntries
  cases hfirst : message.ReadFirstMDEntry with
  | error err =>
    simp only [hfirst] at h
    cases h
    exact ⟨0, rfl⟩
  | ok r =>
    obtain ⟨first, m1⟩ := r
    cases first with
    | none => simp only [hfirst] at h; cases h
    | some entry =>
      simp only [hfirst] at h ⊢
      exact (Book.Update.loop_applied _ m1 (some entry) b).2 e b2 h

theorem BookSet.lookup_assign (books : List (List Int × (Nat × Option Book)))
    (key sym : List Int) (v : Nat × Option Book) :
    (BookSet.assign books key v).lookup sym
      = if sym = key then (books.lookup sym).map (fun _ => v) else books.lookup sym := by
  induction books with
  | nil => simp [BookSet.assign]
  | cons x xs ih =>
    obtain ⟨k, w⟩ := x
    simp only [BookSet.assign, List.map_cons] at ih ⊢
    by_cases hk : k = key
    · subst hk
      by_cases hs : sym = k
      · subst hs
        simp [List.lookup_cons]
      · have hs2 : (sym == k) = false := by simpa using hs
        simp only [if_true, List.lookup_cons, hs2, hs, if_false]
        simpa [hs] using ih
    · by_cases hs : sym = key
      · subst hs
        have hs2 : (sym == k) = false := by simpa using (Ne.symm hk)
        simp only [hk, if_false, List.lookup_cons, hs2, if_true]
        simpa using ih
      · by_cases hsk : sym = k
        · subst hsk
          simp [List.lookup_cons, hk, hs]
        · have hs2 : (sym == k) = false := by simpa using hsk
          simp only [hk, if_false, List.lookup_cons, hs2, hs]
          simpa [hs] using ih

theorem BookSet.lookup_append (books : List (List Int × (Nat × Option Book)))
    (key sym : List Int) (v : Nat × Option Book) :
    (books ++ [(key, v)]).lookup sym
      = match books.lookup sym with
        | some w => some w
        | none => if sym = key then some v else none := by
  induction books with
  | nil =>
    by_cases hs : sym = key
    · subst hs; simp [List.lookup_cons]
    · have hs2 : (sym == key) = false := by simpa using hs
      simp [List.lookup_cons, hs2, hs]
  | cons x xs ih =>
    obtain ⟨k, w⟩ := x
    by_cases hsk : sym = k
    · subst hsk; simp [List.lookup_cons]
    · have hs2 : (sym == k) = false := by simpa using hsk
      simp only [List.cons_append, List.lookup_cons, hs2]
      exact ih

theorem BookSet.lookup_subscript (books : List (List Int × (Nat × Option Book)))
    (key sym : List Int) :
    (BookSet.subscript books key).lookup sym = books.lookup sym ∨
      (sym = key ∧ books.lookup sym = none ∧
        (BookSet.subscript books key).lookup sym = some (0, none)) := by
  unfold BookSet.subscript
  cases hk : books.lookup key with
  | some w => exact Or.inl rfl
  | none =>
    simp only [BookSet.lookup_append]
    cases hs : books.lookup sym with
    | some w => exact Or.inl rfl
    | none =>
      by_cases hsk : sym = key
      · exact Or.inr ⟨hsk, rfl, by simp [hsk]⟩
      · exact Or.inl (by simp [hsk])
/-- A throwing loop of `Book::Update` leaves the Book as after the entries
that precede the failing one. -/
theorem Book.Update.loop_upTo (fuel : Nat) :
    ∀ (m : Message) (entry : Option MdEntry) (b b2 : Book) (e : Error),
      Book.Update.loop fuel m entry b = .thrown e b2 →
      Book.appliedUpTo b b2 (Message.incrementalEntries.loop fuel m entry) e := by
  induction fuel with
  | zero =>
    intro m entry b b2 e h
    cases entry with
    | none => simp only [Book.Update.loop] at h; cases h
    | some x =>
      simp only [Book.Update.loop] at h
      cases h
      exact ⟨0, by simp [Message.incrementalEntries.loop], rfl,
        Or.inl (by simp [Message.incrementalEntries.loop])⟩
  | succ fuel ih =>
    intro m entry b b2 e h
    cases entry with
    | none => simp only [Book.Update.loop] at h; cases h
    | some x =>
      simp only [Book.Update.loop] at h
      simp only [Message.incrementalEntries.loop]
      cases h0 : x.ReadMDUpdateAction with
      | error err =>
        simp only [h0] at h
        cases h
        exact ⟨0, by simp, rfl, Or.inl (by simp)⟩
      | ok r0 =>
        obtain ⟨action, e0⟩ := r0
        simp only [h0] at h ⊢
        cases h1 : e0.ReadMDEntryType with
        | error err =>
          simp only [h1] at h
          cases h
          exact ⟨0, by simp, rfl, Or.inl (by simp)⟩
        | ok r1 =>
          obtain ⟨type, e1⟩ := r1
          simp only [h1] at h ⊢
          cases h2 : e1.ReadMDEntryPx with
          | error err =>
            simp only [h2] at h
            cases h
            exact ⟨0, by simp, rfl, Or.inl (by simp)⟩
          | ok r2 =>
            obtain ⟨price, e2⟩ := r2
            simp only [h2] at h ⊢
            cases h3 : e2.ReadMDEntrySize with
            | error err =>
              simp only [h3] at h
              cases h
              exact ⟨0, by simp, rfl, Or.inl (by simp)⟩
            | ok r3 =>
              obtain ⟨val, e3⟩ := r3
              simp only [h3] at h ⊢
              cases h5 : Book.Update.switch b action type price val with
              | thrown err b1 =>
                simp only [h5] at h
                cases h
                have hb := Book.Update.switch_thrown h5
                subst hb
                exact ⟨0, by simp, rfl, Or.inr ⟨(action, type, price, val), by simp, h5⟩⟩
              | ok b1 =>
                simp only [h5] at h
                cases h4 : e3.ReadNextMDEntry m with
                | error err =>
                  simp only [h4] at h
                  cases h
                  exact ⟨1, by simp, by simp [Book.applyEntries, h5], Or.inl (by simp)⟩
                | ok r4 =>
                  obtain ⟨next, m2⟩ := r4
                  simp only [h4] at h ⊢
                  obtain ⟨k, hk1, hk2, hk3⟩ := ih m2 next b1 b2 e h
                  refine ⟨k + 1, by simp; omega, ?_, ?_⟩
                  · simp only [List.take_succ_cons, Book.applyEntries, h5]
                    exact hk2
                  · rcases hk3 with hk3 | ⟨entry, hentry, hsw⟩
                    · exact Or.inl (by simp [hk3])
                    · exact Or.inr ⟨entry, by simpa using hentry, hsw⟩

theorem Book.Update_thrown_upTo {b b2 : Book} {message : Message} {e : Error}
    (h : b.Update message = .thrown e b2) :
    Book.appliedUpTo b b2 message.incrementalEntries e := by
  unfold Book.Update at h
  unfold Message.incrementalEntries
  cases hfirst : message.ReadFirstMDEntry with
  | error err =>
    simp only [hfirst] at h
    cases h
    exact ⟨0, by simp, rfl, Or.inl (by simp)⟩
  | ok r =>
    obtain ⟨first, m1⟩ := r
    cases first with
    | none => simp only [hfirst] at h; cases h
    | some entry =>
      simp only [hfirst] at h ⊢
      exact Book.Update.loop_upTo _ m1 (some entry) b b2 e h

/-- The prefix is fixed by the entries: two Books that both are `b` after the
entries that precede the failing one are the same Book. -/
theorem Book.appliedUpTo_unique {b b2 b3 : Book}
    {entries : List (MDUpdateAction × MDEntryType × ℚ × ℚ)} {e e2 : Error}
    (h2 : Book.appliedUpTo b b2 entries e) (h3 : Book.appliedUpTo b b3 entries e2) :
    b2 = b3 := by
  induction entries generalizing b with
  | nil =>
    obtain ⟨k, _, hk, _⟩ := h2
    obtain ⟨j, _, hj, _⟩ := h3
    simp only [List.take_nil, Book.applyEntries, Option.some.injEq] at hk hj
    rw [← hk, ← hj]
  | cons x xs ih =>
    obtain ⟨k, hk1, hk2, hk3⟩ := h2
    obtain ⟨j, hj1, hj2, hj3⟩ := h3
    cases hsw : Book.Update.switch b x.1 x.2.1 x.2.2.1 x.2.2.2 with
    | thrown err b1 =>
      have hk0 : k = 0 := by
        cases k with
        | zero => rfl
        | succ k => simp [Book.applyEntries, hsw] at hk2
      have hj0 : j = 0 := by
        cases j with
        | zero => rfl
        | succ j => simp [Book.applyEntries, hsw] at hj2
      subst hk0; subst hj0
      simp only [List.take_zero, Book.applyEntries, Option.some.injEq] at hk2 hj2
      rw [← hk2, ← hj2]
    | ok b1 =>
      have hkpos : ∃ k2, k = k2 + 1 := by
        cases k with
        | zero =>
          exfalso
          simp only [List.take_zero, Book.applyEntries, Option.some.injEq] at hk2
          subst hk2
          rcases hk3 with hk3 | ⟨entry, hentry, hth⟩
          · simp at hk3
          · simp only [List.getElem?_cons_zero, Option.some.injEq] at hentry
            subst hentry
            rw [hsw] at hth
            cases hth
        | succ k => exact ⟨k, rfl⟩
      have hjpos : ∃ j2, j = j2 + 1 := by
        cases j with
        | zero =>
          exfalso
          simp only [List.take_zero, Book.applyEntries, Option.some.injEq] at hj2
          subst hj2
          rcases hj3 with hj3 | ⟨entry, hentry, hth⟩
          · simp at hj3
          · simp only [List.getElem?_cons_zero, Option.some.injEq] at hentry
            subst hentry
            rw [hsw] at hth
            cases hth
        | succ j => exact ⟨j, rfl⟩
      obtain ⟨k2, rfl⟩ := hkpos
      obtain ⟨j2, rfl⟩ := hjpos
      simp only [List.take_succ_cons, Book.applyEntries, hsw] at hk2 hj2
      refine ih (b := b1) ⟨k2, by simpa using hk1, hk2, ?_⟩ ⟨j2, by simpa using hj1, hj2, ?_⟩
      · rcases hk3 with hk3 | ⟨entry, hentry, hth⟩
        · exact Or.inl (by simpa using hk3)
        · exact Or.inr ⟨entry, by simpa using hentry, hth⟩
      · rcases hj3 with hj3 | ⟨entry, hentry, hth⟩
        · exact Or.inl (by simpa using hj3)
        · exact Or.inr ⟨entry, by simpa using hentry, hth⟩

/-- A throwing `Update` with an incremental message for a symbol that has a
Book leaves that Book as after the entries that precede the failing one, and
the stored sequence number as it was. -/
theorem BookSet.Update_thrown_book {bs bs2 : BookSet} {message m1 m2 : Message} {e : Error}
    {seqNum n : Nat} {sym : List Int} {b : Book}
    (h : bs.Update message = .thrown e bs2)
    (h88 : message.GetType = 88)
    (hseq : message.ReadMsgSecNum = .ok (seqNum, m1))
    (hsym : m1.ReadSymbol = .ok (sym, m2))
    (hbook : bs.m_books.lookup sym = some (n, some b)) :
    ∃ b2, bs2.m_books.lookup sym = some (n, some b2) ∧
      Book.appliedUpTo b b2 m2.incrementalEntries e := by
  have hty : m2.GetType = 88 := by
    unfold Message.GetType at h88 ⊢
    rw [Message.ReadSymbol_type hsym, Message.ReadMsgSecNum_type hseq, h88]
  have hsub : BookSet.subscript bs.m_books sym = bs.m_books := by
    unfold BookSet.subscript
    rw [hbook]
  unfold BookSet.Update at h
  rw [if_neg (by rw [h88]; simp)] at h
  simp only [hseq] at h
  by_cases hge : bs.m_seqNum ≥ seqNum
  · rw [if_pos hge] at h
    cases h
  · rw [if_neg hge] at h
    simp only [hsym, hsub, hbook, Option.getD_some] at h
    rw [if_neg (by rw [hty]; decide)] at h
    cases hupd : b.Update m2 with
    | ok b2 => simp only [hupd] at h; cases h
    | thrown err b2 =>
      simp only [hupd] at h
      cases h
      refine ⟨b2, ?_, Book.Update_thrown_upTo hupd⟩
      simp only [BookSet.lookup_assign, if_true, hbook, Option.map_some']

/-! ## Claim on a throwing `BookSet::Update` -/

/-- C11 as stated fails: `incPartial` changes the bid at 1.1000 and then
names a price with no level; `Update` throws and the Book keeps the first
change, so the BookSet is not the one before the call. -/
theorem BookSet.Update_not_atomic :
    bookSetEUR.Update incPartial
        = .thrown Error.ProtocolError
            { m_seqNum := 1,
              m_books := [(chars "EUR/USD", (1, some
                { m_asks := ⟨[(110100000, ⟨1101 / 1000, 50⟩)]⟩,
                  m_bids := ⟨[(110000000, ⟨11 / 10, 75⟩)]⟩ }))] } ∧
      (bookSetEUR.Update incPartial).state ≠ bookSetEUR := by
  decide!

/-- C11, amended: when `Update` throws, `m_seqNum` is unchanged and every
symbol keeps its entry, with two exceptions that keep the stored sequence
number: a symbol not in the map before may be left in it with sequence
number 0 and no Book; and the Book of the symbol of an incremental message is
left as after the entries that precede the failing one, applied in order and
each of them whole, the failing entry changing nothing (`Book.appliedUpTo`).
The last part says so for every incremental message whose symbol has a Book.
A failing snapshot leaves every Book as it was. -/
theorem BookSet.Update_thrown (bs bs2 : BookSet) (message : Message) (e : Error)
    (h : bs.Update message = .thrown e bs2) :
    bs2.m_seqNum = bs.m_seqNum ∧
      (∀ sym : List Int,
        bs2.m_books.lookup sym = bs.m_books.lookup sym ∨
        (bs.m_books.lookup sym = none ∧ bs2.m_books.lookup sym = some (0, none)) ∨
        (message.GetType = 88 ∧
          ∃ (seqNum : Nat) (m1 m2 : Message) (n : Nat) (b b2 : Book),
            message.ReadMsgSecNum = .ok (seqNum, m1) ∧
            m1.ReadSymbol = .ok (sym, m2) ∧
            bs.m_books.lookup sym = some (n, some b) ∧
            bs2.m_books.lookup sym = some (n, some b2) ∧
            Book.appliedUpTo b b2 m2.incrementalEntries e)) ∧
      (∀ (seqNum : Nat) (m1 m2 : Message) (sym : List Int) (n : Nat) (b : Book),
        message.GetType = 88 → message.ReadMsgSecNum = .ok (seqNum, m1) →
        m1.ReadSymbol = .ok (sym, m2) → bs.m_books.lookup sym = some (n, some b) →
        ∃ b2, bs2.m_books.lookup sym = some (n, some b2) ∧
          Book.appliedUpTo b b2 m2.incrementalEntries e) := by
  refine ⟨?_, ?_, fun seqNum m1 m2 sym n b h88 hseq hsym hbook =>
    BookSet.Update_thrown_book h h88 hseq hsym hbook⟩
  all_goals
    unfold BookSet.Update at h
    split at h
    · cases h
    rename_i htype
    have htype2 : message.GetType = 87 ∨ message.GetType = 88 := by
      by_contra hc
      exact htype ⟨fun h1 => hc (Or.inl h1), fun h1 => hc (Or.inr h1)⟩
    split at h
    · cases h
      first | rfl | exact fun sym => Or.inl rfl
    rename_i seqNum m1 hseq
    split at h
    · cases h
    split at h
    · cases h
      first | rfl | exact fun sym => Or.inl rfl
    rename_i symbol m2 hsym
    have hty : m2.GetType = message.GetType := by
      simp only [Message.GetType]
      rw [Message.ReadSymbol_type hsym, Message.ReadMsgSecNum_type hseq]
    have hsub : ∀ sym : List Int,
        (BookSet.subscript bs.m_books symbol).lookup sym = bs.m_books.lookup sym ∨
        (bs.m_books.lookup sym = none ∧
          (BookSet.subscript bs.m_books symbol).lookup sym = some (0, none)) := by
      intro sym
      rcases BookSet.lookup_subscript bs.m_books symbol sym with h1 | ⟨_, h2, h3⟩
      · exact Or.inl h1
      · exact Or.inr ⟨h2, h3⟩
    dsimp only at h
    split at h
    · split at h
      · cases h
        first
        | rfl
        | (intro sym
           rcases hsub sym with h1 | h1
           · exact Or.inl h1
           · exact Or.inr (Or.inl h1))
      · cases h
    rename_i h87
    have h88 : message.GetType = 88 := by
      rcases htype2 with h1 | h1
      · exact absurd (hty.trans h1) h87
      · exact h1
    split at h
    · cases h
      first
      | rfl
      | (intro sym
         rcases hsub sym with h1 | h1
         · exact Or.inl h1
         · exact Or.inr (Or.inl h1))
    rename_i b hbook
    split at h
    · rename_i err b2 hupd
      cases h
      first
      | rfl
      | (intro sym
         simp only [BookSet.lookup_assign]
         -- the symbol had a Book, so `m_books[symbol]` inserted nothing
         have hl : ∃ n, bs.m_books.lookup symbol = some (n, some b) := by
           rcases BookSet.lookup_subscript bs.m_books symbol symbol with h1 | ⟨_, _, h3⟩
           · rw [h1] at hbook
             cases hlk : bs.m_books.lookup symbol with
             | none => rw [hlk] at hbook; simp at hbook
             | some w =>
               rw [hlk] at hbook
               simp only [Option.getD_some] at hbook
               exact ⟨w.1, by rw [← hbook]⟩
           · rw [h3] at hbook; simp at hbook
         obtain ⟨n, hn⟩ := hl
         have hsame : (BookSet.subscript bs.m_books symbol).lookup symbol
             = some (n, some b) := by
           rcases BookSet.lookup_subscript bs.m_books symbol symbol with h1 | ⟨_, h2, _⟩
           · rw [h1, hn]
           · rw [hn] at h2; cases h2
         by_cases hs : sym = symbol
         · subst hs
           right; right
           refine ⟨h88, seqNum, m1, m2, n, b, b2, hseq, hsym, hn, ?_,
             Book.Update_thrown_upTo hupd⟩
           simp [hsame]
         · simp only [hs, if_false]
           rcases hsub sym with h1 | h1
           · exact Or.inl h1
           · exact Or.inr (Or.inl h1))
    · cases h

/-- Witness for C11 (amended): `incPartial` sent to the BookSet that holds the
snapshot `snapEUR`; its first entry is applied, its second is the failing
one. -/
theorem BookSet.Update_thrown_witness :
    bookSetEUR.Update incPartial
        = .thrown Error.ProtocolError (bookSetEUR.Update incPartial).state ∧
      Message.incrementalEntries { incPartial with m_cursor := 36 }
        = [(MDUpdateAction.MDUpdateAction_Change, MDEntryType.MDEntryType_Bid, 11 / 10, 75),
           (MDUpdateAction.MDUpdateAction_Change, MDEntryType.MDEntryType_Bid, 6 / 5, 5)] ∧
      Book.appliedUpTo
        { m_asks := ⟨[(110100000, ⟨1101 / 1000, 50⟩)]⟩,
          m_bids := ⟨[(110000000, ⟨11 / 10, 100⟩)]⟩ }
        { m_asks := ⟨[(110100000, ⟨1101 / 1000, 50⟩)]⟩,
          m_bids := ⟨[(110000000, ⟨11 / 10, 75⟩)]⟩ }
        (Message.incrementalEntries { incPartial with m_cursor := 36 })
        Error.ProtocolError ∧
      (bookSetEUR.Update incPartial).state.m_seqNum = bookSetEUR.m_seqNum ∧
      (∀ sym : List Int,
        (bookSetEUR.Update incPartial).state.m_books.lookup sym
            = bookSetEUR.m_books.lookup sym ∨
        (bookSetEUR.m_books.lookup sym = none ∧
          (bookSetEUR.Update incPartial).state.m_books.lookup sym = some (0, none)) ∨
        (incPartial.GetType = 88 ∧
          ∃ (seqNum : Nat) (m1 m2 : Message) (n : Nat) (b b2 : Book),
            incPartial.ReadMsgSecNum = .ok (seqNum, m1) ∧
            m1.ReadSymbol = .ok (sym, m2) ∧
            bookSetEUR.m_books.lookup sym = some (n, some b) ∧
            (bookSetEUR.Update incPartial).state.m_books.lookup sym = some (n, some b2) ∧
            Book.appliedUpTo b b2 m2.incrementalEntries Error.ProtocolError)) ∧
      (∀ (seqNum : Nat) (m1 m2 : Message) (sym : List Int) (n : Nat) (b : Book),
        incPartial.GetType = 88 → incPartial.ReadMsgSecNum = .ok (seqNum, m1) →
        m1.ReadSymbol = .ok (sym, m2) → bookSetEUR.m_books.lookup sym = some (n, some b) →
        ∃ b2, (bookSetEUR.Update incPartial).state.m_books.lookup sym = some (n, some b2) ∧
          Book.appliedUpTo b b2 m2.incrementalEntries Error.ProtocolError) :=
  ⟨by decide!, by decide!,
    ⟨1, by decide!, by decide!,
      Or.inr ⟨(MDUpdateAction.MDUpdateAction_Change, MDEntryType.MDEntryType_Bid, 6 / 5, 5),
        by decide!, by decide!⟩⟩,
    BookSet.Update_thrown bookSetEUR (bookSetEUR.Update incPartial).state incPartial
      Error.ProtocolError (by decide!)⟩

/-! ## Claims on the checksum -/

theorem Content.deref_eq_getElem (c : Content) (i : Nat) (h : i < c.data.length) :
    c.deref i = c.data[i] := by
  simp [Content.deref, List.getD_eq_getElem?_getD, List.getElem?_eq_getElem h]

theorem Message.CalcCheckSum.loop_mod (c : Content)
    (hchar : ∀ x ∈ c.data, (x = c.m_soh ↔ byteOf x = c.m_soh)) (n : Nat) :
    ∀ (b : Nat) (r : Int), b + n ≤ c.data.length →
      Message.CalcCheckSum.loop c n b r % 256
        = (r + ((((c.data.drop b).take n).map byteOf).map
            (fun u => if u = c.m_soh then 1 else u)).sum) % 256 := by
  induction n with
  | zero => intro b r _; simp [Message.CalcCheckSum.loop]
  | succ n ih =>
    intro b r hb
    have hlt : b < c.data.length := by omega
    rw [Message.CalcCheckSum.loop, ih (b + 1) _ (by omega)]
    rw [List.drop_eq_getElem_cons hlt, List.take_succ_cons, List.map_cons, List.map_cons,
      List.sum_cons, Content.deref_eq_getElem c b hlt]
    have hx := hchar c.data[b] (List.getElem_mem _)
    have hw : (if c.data[b] = c.m_soh then (1 : Int) else c.data[b]) % 256
        = (if byteOf c.data[b] = c.m_soh then (1 : Int) else byteOf c.data[b]) % 256 := by
      by_cases h1 : c.data[b] = c.m_soh
      · rw [if_pos h1, if_pos (hx.1 h1)]
      · rw [if_neg h1, if_neg (fun h2 => h1 (hx.2 h2))]
        simp [byteOf]
    generalize (((List.map byteOf (List.take n (List.drop (b + 1) c.data))).map
      (fun u => if u = c.m_soh then 1 else u)).sum) = S
    generalize (if c.data[b] = c.m_soh then (1 : Int) else c.data[b]) = w at hw ⊢
    generalize (if byteOf c.data[b] = c.m_soh then (1 : Int) else byteOf c.data[b]) = w2 at hw ⊢
    omega

/-- The checksum loop against the sum of the specification, for a string in
which a `char` equals the delimiter exactly when its byte does. -/
theorem Message.CalcCheckSum_of_iff (c : Content) (begin_ end_ : Nat)
    (hrange : end_ ≤ c.data.length)
    (hiff : ∀ x ∈ c.data, (x = c.m_soh ↔ byteOf x = c.m_soh)) :
    (Message.CalcCheckSum c begin_ end_ : Int) = checkSumSpec c.m_soh (c.bytes begin_ end_) := by
  by_cases hbe : begin_ ≤ end_
  · have h := Message.CalcCheckSum.loop_mod c hiff (end_ - begin_) begin_ 0 (by omega)
    unfold Message.CalcCheckSum checkSumSpec Content.bytes
    rw [Int.toNat_of_nonneg (Int.emod_nonneg _ (by decide)), h, zero_add]
  · have h0 : end_ - begin_ = 0 := by omega
    unfold Message.CalcCheckSum checkSumSpec Content.bytes
    simp [h0, Message.CalcCheckSum.loop]

/-- Why the theorem below names the delimiter test of `Normalize`: taken by
itself, with the delimiter 200 over signed `char`s, the loop counts the byte
200, the `char` -56, as 200 and not as 1. No call of `CalcCheckSum` is made
on such a string, see `Message.ctor_signed_high_delimiter`. -/
theorem Message.CalcCheckSum_high_delimiter :
    Content.bytes
        { m_soh := 200, data := [-56], m_begin := 0, m_end := 1, m_cursor := 0 } 0 1 = [200] ∧
      Message.CalcCheckSum
        { m_soh := 200, data := [-56], m_begin := 0, m_end := 1, m_cursor := 0 } 0 1 = 200 ∧
      checkSumSpec 200 [200] = 1 := by
  decide

/-- C12: `CalcCheckSum` returns a value in 0..255 on every input; and for
every delimiter (an `unsigned char`, 0..255), every string of `char`s (signed,
-128..127, or unsigned, 0..255, as the platform has them) on which the test
`*std::prev(m_end) != m_soh` of `Normalize`, which precedes the only call of
`CalcCheckSum`, has passed, and every range of the string, the value is the sum
modulo 256 of the unsigned byte values with each byte equal to the delimiter
counted as 1. -/
theorem Message.CalcCheckSum_spec (c : Content) (begin_ end_ : Nat) :
    Message.CalcCheckSum c begin_ end_ < 256 ∧
      ((0 ≤ c.m_soh ∧ c.m_soh < 256) →
        ((∀ x ∈ c.data, -128 ≤ x ∧ x ≤ 127) ∨ (∀ x ∈ c.data, 0 ≤ x ∧ x < 256)) →
        (c.m_end - 1 < c.data.length ∧ c.deref (c.m_end - 1) = c.m_soh) →
        end_ ≤ c.data.length →
        (Message.CalcCheckSum c begin_ end_ : Int)
          = checkSumSpec c.m_soh (c.bytes begin_ end_)) := by
  constructor
  · unfold Message.CalcCheckSum
    have h1 := Int.emod_nonneg (Message.CalcCheckSum.loop c (end_ - begin_) begin_ 0)
      (by decide : (256 : Int) ≠ 0)
    have h2 := Int.emod_lt_of_pos (Message.CalcCheckSum.loop c (end_ - begin_) begin_ 0)
      (by decide : (0 : Int) < 256)
    omega
  · intro hsoh hchar hlast hrange
    apply Message.CalcCheckSum_of_iff c begin_ end_ hrange
    intro x hx
    unfold byteOf
    rcases hchar with h2 | h2
    · -- the last `char` is the delimiter, so the delimiter is a `char` value
      have hmem : c.m_soh ∈ c.data := by
        rw [← hlast.2, Content.deref_eq_getElem c _ hlast.1]
        exact List.getElem_mem _
      have hs := h2 _ hmem
      have := h2 x hx
      constructor <;> intro h <;> omega
    · have := h2 x hx
      constructor <;> intro h <;> omega

/-- Witness for C12: the checksum of the first 91 bytes of the sample
snapshot, delimiter `|`, is the 75 its checksum field carries. -/
theorem Message.CalcCheckSum_spec_witness :
    ((0 : Int) ≤ snapEUR.m_soh ∧ snapEUR.m_soh < 256) ∧
      ((∀ x ∈ snapEUR.data, -128 ≤ x ∧ x ≤ 127) ∨ (∀ x ∈ snapEUR.data, 0 ≤ x ∧ x < 256)) ∧
      (snapEUR.m_end - 1 < snapEUR.data.length ∧
        snapEUR.toContent.deref (snapEUR.m_end - 1) = snapEUR.m_soh) ∧
      91 ≤ snapEUR.data.length ∧
      Message.CalcCheckSum snapEUR.toContent 0 91 = 75 ∧
      Message.CalcCheckSum snapEUR.toContent 0 91 < 256 ∧
      (Message.CalcCheckSum snapEUR.toContent 0 91 : Int)
        = checkSumSpec snapEUR.m_soh (snapEUR.toContent.bytes 0 91) :=
  ⟨by decide!, Or.inl (by decide!), by decide!, by decide!, by decide!,
    (Message.CalcCheckSum_spec snapEUR.toContent 0 91).1,
    (Message.CalcCheckSum_spec snapEUR.toContent 0 91).2 (by decide!) (Or.inl (by decide!))
      (by decide!) (by decide!)⟩

/-! ## Lemmas on `ReadIntValue` and `Normalize` -/

theorem Content.ReadIntValue.loop_ok (c : Content) (w : Nat) (fuel : Nat) :
    ∀ (result : Int) (it : Nat) (res : Int) (itf : Nat),
      Content.ReadIntValue.loop c w fuel result it = .ok (res, itf) →
      it < itf ∧ itf < c.m_end ∧ c.deref itf = c.m_soh ∧
        (∀ i, it < i → i < itf → c.deref i ≠ c.m_soh) ∧ 0 ≤ res ∧ res < 2 ^ w := by
  induction fuel with
  | zero => intro result it res itf h; simp [Content.ReadIntValue.loop] at h
  | succ fuel ih =>
    intro result it res itf h
    simp only [Content.ReadIntValue.loop] at h
    split at h
    · cases h
    · rename_i hend
      split at h
      · rename_i hne
        obtain ⟨h1, h2, h3, h4, h5⟩ := ih _ _ _ _ h
        refine ⟨by omega, h2, h3, ?_, h5⟩
        intro i hi1 hi2
        by_cases hi : i = it + 1
        · rw [hi]; exact hne
        · exact h4 i (by omega) hi2
      · rename_i heq
        simp only [Except.ok.injEq, Prod.mk.injEq] at h
        obtain ⟨hres, hitf⟩ := h
        subst hitf
        refine ⟨by omega, by omega, by simpa using heq, fun i hi1 hi2 => by omega, ?_⟩
        rw [← hres]
        exact ⟨Int.emod_nonneg _ (by positivity), Int.emod_lt_of_pos _ (by positivity)⟩

/-- What a successful `ReadIntValue` says about the string: the value starts
at a `char` that is not the delimiter, the first delimiter after it stands
just before the new cursor, inside the range, and the value is below
`2 ^ w`. -/
theorem Content.ReadIntValue_ok {c : Content} {w cursor v cursor2 : Nat}
    (h : c.ReadIntValue w cursor = .ok (v, cursor2)) :
    c.deref cursor ≠ c.m_soh ∧ cursor < c.m_end ∧ cursor + 2 ≤ cursor2 ∧ cursor2 ≤ c.m_end ∧
      c.deref (cursor2 - 1) = c.m_soh ∧
      (∀ i, cursor < i → i + 1 < cursor2 → c.deref i ≠ c.m_soh) ∧ v < 2 ^ w := by
  unfold Content.ReadIntValue at h
  split at h
  · cases h
  · rename_i hcheck
    unfold Content.CheckValueCursor at hcheck
    split at hcheck
    · cases hcheck
    · rename_i hc
      simp only [not_or, not_le] at hc
      split at h
      · cases h
      · rename_i res itf hloop
        simp only [Except.ok.injEq, Prod.mk.injEq] at h
        obtain ⟨hv, hcur⟩ := h
        obtain ⟨h1, h2, h3, h4, h5, h6⟩ := Content.ReadIntValue.loop_ok c w _ _ _ _ _ hloop
        subst hcur
        refine ⟨hc.1, by omega, by omega, by omega, by simpa using h3,
          fun i hi1 hi2 => h4 i hi1 (by omega), ?_⟩
        rw [← hv]
        have : (res.toNat : Int) = res := Int.toNat_of_nonneg h5
        exact_mod_cast this ▸ h6

theorem Content.ReadIntValue_error {c : Content} {w cursor : Nat} {e : Error}
    (h : c.ReadIntValue w cursor = .error e) : e = Error.ProtocolError := by
  unfold Content.ReadIntValue at h
  split at h
  · rename_i err hcheck
    unfold Content.CheckValueCursor at hcheck
    split at hcheck
    · cases hcheck; cases h; rfl
    · cases hcheck
  · split at h
    · rename_i err hloop
      cases h
      have : ∀ (fuel : Nat) (r : Int) (it : Nat) (err : Error),
          Content.ReadIntValue.loop c w fuel r it = .error err → err = Error.ProtocolError := by
        intro fuel
        induction fuel with
        | zero => intro r it err h; simp only [Content.ReadIntValue.loop] at h; cases h; rfl
        | succ fuel ih =>
          intro r it err h
          simp only [Content.ReadIntValue.loop] at h
          split at h
          · cases h; rfl
          · split at h
            · exact ih _ _ _ h
            · cases h
      exact this _ _ _ _ hloop
    · cases h

/-- The checks a message has passed when `Normalize` returns, and the message
it returns. -/
theorem Message.Normalize.checks_ok {c : Content} {m : Message}
    (h : Message.Normalize.checks c = .ok m) :
    ∃ len cursor : Nat,
      25 < (c.m_end : Int) - (c.m_begin : Int) ∧
      c.deref (c.m_end - 1) = c.m_soh ∧
      c.equalAt c.m_begin (chars "8=FIX.4.4") = true ∧
      c.deref (c.m_begin + 9) = c.m_soh ∧
      c.equalAt (c.m_begin + 10) (chars "9=") = true ∧
      c.ReadIntValue 64 (c.m_begin + 12) = .ok (len, cursor) ∧
      (((len + 7) % 2 ^ 64 : Nat) : Int) ≤ (c.m_end : Int) - (cursor : Int) ∧
      c.deref (Message.Normalize.advance cursor len - 1) = c.m_soh ∧
      c.equalAt (Message.Normalize.advance cursor len) (chars "10=") = true ∧
      c.ReadIntValue 64 (Message.Normalize.advance cursor len + 3)
        = .ok (Message.CalcCheckSum c c.m_begin (Message.Normalize.advance cursor len),
            c.m_end) ∧
      c.equalAt cursor (chars "35=") = true ∧
      c.deref (cursor + 3) ≠ c.m_soh ∧
      c.deref (cursor + 4) = c.m_soh ∧
      m = { m_soh := c.m_soh, data := c.data, m_begin := cursor + 5,
            m_end := Message.Normalize.advance cursor len, m_cursor := cursor + 5,
            m_type := c.deref (cursor + 3) } := by
  rw [Message.Normalize.checks] at h
  by_cases h1 : (c.m_end : Int) - (c.m_begin : Int) ≤ 0 ∨ (c.m_end : Int) - (c.m_begin : Int) ≤ 25
  · rw [if_pos h1] at h; cases h
  rw [if_neg h1] at h
  by_cases h2 : c.deref (c.m_end - 1) ≠ c.m_soh
  · rw [if_pos h2] at h; cases h
  rw [if_neg h2] at h
  by_cases h3 : ¬ c.equalAt c.m_begin (chars "8=FIX.4.4") = true
  · rw [if_pos h3] at h; cases h
  rw [if_neg h3] at h
  by_cases h4 : c.deref (c.m_begin + 9 + 1 - 1) ≠ c.m_soh
  · rw [if_pos h4] at h; cases h
  rw [if_neg h4] at h
  by_cases h5 : ¬ c.equalAt (c.m_begin + 9 + 1) (chars "9=") = true
  · rw [if_pos h5] at h; cases h
  rw [if_neg h5] at h
  cases hlen : c.ReadIntValue 64 (c.m_begin + 9 + 1 + 2) with
  | error e => rw [hlen] at h; cases h
  | ok r =>
    obtain ⟨len, cursor⟩ := r
    rw [hlen] at h
    dsimp only at h
    by_cases h6 : (c.m_end : Int) - (cursor : Int) ≤ 0 ∨
        (c.m_end : Int) - (cursor : Int) < ((len + 7) % 2 ^ 64 : Nat)
    · rw [if_pos h6] at h; cases h
    rw [if_neg h6] at h
    by_cases h7 : c.deref (Message.Normalize.advance cursor len - 1) ≠ c.m_soh
    · rw [if_pos h7] at h; cases h
    rw [if_neg h7] at h
    by_cases h8 : ¬ c.equalAt (Message.Normalize.advance cursor len) (chars "10=") = true
    · rw [if_pos h8] at h; cases h
    rw [if_neg h8] at h
    cases hmc : c.ReadIntValue 64 (Message.Normalize.advance cursor len + 3) with
    | error e => rw [hmc] at h; cases h
    | ok r2 =>
      obtain ⟨mc, cursor2⟩ := r2
      rw [hmc] at h
      dsimp only at h
      by_cases h9 : Message.CalcCheckSum c c.m_begin (Message.Normalize.advance cursor len) ≠ mc ∨
          cursor2 ≠ c.m_end
      · rw [if_pos h9] at h; cases h
      rw [if_neg h9] at h
      by_cases h10 : ¬ c.equalAt cursor (chars "35=") = true
      · rw [if_pos h10] at h; cases h
      rw [if_neg h10] at h
      by_cases h11 : c.deref (cursor + 3) = c.m_soh
      · rw [if_pos h11] at h; cases h
      rw [if_neg h11] at h
      by_cases h12 : c.deref (cursor + 3 + 1) ≠ c.m_soh
      · rw [if_pos h12] at h; cases h
      rw [if_neg h12] at h
      simp only [Except.ok.injEq] at h
      have e1 : c.m_begin + 9 + 1 - 1 = c.m_begin + 9 := by omega
      have e2 : cursor + 3 + 1 = cursor + 4 := by omega
      rw [e1] at h4
      rw [e2] at h12
      have h9a := not_or.1 h9
      have h9b : Message.CalcCheckSum c c.m_begin (Message.Normalize.advance cursor len) = mc :=
        not_not.1 h9a.1
      have h9c : cursor2 = c.m_end := not_not.1 h9a.2
      have h6a := not_or.1 h6
      refine ⟨len, cursor, ?_, not_not.1 h2, not_not.1 h3, not_not.1 h4,
        not_not.1 h5, rfl, ?_, not_not.1 h7, not_not.1 h8, ?_,
        not_not.1 h10, h11, not_not.1 h12, h.symm⟩
      · have := not_or.1 h1
        exact not_le.1 this.2
      · exact not_lt.1 h6a.2
      · rw [h9b, ← h9c]
        exact hmc

/-- Every exception `Normalize` throws is a `ProtocolError`. -/
theorem Message.Normalize.checks_error {c : Content} {e : Error}
    (h : Message.Normalize.checks c = .error e) : e = Error.ProtocolError := by
  rw [Message.Normalize.checks] at h
  by_cases h1 : (c.m_end : Int) - (c.m_begin : Int) ≤ 0 ∨ (c.m_end : Int) - (c.m_begin : Int) ≤ 25
  · rw [if_pos h1] at h; cases h; rfl
  rw [if_neg h1] at h
  by_cases h2 : c.deref (c.m_end - 1) ≠ c.m_soh
  · rw [if_pos h2] at h; cases h; rfl
  rw [if_neg h2] at h
  by_cases h3 : ¬ c.equalAt c.m_begin (chars "8=FIX.4.4") = true
  · rw [if_pos h3] at h; cases h; rfl
  rw [if_neg h3] at h
  by_cases h4 : c.deref (c.m_begin + 9 + 1 - 1) ≠ c.m_soh
  · rw [if_pos h4] at h; cases h; rfl
  rw [if_neg h4] at h
  by_cases h5 : ¬ c.equalAt (c.m_begin + 9 + 1) (chars "9=") = true
  · rw [if_pos h5] at h; cases h; rfl
  rw [if_neg h5] at h
  cases hlen : c.ReadIntValue 64 (c.m_begin + 9 + 1 + 2) with
  | error e2 => rw [hlen] at h; cases h; exact Content.ReadIntValue_error hlen
  | ok r =>
    obtain ⟨len, cursor⟩ := r
    rw [hlen] at h
    dsimp only at h
    by_cases h6 : (c.m_end : Int) - (cursor : Int) ≤ 0 ∨
        (c.m_end : Int) - (cursor : Int) < ((len + 7) % 2 ^ 64 : Nat)
    · rw [if_pos h6] at h; cases h; rfl
    rw [if_neg h6] at h
    by_cases h7 : c.deref (Message.Normalize.advance cursor len - 1) ≠ c.m_soh
    · rw [if_pos h7] at h; cases h; rfl
    rw [if_neg h7] at h
    by_cases h8 : ¬ c.equalAt (Message.Normalize.advance cursor len) (chars "10=") = true
    · rw [if_pos h8] at h; cases h; rfl
    rw [if_neg h8] at h
    cases hmc : c.ReadIntValue 64 (Message.Normalize.advance cursor len + 3) with
    | error e2 => rw [hmc] at h; cases h; exact Content.ReadIntValue_error hmc
    | ok r2 =>
      obtain ⟨mc, cursor2⟩ := r2
      rw [hmc] at h
      dsimp only at h
      by_cases h9 : Message.CalcCheckSum c c.m_begin (Message.Normalize.advance cursor len) ≠ mc ∨
          cursor2 ≠ c.m_end
      · rw [if_pos h9] at h; cases h; rfl
      rw [if_neg h9] at h
      by_cases h10 : ¬ c.equalAt cursor (chars "35=") = true
      · rw [if_pos h10] at h; cases h; rfl
      rw [if_neg h10] at h
      by_cases h11 : c.deref (cursor + 3) = c.m_soh
      · rw [if_pos h11] at h; cases h; rfl
      rw [if_neg h11] at h
      by_cases h12 : c.deref (cursor + 3 + 1) ≠ c.m_soh
      · rw [if_pos h12] at h; cases h; rfl
      rw [if_neg h12] at h
      cases h

theorem chars_proto : chars "8=FIX.4.4" = [56, 61, 70, 73, 88, 46, 52, 46, 52] := by decide

theorem chars_len : chars "9=" = [57, 61] := by decide

theorem chars_sum : chars "10=" = [49, 48, 61] := by decide

theorem chars_type : chars "35=" = [51, 53, 61] := by decide

/-- A validated message declares a length below `2 ^ 63`: the pointer
arithmetic `m_cursor + len` never goes backwards. -/
theorem Message.Normalize.len_small {c : Content} {len cursor : Nat}
    (hsize : c.m_end < 2 ^ 63)
    (h3 : c.equalAt c.m_begin (chars "8=FIX.4.4") = true)
    (h4 : c.deref (c.m_begin + 9) = c.m_soh)
    (h5 : c.equalAt (c.m_begin + 10) (chars "9=") = true)
    (hlen : c.ReadIntValue 64 (c.m_begin + 12) = .ok (len, cursor))
    (h6 : (((len + 7) % 2 ^ 64 : Nat) : Int) ≤ (c.m_end : Int) - (cursor : Int))
    (h7 : c.deref (Message.Normalize.advance cursor len - 1) = c.m_soh)
    (h8 : c.equalAt (Message.Normalize.advance cursor len) (chars "10=") = true) :
    len < 2 ^ 63 := by
  by_contra hge
  obtain ⟨r1, r2, r3, r4, r5, r6, r7⟩ := Content.ReadIntValue_ok hlen
  have hk : 2 ^ 64 ≤ len + 7 := by
    by_contra hlt
    rw [Nat.mod_eq_of_lt (by omega)] at h6
    omega
  have hadv : Message.Normalize.advance cursor len = cursor - (2 ^ 64 - len) := by
    unfold Message.Normalize.advance
    rw [if_neg hge]
  rw [hadv] at h7 h8
  simp only [chars_proto, chars_len, chars_sum, Content.equalAt, Bool.and_true,
    Bool.and_eq_true, beq_iff_eq, Char.reduceToNat, Int.ofNat_eq_coe, Nat.cast_ofNat] at h3 h5 h8
  obtain ⟨p0, p1, p2, p3, p4, p5, p6, p7, p8⟩ := h3
  obtain ⟨q0, q1⟩ := h5
  obtain ⟨s0, s1, s2⟩ := h8
  generalize hk2 : 2 ^ 64 - len = k at *
  have hk3 : 1 ≤ k ∧ k ≤ 7 := by omega
  -- the delimiter before the checksum field lies before the length value
  have ha : cursor - k ≤ c.m_begin + 12 := by
    by_contra hgt
    by_cases he : cursor - k - 1 = c.m_begin + 12
    · rw [he] at h7; exact r1 h7
    · exact r6 (cursor - k - 1) (by omega) (by omega) h7
  obtain ⟨d, hd⟩ : ∃ d, cursor - k = c.m_begin + d := ⟨cursor - k - c.m_begin, by omega⟩
  have hd2 : 7 ≤ d ∧ d ≤ 12 := by omega
  rw [hd] at h7 s0 s1 s2
  obtain ⟨hd3, hd4⟩ := hd2
  interval_cases d
  · rw [show c.m_begin + 7 = c.m_begin + 1 + 1 + 1 + 1 + 1 + 1 + 1 by omega] at s0
    omega
  · rw [show c.m_begin + 8 = c.m_begin + 1 + 1 + 1 + 1 + 1 + 1 + 1 + 1 by omega] at s0
    omega
  · rw [show c.m_begin + 9 - 1 = c.m_begin + 1 + 1 + 1 + 1 + 1 + 1 + 1 + 1 by omega] at h7
    rw [h4] at s0
    omega
  · rw [q0] at s0
    omega
  · rw [show c.m_begin + 11 = c.m_begin + 10 + 1 by omega, q1] at s0
    omega
  · -- the length value would be `10` followed by the delimiter `=`
    rw [show c.m_begin + 12 - 1 = c.m_begin + 10 + 1 by omega, q1] at h7
    have hc : cursor = c.m_begin + 15 := by
      have hle : cursor ≤ c.m_begin + 15 := by
        by_contra hgt
        exact r6 (c.m_begin + 14) (by omega) (by omega)
          (by rw [show c.m_begin + 14 = c.m_begin + 12 + 1 + 1 by omega, s2]; exact h7)
      by_contra hne
      have h14 : cursor = c.m_begin + 14 := by omega
      rw [h14, show c.m_begin + 14 - 1 = c.m_begin + 12 + 1 by omega, s1] at r5
      omega
    have hval : c.ReadIntValue 64 (c.m_begin + 12) = .ok (10, c.m_begin + 15) := by
      obtain ⟨f, hf⟩ : ∃ f, c.m_end - (c.m_begin + 12) = f + 2 :=
        ⟨c.m_end - (c.m_begin + 12) - 2, by omega⟩
      have g0 : ¬ (c.m_end ≤ c.m_begin + 12) := by omega
      have g1 : ¬ (c.m_end ≤ c.m_begin + 12 + 1) := by omega
      have g2 : ¬ (c.m_end ≤ c.m_begin + 12 + 1 + 1) := by omega
      simp only [Content.ReadIntValue, Content.CheckValueCursor, hf,
        Content.ReadIntValue.loop, s0, s1, s2, ← h7, ge_iff_le, g0, g1, g2]
      norm_num
      rfl
    rw [hval] at hlen
    simp only [Except.ok.injEq, Prod.mk.injEq] at hlen
    omega

theorem Message.Normalize.trim_spec (c : Content) (n : Nat) :
    ∀ e, Message.Normalize.trim c n e ≤ e ∧
      ∀ i, Message.Normalize.trim c n e ≤ i → i < e → c.deref i = 13 ∨ c.deref i = 10 := by
  induction n with
  | zero => intro e; exact ⟨le_refl e, fun i h1 h2 => absurd h2 (by simp only [Message.Normalize.trim] at h1; omega)⟩
  | succ n ih =>
    intro e
    simp only [Message.Normalize.trim]
    split
    · exact ⟨le_refl e, fun i h1 h2 => by omega⟩
    · rename_i hcr
      obtain ⟨h1, h2⟩ := ih (e - 1)
      refine ⟨by omega, fun i hi1 hi2 => ?_⟩
      by_cases hi : i < e - 1
      · exact h2 i hi1 hi
      · have hie : i = e - 1 := by omega
        rw [hie]
        by_contra hne
        exact hcr ⟨fun h => hne (Or.inl h), fun h => hne (Or.inr h)⟩

theorem Message.Normalize.trim_congr (c c2 : Content) (n : Nat) :
    ∀ e, (∀ i, Message.Normalize.trim c n e ≤ i + 1 → c2.deref i = c.deref i) →
      Message.Normalize.trim c2 n e = Message.Normalize.trim c n e := by
  induction n with
  | zero => intro e _; rfl
  | succ n ih =>
    intro e h
    simp only [Message.Normalize.trim] at h ⊢
    by_cases hcr : c.deref (e - 1) ≠ 13 ∧ c.deref (e - 1) ≠ 10
    · rw [if_pos hcr] at h ⊢
      rw [h (e - 1) (by omega)]
      rw [if_pos hcr]
    · rw [if_neg hcr] at h ⊢
      have hle := (Message.Normalize.trim_spec c n (e - 1)).1
      rw [h (e - 1) (by omega), if_neg hcr]
      exact ih (e - 1) h

theorem Content.ReadIntValue.loop_congr (c c2 : Content) (w : Nat)
    (hend : c2.m_end = c.m_end) (hsoh : c2.m_soh = c.m_soh) (fuel : Nat) :
    ∀ (result : Int) (it : Nat) (res : Int) (itf : Nat),
      Content.ReadIntValue.loop c w fuel result it = .ok (res, itf) →
      (∀ i, it ≤ i → i ≤ itf → c2.deref i = c.deref i) →
      Content.ReadIntValue.loop c2 w fuel result it = .ok (res, itf) := by
  induction fuel with
  | zero => intro result it res itf h; simp [Content.ReadIntValue.loop] at h
  | succ fuel ih =>
    intro result it res itf h hagree
    have hb := Content.ReadIntValue.loop_ok c w _ _ _ _ _ h
    simp only [Content.ReadIntValue.loop] at h ⊢
    rw [hend, hsoh, hagree it (le_refl it) (by omega), hagree (it + 1) (by omega) (by omega)]
    by_cases h1 : it + 1 ≥ c.m_end
    · rw [if_pos h1] at h; cases h
    · rw [if_neg h1] at h ⊢
      by_cases h2 : c.deref (it + 1) ≠ c.m_soh
      · rw [if_pos h2] at h ⊢
        exact ih _ _ _ _ h (fun i hi1 hi2 => hagree i (by omega) hi2)
      · rw [if_neg h2] at h ⊢
        exact h

theorem Content.ReadIntValue_congr {c c2 : Content} {w cursor v cursor2 : Nat}
    (hend : c2.m_end = c.m_end) (hsoh : c2.m_soh = c.m_soh)
    (h : c.ReadIntValue w cursor = .ok (v, cursor2))
    (hagree : ∀ i, cursor ≤ i → i < cursor2 → c2.deref i = c.deref i) :
    c2.ReadIntValue w cursor = .ok (v, cursor2) := by
  have hb := Content.ReadIntValue_ok h
  unfold Content.ReadIntValue Content.CheckValueCursor at h ⊢
  rw [hend, hsoh, hagree cursor (le_refl _) (by omega)]
  by_cases h1 : c.deref cursor = c.m_soh ∨ cursor ≥ c.m_end
  · rw [if_pos h1] at h; cases h
  · rw [if_neg h1] at h ⊢
    dsimp only at h ⊢
    cases hloop : Content.ReadIntValue.loop c w (c.m_end - cursor) 0 cursor with
    | error e => rw [hloop] at h; cases h
    | ok r =>
      obtain ⟨res, itf⟩ := r
      rw [hloop] at h
      simp only [Except.ok.injEq, Prod.mk.injEq] at h
      rw [Content.ReadIntValue.loop_congr c c2 w hend hsoh _ _ _ _ _ hloop
        (fun i hi1 hi2 => hagree i hi1 (by omega))]
      simp only [Except.ok.injEq, Prod.mk.injEq]
      exact h

theorem Content.deref_set (c : Content) (p : Nat) (v : Int) (i : Nat) (h : i ≠ p) :
    Content.deref { c with data := c.data.set p v } i = c.deref i := by
  simp only [Content.deref, List.getD_eq_getElem?_getD]
  rw [List.getElem?_set_ne (fun h2 => h h2.symm)]

theorem Content.deref_set_self (c : Content) (p : Nat) (v : Int) (h : p < c.data.length) :
    Content.deref { c with data := c.data.set p v } p = v := by
  simp [Content.deref, List.getD_eq_getElem?_getD, h]

theorem Message.CalcCheckSum.loop_set (c : Content) (p : Nat) (v : Int)
    (hp : p < c.data.length) (n : Nat) :
    ∀ (b : Nat) (r r2 δ : Int), r2 % 256 = (r + δ) % 256 →
      Message.CalcCheckSum.loop { c with data := c.data.set p v } n b r2 % 256
        = (Message.CalcCheckSum.loop c n b r + δ
            + (if b ≤ p ∧ p < b + n then
                (if v = c.m_soh then 1 else v) - (if c.deref p = c.m_soh then 1 else c.deref p)
               else 0)) % 256 := by
  induction n with
  | zero =>
    intro b r r2 δ h
    simp only [Message.CalcCheckSum.loop]
    have e1 : ¬ (b ≤ p ∧ p < b + 0) := by omega
    rw [if_neg e1]
    simpa using h
  | succ n ih =>
    intro b r r2 δ h
    simp only [Message.CalcCheckSum.loop]
    by_cases hb : b = p
    · subst hb
      rw [Content.deref_set_self c b v hp]
      rw [ih (b + 1) ((r + (if c.deref b = c.m_soh then 1 else c.deref b) % 2 ^ 32) % 2 ^ 32) _
        (δ + ((if v = c.m_soh then 1 else v)
          - (if c.deref b = c.m_soh then 1 else c.deref b)))]
      · have e1 : ¬ (b + 1 ≤ b ∧ b < b + 1 + n) := by omega
        have e2 : b ≤ b ∧ b < b + (n + 1) := by omega
        rw [if_neg e1, if_pos e2]
        congr 1
        ring
      · generalize (if v = c.m_soh then (1 : Int) else v) = wv
        generalize (if c.deref b = c.m_soh then (1 : Int) else c.deref b) = wa
        omega
    · rw [Content.deref_set c p v b hb]
      rw [ih (b + 1) ((r + (if c.deref b = c.m_soh then 1 else c.deref b) % 2 ^ 32) % 2 ^ 32) _ δ]
      · by_cases hin : b ≤ p ∧ p < b + (n + 1)
        · have e1 : b + 1 ≤ p ∧ p < b + 1 + n := by omega
          rw [if_pos hin, if_pos e1]
        · have e1 : ¬ (b + 1 ≤ p ∧ p < b + 1 + n) := by omega
          rw [if_neg hin, if_neg e1]
      · generalize (if c.deref b = c.m_soh then (1 : Int) else c.deref b) = wa
        omega

/-- Replacing one `char` of the summed range by one of another weight changes
the checksum. -/
theorem Message.CalcCheckSum_set (c : Content) (p : Nat) (v : Int) (begin_ end_ : Nat)
    (hp : p < c.data.length) (h1 : begin_ ≤ p) (h2 : p < end_)
    (hw : ((if v = c.m_soh then 1 else v) - (if c.deref p = c.m_soh then 1 else c.deref p))
      % 256 ≠ 0) :
    Message.CalcCheckSum { c with data := c.data.set p v } begin_ end_
      ≠ Message.CalcCheckSum c begin_ end_ := by
  have h := Message.CalcCheckSum.loop_set c p v hp (end_ - begin_) begin_ 0 0 0 (by simp)
  have e1 : begin_ ≤ p ∧ p < begin_ + (end_ - begin_) := by omega
  rw [if_pos e1] at h
  unfold Message.CalcCheckSum
  intro heq
  have heq2 := congrArg (fun x : Nat => (x : Int)) heq
  simp only [] at heq2
  rw [Int.toNat_of_nonneg (Int.emod_nonneg _ (by decide)),
    Int.toNat_of_nonneg (Int.emod_nonneg _ (by decide)), h] at heq2
  generalize ((if v = c.m_soh then (1 : Int) else v)
    - (if c.deref p = c.m_soh then 1 else c.deref p)) = d at hw heq2
  omega

/-! ## Claims on the envelope validation -/

/-- C14: when the constructor returns (the range end being below `2 ^ 63`, as
every offset into a string in memory is), the range, once trimmed of its
trailing `\r` and `\n`, begins with `8=FIX.4.4`, the delimiter and `9=`; with
`bodyLength` the value of the length field and `lengthEnd` the offset just
past its delimiter, `10=` stands at `lengthEnd + bodyLength`, the value read
there is `CalcCheckSum` over the bytes from the range start to that offset,
and the delimiter of that value is the last byte of the trimmed range. The
message returned has the body between the type field and `10=` as its
range. -/
theorem Message.ctor_valid (soh : Int) (data : List Int) (begin_ end_ : Nat) (m : Message)
    (hsize : end_ < 2 ^ 63)
    (h : Message.ctor soh data begin_ end_ = .ok m) :
    ∃ (c : Content) (bodyLength lengthEnd : Nat),
      c = Message.Normalize.trimmed
        { m_soh := soh, data := data, m_begin := begin_, m_end := end_, m_cursor := begin_ } ∧
      c.m_end ≤ end_ ∧
      (∀ i, c.m_end ≤ i → i < end_ → c.deref i = 13 ∨ c.deref i = 10) ∧
      c.equalAt begin_ (chars "8=FIX.4.4") = true ∧
      c.deref (begin_ + 9) = soh ∧
      c.equalAt (begin_ + 10) (chars "9=") = true ∧
      c.ReadIntValue 64 (begin_ + 12) = .ok (bodyLength, lengthEnd) ∧
      c.equalAt (lengthEnd + bodyLength) (chars "10=") = true ∧
      c.ReadIntValue 64 (lengthEnd + bodyLength + 3)
        = .ok (Message.CalcCheckSum c begin_ (lengthEnd + bodyLength), c.m_end) ∧
      c.deref (c.m_end - 1) = soh ∧
      m.m_begin = lengthEnd + 5 ∧ m.m_end = lengthEnd + bodyLength := by
  unfold Message.ctor Message.Normalize at h
  obtain ⟨len, cursor, k1, k2, k3, k4, k5, k6, k7, k8, k9, k10, k11, k12, k13, k14⟩ :=
    Message.Normalize.checks_ok h
  have htrim := Message.Normalize.trim_spec
    { m_soh := soh, data := data, m_begin := begin_, m_end := end_, m_cursor := begin_ }
    (end_ - begin_) end_
  have hend : (Message.Normalize.trimmed
      { m_soh := soh, data := data, m_begin := begin_, m_end := end_,
        m_cursor := begin_ }).m_end < 2 ^ 63 := lt_of_le_of_lt htrim.1 hsize
  have hsmall := Message.Normalize.len_small hend k3 k4 k5 k6 k7 k8 k9
  have hadv : Message.Normalize.advance cursor len = cursor + len := by
    unfold Message.Normalize.advance
    rw [if_pos hsmall]
  rw [hadv] at k9 k10 k14
  refine ⟨_, len, cursor, rfl, htrim.1, htrim.2, k3, k4, k5, k6, k9, k10, k2, ?_, ?_⟩
  · rw [k14]
  · rw [k14]

/-- Witness for C14: the line `lineEUR`, the text of `snapEUR` followed by
`\r\n`; its length field says 76 and ends at offset 15. -/
theorem Message.ctor_valid_witness :
    ((100 : Nat) < 2 ^ 63) ∧
      Message.ctor 124 lineEUR 0 100 = .ok { snapEUR with data := lineEUR } ∧
      ∃ (c : Content) (bodyLength lengthEnd : Nat),
        c = Message.Normalize.trimmed
          { m_soh := 124, data := lineEUR, m_begin := 0, m_end := 100, m_cursor := 0 } ∧
        c.m_end ≤ 100 ∧
        (∀ i, c.m_end ≤ i → i < 100 → c.deref i = 13 ∨ c.deref i = 10) ∧
        c.equalAt 0 (chars "8=FIX.4.4") = true ∧
        c.deref (0 + 9) = 124 ∧
        c.equalAt (0 + 10) (chars "9=") = true ∧
        c.ReadIntValue 64 (0 + 12) = .ok (bodyLength, lengthEnd) ∧
        c.equalAt (lengthEnd + bodyLength) (chars "10=") = true ∧
        c.ReadIntValue 64 (lengthEnd + bodyLength + 3)
          = .ok (Message.CalcCheckSum c 0 (lengthEnd + bodyLength), c.m_end) ∧
        c.deref (c.m_end - 1) = 124 ∧
        ({ snapEUR with data := lineEUR } : Message).m_begin = lengthEnd + 5 ∧
        ({ snapEUR with data := lineEUR } : Message).m_end = lengthEnd + bodyLength :=
  ⟨by decide, by decide!,
    Message.ctor_valid 124 lineEUR 0 100 { snapEUR with data := lineEUR } (by decide)
      (by decide!)⟩

/-- C13 as stated fails: in the text of `snapEUR`, delimiter `|`, the byte at
offset 24 (the delimiter after `34=1`, inside the declared body) is replaced
by the byte 1; the checksum counts both bytes as 1 and no other check reads
that byte, so the altered message passes the constructor too. -/
theorem Message.ctor_accepts_altered :
    Message.ctor 124 snapEUR.data 0 98 = .ok snapEUR ∧
      snapEUR.m_begin ≤ 24 + 5 ∧ 24 < snapEUR.m_end ∧
      snapEUR.data.getD 24 0 = 124 ∧
      Message.ctor 124 (snapEUR.data.set 24 1) 0 98
        = .ok { snapEUR with data := snapEUR.data.set 24 1 } := by
  decide!

theorem Message.Normalize.trimmed_set (c0 : Content) (p : Nat) (v : Int)
    (hp : p + 1 < (Message.Normalize.trimmed c0).m_end) :
    Message.Normalize.trimmed { c0 with data := c0.data.set p v }
      = { Message.Normalize.trimmed c0 with data := c0.data.set p v } := by
  unfold Message.Normalize.trimmed at hp ⊢
  simp only at hp
  simp only [Content.mk.injEq, true_and, and_true]
  apply Message.Normalize.trim_congr
  intro i hi
  exact Content.deref_set c0 p v i (by omega)

/-- The checks reject the text altered at one offset of the declared body
when the weight of the byte in the checksum changes. -/
theorem Message.Normalize.checks_altered (T : Content) (m : Message) (p : Nat) (v : Int)
    (hplen : p < T.data.length)
    (h : Message.Normalize.checks T = .ok m)
    (hp1 : m.m_begin ≤ p + 5) (hp2 : p < m.m_end)
    (hw : ((if v = T.m_soh then 1 else v) - (if T.deref p = T.m_soh then 1 else T.deref p))
      % 256 ≠ 0) :
    Message.Normalize.checks { T with data := T.data.set p v } = .error Error.ProtocolError ∧
      p + 1 < T.m_end := by
  obtain ⟨len, cursor, k1, k2, k3, k4, k5, k6, k7, k8, k9, k10, k11, k12, k13, k14⟩ :=
    Message.Normalize.checks_ok h
  have hm1 : m.m_begin = cursor + 5 := by rw [k14]
  have hm2 : m.m_end = Message.Normalize.advance cursor len := by rw [k14]
  rw [hm1] at hp1
  rw [hm2] at hp2
  obtain ⟨a1, a2, a3, a4, a5, a6, a7⟩ := Content.ReadIntValue_ok k6
  obtain ⟨b1, b2, b3, b4, b5, b6, b7⟩ := Content.ReadIntValue_ok k10
  refine ⟨?_, by omega⟩
  cases hres : Message.Normalize.checks { T with data := T.data.set p v } with
  | error e => rw [Message.Normalize.checks_error hres]
  | ok m2 =>
    exfalso
    obtain ⟨len2, cursor2, j1, j2, j3, j4, j5, j6, j7, j8, j9, j10, j11, j12, j13, j14⟩ :=
      Message.Normalize.checks_ok hres
    have c6 := @Content.ReadIntValue_congr T { T with data := T.data.set p v } 64 _ _ _ rfl rfl k6
      (fun i hi1 hi2 => Content.deref_set T p v i (by omega))
    have e6 := c6.symm.trans j6
    simp only [Except.ok.injEq, Prod.mk.injEq] at e6
    obtain ⟨hl, hc⟩ := e6
    subst hl; subst hc
    have c10 := @Content.ReadIntValue_congr T { T with data := T.data.set p v } 64 _ _ _ rfl rfl k10
      (fun i hi1 hi2 => Content.deref_set T p v i (by omega))
    have e10 := c10.symm.trans j10
    simp only [Except.ok.injEq, Prod.mk.injEq, and_true] at e10
    exact Message.CalcCheckSum_set T p v T.m_begin (Message.Normalize.advance _ _)
      hplen (by omega) hp2 hw e10.symm

/-- C13, amended: for a message that passes the constructor and an offset
`p` inside the declared body (from the type field up to the `10=` field),
replacing the byte at `p` by a different byte makes the constructor throw
`ProtocolError`, unless the replacement exchanges the delimiter and the byte
1, which the checksum counts alike. -/
theorem Message.ctor_rejects_altered (soh : Int) (data : List Int) (begin_ end_ : Nat)
    (m : Message) (p : Nat) (v : Int)
    (hrange : end_ ≤ data.length)
    (h : Message.ctor soh data begin_ end_ = .ok m)
    (hp1 : m.m_begin ≤ p + 5) (hp2 : p < m.m_end)
    (hv : byteOf v ≠ byteOf (data.getD p 0))
    (hx : ¬ (data.getD p 0 = soh ∧ byteOf v = 1))
    (hy : ¬ (v = soh ∧ byteOf (data.getD p 0) = 1)) :
    Message.ctor soh (data.set p v) begin_ end_ = .error Error.ProtocolError := by
  unfold Message.ctor Message.Normalize at h ⊢
  obtain ⟨c0, hc0⟩ : ∃ c0 : Content, c0 = Content.mk soh data begin_ end_ begin_ := ⟨_, rfl⟩
  have htrim := Message.Normalize.trim_spec c0 (c0.m_end - c0.m_begin) c0.m_end
  have hTend : (Message.Normalize.trimmed c0).m_end ≤ end_ := by
    have : c0.m_end = end_ := by rw [hc0]
    rw [← this]
    exact htrim.1
  have hw : ((if v = (Message.Normalize.trimmed c0).m_soh then 1 else v)
      - (if (Message.Normalize.trimmed c0).deref p = (Message.Normalize.trimmed c0).m_soh
          then 1 else (Message.Normalize.trimmed c0).deref p)) % 256 ≠ 0 := by
    have hd : (Message.Normalize.trimmed c0).deref p = data.getD p 0 := by rw [hc0]; rfl
    have hs : (Message.Normalize.trimmed c0).m_soh = soh := by rw [hc0]; rfl
    rw [hd, hs]
    unfold byteOf at hv hx hy
    by_cases e1 : v = soh
    · by_cases e2 : data.getD p 0 = soh
      · rw [e1, e2] at hv; exact absurd rfl hv
      · rw [if_pos e1, if_neg e2]
        have := fun h => hy ⟨e1, h⟩
        omega
    · by_cases e2 : data.getD p 0 = soh
      · rw [if_neg e1, if_pos e2]
        have := fun h => hx ⟨e2, h⟩
        omega
      · rw [if_neg e1, if_neg e2]
        omega
  have hgoal : Message.Normalize.checks
      (Message.Normalize.trimmed (Content.mk soh (data.set p v) begin_ end_ begin_))
      = .error Error.ProtocolError := by
    rw [← hc0] at h
    have hlen0 : p < (Message.Normalize.trimmed c0).data.length := by
      have hm := (Message.Normalize.checks_ok h)
      obtain ⟨len, cursor, k1, k2, k3, k4, k5, k6, k7, k8, k9, k10, k11, k12, k13, k14⟩ := hm
      obtain ⟨b1, b2, b3, b4, b5, b6, b7⟩ := Content.ReadIntValue_ok k10
      have hm2 : m.m_end = Message.Normalize.advance cursor len := by rw [k14]
      have hd : (Message.Normalize.trimmed c0).data.length = data.length := by rw [hc0]; rfl
      rw [hd]
      omega
    obtain ⟨hres, hpe⟩ := Message.Normalize.checks_altered _ m p v hlen0 h hp1 hp2 hw
    have hset := Message.Normalize.trimmed_set c0 p v hpe
    have e1 : Content.mk soh (data.set p v) begin_ end_ begin_
        = { c0 with data := c0.data.set p v } := by rw [hc0]
    rw [e1, hset]
    exact hres
  exact hgoal

/-- Witness for C13 (amended): the same offset of `snapEUR`, the delimiter
replaced by the byte 2. -/
theorem Message.ctor_rejects_altered_witness :
    98 ≤ snapEUR.data.length ∧
      Message.ctor 124 snapEUR.data 0 98 = .ok snapEUR ∧
      snapEUR.m_begin ≤ 24 + 5 ∧ 24 < snapEUR.m_end ∧
      byteOf 2 ≠ byteOf (snapEUR.data.getD 24 0) ∧
      ¬ (snapEUR.data.getD 24 0 = 124 ∧ byteOf 2 = 1) ∧
      ¬ ((2 : Int) = 124 ∧ byteOf (snapEUR.data.getD 24 0) = 1) ∧
      Message.ctor 124 (snapEUR.data.set 24 2) 0 98 = .error Error.ProtocolError :=
  ⟨by decide!, by decide!, by decide!, by decide!, by decide!, by decide!, by decide!,
    Message.ctor_rejects_altered 124 snapEUR.data 0 98 snapEUR 24 2 (by decide!) (by decide!)
      (by decide!) (by decide!) (by decide!) (by decide!) (by decide!)⟩

/-! ## Lemmas on the traversal of a group -/

theorem Content.equalAt_iff (c : Content) (t : List Int) :
    ∀ it, c.equalAt it t = true ↔ ∀ j, j < t.length → c.deref (it + j) = t.getD j 0 := by
  induction t with
  | nil => intro it; simp [Content.equalAt]
  | cons a ts ih =>
    intro it
    simp only [Content.equalAt, Bool.and_eq_true, beq_iff_eq, ih, List.length_cons]
    constructor
    · rintro ⟨h1, h2⟩ j hj
      cases j with
      | zero => simpa using h1
      | succ j =>
        have := h2 j (by omega)
        rw [show it + (j + 1) = it + 1 + j by omega]
        simpa using this
    · intro h
      refine ⟨by simpa using h 0 (by omega), fun j hj => ?_⟩
      have := h (j + 1) (by omega)
      rw [show it + (j + 1) = it + 1 + j by omega] at this
      simpa using this

theorem Content.findLoop_spec (c : Content) (value : Int) (n : Nat) :
    ∀ it, (∀ k, it ≤ k → k < c.findLoop value n it → c.deref k ≠ value) ∧
      (c.findLoop value n it < it + n → c.deref (c.findLoop value n it) = value) := by
  induction n with
  | zero => intro it; simp [Content.findLoop]; intro k h1 h2; omega
  | succ n ih =>
    intro it
    unfold Content.findLoop
    split
    · rename_i h
      exact ⟨fun k h1 h2 => by omega, fun _ => h⟩
    · rename_i h
      obtain ⟨h1, h2⟩ := ih (it + 1)
      refine ⟨fun k hk1 hk2 => ?_, fun hlt => h2 (by omega)⟩
      by_cases hk : k = it
      · rw [hk]; exact h
      · exact h1 k (by omega) hk2

/-- `std::find` returns the first position holding the value. -/
theorem Content.find_spec (c : Content) (value : Int) (it last : Nat) (h : it ≤ last) :
    (∀ k, it ≤ k → k < c.find it last value → c.deref k ≠ value) ∧
      (c.find it last value < last → c.deref (c.find it last value) = value) := by
  obtain ⟨h1, h2⟩ := Content.findLoop_spec c value (last - it) it
  unfold Content.find
  exact ⟨h1, fun hlt => h2 (by omega)⟩

theorem Content.find_le (c : Content) (value : Int) (it last j : Nat)
    (h1 : it ≤ j) (h2 : j < last) (h3 : c.deref j = value) : c.find it last value ≤ j := by
  by_contra hgt
  exact (Content.find_spec c value it last (by omega)).1 j h1 (by omega) h3

/-- The scan of `FindTagBegin` stops at the first field start that holds the
tag. -/
theorem Content.FindTagBegin.scan_target (c : Content) (tag : List Int) (end_ target : Nat)
    (hsize : end_ < 2 ^ 63) (htag : tag.length < 2 ^ 63)
    (hP : c.equalAt target tag = true) (hlt : target < end_)
    (hfield : c.deref (target - 1) = c.m_soh) (fuel : Nat) :
    ∀ it, it ≤ target → (∀ q, it ≤ q → q < target → ¬ c.equalAt q tag = true) →
      end_ - it < fuel → Content.FindTagBegin.scan c tag end_ fuel it = target := by
  induction fuel with
  | zero => intro it _ _ h; omega
  | succ fuel ih =>
    intro it hle hno hfuel
    simp only [Content.FindTagBegin.scan]
    by_cases heq : it = target
    · subst heq
      have e1 : ¬ (end_ > it ∧ ((it : Int) - (end_ : Int)) % 2 ^ 64 ≥ (tag.length : Int) ∧
          ¬ c.equalAt it tag = true) := fun h => h.2.2 hP
      rw [if_neg e1]
    · have hn := hno it (le_refl _) (by omega)
      have e1 : end_ > it ∧ ((it : Int) - (end_ : Int)) % 2 ^ 64 ≥ (tag.length : Int) ∧
          ¬ c.equalAt it tag = true := by
        refine ⟨by omega, ?_, hn⟩
        omega
      rw [if_pos e1]
      have hf := Content.find_le c c.m_soh it end_ (target - 1) (by omega) (by omega) hfield
      have hb := Content.find_bounds c c.m_soh it end_ (by omega)
      have e2 : ¬ c.find it end_ c.m_soh = end_ := by omega
      rw [if_neg e2]
      exact ih _ (by omega) (fun q hq1 hq2 => hno q (by omega) hq2) (by omega)

theorem Content.token_getD (name : List Int) (x : Int) :
    (∀ j, j < name.length → (name ++ [x]).getD j 0 ∈ name) ∧
      (name ++ [x]).getD name.length 0 = x := by
  constructor
  · intro j hj
    rw [List.getD_append _ _ _ _ hj, List.getD_eq_getElem _ _ hj]
    exact List.getElem_mem _
  · rw [List.getD_append_right _ _ _ _ (le_refl _)]
    simp

/-- From an element that starts with the token `name=`, the search of
`ReadMDEntry` finds the next field start that holds the token. -/
theorem Content.FindTagBegin_next (c : Content) (name : List Int) (b b2 : Nat)
    (hsize : c.m_end < 2 ^ 63) (hend : c.deref (c.m_end - 1) = c.m_soh)
    (h61 : 61 ∉ name) (hsoh : c.m_soh ∉ name)
    (hb : c.equalAt b (name ++ [61]) = true)
    (hb2 : c.equalAt b2 (name ++ [61]) = true) (hlt : b < b2)
    (hin : b2 + (name.length + 1) ≤ c.m_end)
    (hfield : c.deref (b2 - 1) = c.m_soh)
    (hno : ∀ p, b < p → p < b2 → p + (name.length + 1) ≤ c.m_end →
      ¬ c.equalAt p (name ++ [61]) = true) :
    c.FindTagBegin (name ++ [61]) (b + (name ++ [61]).length) = some b2 := by
  have hlen : (name ++ [61]).length = name.length + 1 := by simp
  obtain ⟨g1, g2⟩ := Content.token_getD name 61
  have hb' := (Content.equalAt_iff c _ b).1 hb
  have hb2' := (Content.equalAt_iff c _ b2).1 hb2
  rw [hlen] at hb' hb2'
  have hstep : b + (name.length + 1) ≤ b2 := by
    by_contra hcon
    have e1 := hb2' (b + name.length - b2) (by omega)
    rw [show b2 + (b + name.length - b2) = b + name.length by omega,
      hb' name.length (by omega), g2] at e1
    exact h61 (e1 ▸ g1 (b + name.length - b2) (by omega))
  have hcand : ∀ q, b + (name.length + 1) ≤ q → q < b2 →
      ¬ c.equalAt q (name ++ [61]) = true := by
    intro q hq1 hq2 hq
    by_cases hfit : q + (name.length + 1) ≤ c.m_end
    · exact hno q (by omega) hq2 hfit hq
    · have hq' := (Content.equalAt_iff c _ q).1 hq
      rw [hlen] at hq'
      have e1 := hq' (c.m_end - 1 - q) (by omega)
      rw [show q + (c.m_end - 1 - q) = c.m_end - 1 by omega, hend] at e1
      exact hsoh (e1 ▸ g1 _ (by omega))
  have hscan := Content.FindTagBegin.scan_target c (name ++ [61]) c.m_end b2 hsize
    (by rw [hlen]; omega) hb2 (by omega) hfield (c.m_end - (b + (name.length + 1)) + 1)
    (b + (name.length + 1)) hstep hcand (by omega)
  unfold Content.FindTagBegin
  rw [hlen]
  simp only [hscan]
  rw [if_pos (by omega)]

/-- The token the constructor of the first element cuts out: the bytes from
the cursor through the first `=`. -/
theorem Content.first_token (c : Content) (name : List Int) (b : Nat)
    (h61 : 61 ∉ name) (hb : c.equalAt b (name ++ [61]) = true)
    (hin : b + (name.length + 1) ≤ c.m_end) :
    c.find b c.m_end 61 = b + name.length ∧
      (c.data.drop b).take (b + name.length + 1 - b) = name ++ [61] := by
  have hlen : (name ++ [61]).length = name.length + 1 := by simp
  obtain ⟨g1, g2⟩ := Content.token_getD name 61
  have hb' := (Content.equalAt_iff c _ b).1 hb
  rw [hlen] at hb'
  have h61at : c.deref (b + name.length) = 61 := by rw [hb' _ (by omega), g2]
  have hle := Content.find_le c 61 b c.m_end (b + name.length) (by omega) (by omega) h61at
  have hsp := Content.find_spec c 61 b c.m_end (by omega)
  have hbd := Content.find_bounds c 61 b c.m_end (by omega)
  have hge : b + name.length ≤ c.find b c.m_end 61 := by
    by_contra hcon
    have e1 := hsp.2 (by omega)
    have e2 := hb' (c.find b c.m_end 61 - b) (by omega)
    rw [show b + (c.find b c.m_end 61 - b) = c.find b c.m_end 61 by omega, e1] at e2
    exact h61 (e2 ▸ g1 _ (by omega))
  refine ⟨by omega, ?_⟩
  have hdl : b + name.length < c.data.length := by
    by_contra hcon
    have : c.deref (b + name.length) = 0 := by
      unfold Content.deref
      rw [List.getD_eq_default _ _ (by omega)]
    rw [this] at h61at
    exact absurd h61at (by decide)
  apply List.ext_getElem
  · simp
    omega
  · intro i h1 h2
    rw [hlen] at h2
    have e1 := hb' i h2
    rw [List.getD_eq_getElem _ _ (by rw [hlen]; exact h2)] at e1
    rw [← e1]
    simp [Content.deref, List.getD_eq_getElem?_getD, List.getElem?_eq_getElem (show b + i < c.data.length by omega)]

theorem Content.equalAt_cursor (c : Content) (cur : Nat) (t : List Int) :
    ∀ it, Content.equalAt { c with m_cursor := cur } it t = c.equalAt it t := by
  induction t with
  | nil => intro it; rfl
  | cons a ts ih => intro it; simp only [Content.equalAt, ih]; rfl

/-- A field read moves the cursor of the message and nothing else. -/
theorem Message.ReadNoMDEntries_frame {m m1 : Message} {n : Nat}
    (h : m.ReadNoMDEntries = .ok (n, m1)) : ∃ cur, m1 = { m with m_cursor := cur } := by
  unfold Message.ReadNoMDEntries Content.ReadIntField Content.ReadField at h
  split at h
  · cases h
  · rename_i v c hc
    simp only [Except.ok.injEq, Prod.mk.injEq] at h
    split at hc
    · cases hc
    · rename_i cursor hfind
      split at hc
      · cases hc
      · rename_i v2 cursor2 hread
        simp only [Except.ok.injEq, Prod.mk.injEq] at hc
        exact ⟨cursor2, by rw [← h.2, ← hc.2]⟩

/-- What `ReadMDEntry` returns at the start `b` of an element of a group
whose further elements start at `rest`. -/
theorem Message.ReadMDEntry_group (m : Message) (name : List Int)
    (hsize : m.m_end < 2 ^ 63) (hend : m.deref (m.m_end - 1) = m.m_soh)
    (h61 : 61 ∉ name) (hsoh : m.m_soh ∉ name)
    (b : Nat) (rest : List Nat) (cur : Nat)
    (hsorted : (b :: rest).Pairwise (fun x y => x < y))
    (hstart : ∀ x ∈ b :: rest,
      x + (name.length + 1) ≤ m.m_end ∧ m.equalAt x (name ++ [61]) = true)
    (hfield : ∀ x ∈ rest, m.deref (x - 1) = m.m_soh)
    (hunique : ∀ p, b ≤ p → p + (name.length + 1) ≤ m.m_end →
      m.equalAt p (name ++ [61]) = true → p ∈ b :: rest) :
    Message.ReadMDEntry { m with m_cursor := cur } b (rest.length + 1) (name ++ [61])
      = .ok ({ m_soh := m.m_soh, data := m.data, m_begin := b, m_end := rest.headD m.m_end,
               m_cursor := b, m_numbeOfNextEntities := rest.length,
               m_firstTag := name ++ [61] },
             { m with m_cursor := rest.headD m.m_end }) := by
  cases rest with
  | nil =>
    unfold Message.ReadMDEntry
    rw [if_neg (by simp)]
    rfl
  | cons b2 rest2 =>
    unfold Message.ReadMDEntry
    rw [if_pos (by simp)]
    have hlt : b < b2 := (List.pairwise_cons.1 hsorted).1 b2 (List.mem_cons_self _ _)
    have hs2 : rest2.Pairwise (fun x y => x < y) ∧ ∀ x ∈ rest2, b2 < x := by
      have := (List.pairwise_cons.1 hsorted).2
      exact ⟨(List.pairwise_cons.1 this).2, (List.pairwise_cons.1 this).1⟩
    have hcur : ∀ x, Content.equalAt { m.toContent with m_cursor := cur } x (name ++ [61])
        = m.equalAt x (name ++ [61]) := fun x => Content.equalAt_cursor m.toContent cur _ x
    have hnext2 := Content.FindTagBegin_next { m.toContent with m_cursor := cur } name b b2
      hsize hend h61 hsoh
      ((hcur b).trans (hstart b (List.mem_cons_self _ _)).2)
      ((hcur b2).trans (hstart b2 (List.mem_cons_of_mem _ (List.mem_cons_self _ _))).2) hlt
      (hstart b2 (List.mem_cons_of_mem _ (List.mem_cons_self _ _))).1
      (hfield b2 (List.mem_cons_self _ _))
      (fun p hp1 hp2 hp3 hp4 => by
        rw [hcur p] at hp4
        have hmem := hunique p (by omega) hp3 hp4
        rcases List.mem_cons.1 hmem with h1 | h1
        · omega
        · rcases List.mem_cons.1 h1 with h2 | h2
          · omega
          · have := hs2.2 p h2
            omega)
    simp only [hnext2]
    simp

/-- The traversal from an element on, for a group whose elements start at
`b :: rest`. -/
theorem Message.elements.loop_group (m : Message) (name : List Int)
    (hsize : m.m_end < 2 ^ 63) (hend : m.deref (m.m_end - 1) = m.m_soh)
    (h61 : 61 ∉ name) (hsoh : m.m_soh ∉ name) :
    ∀ (rest : List Nat) (b cur fuel : Nat), rest.length < fuel →
      (b :: rest).Pairwise (fun x y => x < y) →
      (∀ x ∈ b :: rest,
        x + (name.length + 1) ≤ m.m_end ∧ m.equalAt x (name ++ [61]) = true) →
      (∀ x ∈ rest, m.deref (x - 1) = m.m_soh) →
      (∀ p, b ≤ p → p + (name.length + 1) ≤ m.m_end →
        m.equalAt p (name ++ [61]) = true → p ∈ b :: rest) →
      Message.elements.loop fuel { m with m_cursor := cur }
          (some { m_soh := m.m_soh, data := m.data, m_begin := b,
                  m_end := rest.headD m.m_end, m_cursor := b,
                  m_numbeOfNextEntities := rest.length, m_firstTag := name ++ [61] })
        = .ok (m.groupElements (name ++ [61]) (b :: rest)) := by
  intro rest
  induction rest with
  | nil =>
    intro b cur fuel hfuel _ _ _ _
    cases fuel with
    | zero => omega
    | succ fuel =>
      simp [Message.elements.loop, MdEntry.ReadNextMDEntry, Message.groupElements]
  | cons b2 rest2 ih =>
    intro b cur fuel hfuel hsorted hstart hfield hunique
    cases fuel with
    | zero => omega
    | succ fuel =>
      have hlt : b < b2 := (List.pairwise_cons.1 hsorted).1 b2 (List.mem_cons_self _ _)
      have hsorted2 := (List.pairwise_cons.1 hsorted).2
      have hstart2 : ∀ x ∈ b2 :: rest2,
          x + (name.length + 1) ≤ m.m_end ∧ m.equalAt x (name ++ [61]) = true :=
        fun x hx => hstart x (List.mem_cons_of_mem _ hx)
      have hfield2 : ∀ x ∈ rest2, m.deref (x - 1) = m.m_soh :=
        fun x hx => hfield x (List.mem_cons_of_mem _ hx)
      have hunique2 : ∀ p, b2 ≤ p → p + (name.length + 1) ≤ m.m_end →
          m.equalAt p (name ++ [61]) = true → p ∈ b2 :: rest2 := by
        intro p hp1 hp2 hp3
        rcases List.mem_cons.1 (hunique p (by omega) hp2 hp3) with h1 | h1
        · omega
        · exact h1
      have hread := Message.ReadMDEntry_group m name hsize hend h61 hsoh b2 rest2 cur
        hsorted2 hstart2 hfield2 hunique2
      have hrec := ih b2 (rest2.headD m.m_end) fuel (by simp at hfuel; omega)
        hsorted2 hstart2 hfield2 hunique2
      simp only [Message.elements.loop, MdEntry.ReadNextMDEntry, List.length_cons,
        List.headD_cons]
      rw [if_neg (by omega), hread]
      simp only []
      rw [hrec]
      rfl

/-- The fuel of the traversal is never used up: above the remaining count,
more fuel changes nothing. -/
theorem Message.elements_loop_fuel (fuel : Nat) :
    ∀ (extra : Nat) (m : Message) (e : MdEntry),
      e.m_numbeOfNextEntities < fuel →
      Message.elements.loop (fuel + extra) m (some e)
        = Message.elements.loop fuel m (some e) := by
  induction fuel with
  | zero => intro extra m e h; omega
  | succ fuel ih =>
    intro extra m e h
    rw [show fuel + 1 + extra = (fuel + extra) + 1 by omega]
    simp only [Message.elements.loop]
    cases h4 : e.ReadNextMDEntry m with
    | error err => rfl
    | ok r4 =>
      obtain ⟨next, m2⟩ := r4
      simp only []
      cases next with
      | none => cases fuel <;> simp [Message.elements.loop]
      | some e4 =>
        rw [ih]
        have := MdEntry.ReadNextMDEntry_count h4
        omega

theorem Message.groupElements_length (m : Message) (tag : List Int) (bs : List Nat) :
    (m.groupElements tag bs).length = bs.length := by
  induction bs with
  | nil => rfl
  | cons b rest ih => simp [Message.groupElements, ih]

theorem Message.groupElements_getElem (m : Message) (tag : List Int) (bs : List Nat) :
    ∀ (i : Nat) (e : MdEntry), (m.groupElements tag bs)[i]? = some e →
      e.m_begin = bs.getD i 0 ∧ e.m_end = bs.getD (i + 1) m.m_end ∧
        e.m_numbeOfNextEntities = bs.length - (i + 1) ∧ i < bs.length := by
  induction bs with
  | nil => intro i e h; simp [Message.groupElements] at h
  | cons b rest ih =>
    intro i e h
    cases i with
    | zero =>
      simp only [Message.groupElements, List.getElem?_cons_zero, Option.some.injEq] at h
      subst h
      cases rest <;> simp
    | succ i =>
      simp only [Message.groupElements, List.getElem?_cons_succ] at h
      obtain ⟨h1, h2, h3, h4⟩ := ih i e h
      refine ⟨by simpa using h1, by simpa using h2, by simp; omega, by simp; omega⟩

/-- The body of a message that passed the constructor ends with the
delimiter, and its end is an offset of the line. -/
theorem Message.ctor_body_end (soh : Int) (data : List Int) (begin_ end_ : Nat) (m : Message)
    (hsize : end_ < 2 ^ 63) (h : Message.ctor soh data begin_ end_ = .ok m) :
    m.deref (m.m_end - 1) = m.m_soh ∧ m.m_end < 2 ^ 63 := by
  unfold Message.ctor Message.Normalize at h
  obtain ⟨len, cursor, k1, k2, k3, k4, k5, k6, k7, k8, k9, k10, k11, k12, k13, k14⟩ :=
    Message.Normalize.checks_ok h
  obtain ⟨b1, b2, b3, b4, b5, b6, b7⟩ := Content.ReadIntValue_ok k10
  have htrim := Message.Normalize.trim_spec
    { m_soh := soh, data := data, m_begin := begin_, m_end := end_, m_cursor := begin_ }
    (end_ - begin_) end_
  have hle : (Message.Normalize.trimmed
      { m_soh := soh, data := data, m_begin := begin_, m_end := end_,
        m_cursor := begin_ }).m_end ≤ end_ := htrim.1
  rw [k14]
  exact ⟨k8, by show Message.Normalize.advance cursor len < 2 ^ 63; omega⟩

/-! ## Claim on the traversal of a group -/

/-- C18: a message whose body ends with the delimiter (as the constructor
checks) and whose count field, tag 268, reads `n` and is followed by `n`
group elements: they start at the offsets `bs`, the first right after the
count field and the others at field starts, each with the same token `name=`
(no `=` and no delimiter inside `name`), and the token occurs at no other
offset of the body. Then, for `n = 0`, `ReadFirstMDEntry` returns no element;
and in every case `ReadFirstMDEntry` followed by repeated `ReadNextMDEntry`
yields exactly `n` elements and then no value, where element `i` (counted
from 0) spans from the offset `bs[i]` to `bs[i + 1]`, the last one to the
body end, consecutive ranges are contiguous, and element `i` carries the
remaining count `n - (i + 1)`. -/
theorem Message.elements_group (m m1 : Message) (n : Nat) (name : List Int) (bs : List Nat)
    (hsize : m.m_end < 2 ^ 63)
    (hend : m.deref (m.m_end - 1) = m.m_soh)
    (hcount : m.ReadNoMDEntries = .ok (n, m1))
    (hlen : bs.length = n)
    (hsorted : bs.Pairwise (fun x y => x < y))
    (hfirst : ∀ b, bs.head? = some b → b = m1.m_cursor)
    (h61 : 61 ∉ name) (hsoh : m.m_soh ∉ name)
    (hstart : ∀ b ∈ bs, m.m_begin ≤ b ∧ b + (name.length + 1) ≤ m.m_end ∧
      m.equalAt b (name ++ [61]) = true)
    (hfield : ∀ b ∈ bs.tail, m.deref (b - 1) = m.m_soh)
    (hunique : ∀ p, m.m_begin ≤ p → p + (name.length + 1) ≤ m.m_end →
      m.equalAt p (name ++ [61]) = true → p ∈ bs) :
    (n = 0 → m.ReadFirstMDEntry = .ok (none, m1)) ∧
      ∃ es : List MdEntry, m.elements = .ok es ∧ es.length = n ∧
        (∃ m2, m.ReadFirstMDEntry = .ok (es.head?, m2)) ∧
        (∀ i e, es[i]? = some e →
          e.m_begin = bs.getD i 0 ∧ e.m_end = bs.getD (i + 1) m.m_end ∧
            e.m_numbeOfNextEntities = n - (i + 1)) ∧
        (∀ i e e2, es[i]? = some e → es[i + 1]? = some e2 → e.m_end = e2.m_begin) ∧
        (∀ e mx, es.getLast? = some e → e.ReadNextMDEntry mx = .ok (none, mx)) := by
  obtain ⟨cur, hm1⟩ := Message.ReadNoMDEntries_frame hcount
  have hfirstRead : m.ReadFirstMDEntry
      = .ok ((m.groupElements (name ++ [61]) bs).head?,
          match bs with
          | [] => m1
          | _ :: rest => { m with m_cursor := rest.headD m.m_end }) ∧
      m.elements = .ok (m.groupElements (name ++ [61]) bs) := by
    cases bs with
    | nil =>
      simp only [List.length_nil] at hlen
      subst hlen
      have e1 : m.ReadFirstMDEntry = .ok (none, m1) := by
        unfold Message.ReadFirstMDEntry
        rw [hcount]
        simp
      refine ⟨e1, ?_⟩
      unfold Message.elements
      rw [e1]
      rfl
    | cons b rest =>
      simp only [List.length_cons] at hlen
      have hb : b = cur := by
        have := hfirst b rfl
        rw [hm1] at this
        exact this
      subst hb
      have hs := hstart b (List.mem_cons_self _ _)
      have htok := Content.first_token { m.toContent with m_cursor := b } name b h61
        ((Content.equalAt_cursor m.toContent b _ b).trans hs.2.2) hs.2.1
      have hread := Message.ReadMDEntry_group m name hsize hend h61 hsoh b rest b
        hsorted (fun x hx => (hstart x hx).2) hfield
        (fun p hp1 hp2 hp3 => hunique p (by omega) hp2 hp3)
      have hloop := Message.elements.loop_group m name hsize hend h61 hsoh rest b
        (rest.headD m.m_end) (rest.length + 1) (by omega)
        hsorted (fun x hx => (hstart x hx).2) hfield
        (fun p hp1 hp2 hp3 => hunique p (by omega) hp2 hp3)
      have e1 : m.ReadFirstMDEntry
          = .ok (some { m_soh := m.m_soh, data := m.data, m_begin := b,
                        m_end := rest.headD m.m_end, m_cursor := b,
                        m_numbeOfNextEntities := rest.length, m_firstTag := name ++ [61] },
                 { m with m_cursor := rest.headD m.m_end }) := by
        unfold Message.ReadFirstMDEntry
        rw [hcount]
        simp only []
        rw [if_neg (by omega), hm1]
        simp only []
        have f1 : Content.find { m.toContent with m_cursor := b } b m.m_end 61
            = b + name.length := htok.1
        simp only [f1]
        rw [if_neg (by omega)]
        have f2 : List.take (b + name.length + 1 - b) (List.drop b m.data) = name ++ [61] :=
          htok.2
        rw [f2, ← hlen, hread]
      refine ⟨e1, ?_⟩
      unfold Message.elements
      rw [e1]
      simp only []
      exact hloop
  obtain ⟨hF, hE⟩ := hfirstRead
  have hidx := Message.groupElements_getElem m (name ++ [61]) bs
  refine ⟨?_, _, hE, ?_, ⟨_, hF⟩, ?_, ?_, ?_⟩
  · intro hn
    rw [hn] at hlen
    have : bs = [] := List.length_eq_zero.1 hlen
    subst this
    exact hF
  · rw [Message.groupElements_length, hlen]
  · intro i e hi
    obtain ⟨h1, h2, h3, h4⟩ := hidx i e hi
    exact ⟨h1, h2, by rw [h3, hlen]⟩
  · intro i e e2 hi hi2
    obtain ⟨h1, h2, h3, h4⟩ := hidx i e hi
    obtain ⟨g1, g2, g3, g4⟩ := hidx (i + 1) e2 hi2
    rw [h2, g1, List.getD_eq_getElem _ _ g4, List.getD_eq_getElem _ _ g4]
  · intro e mx hlast
    rw [List.getLast?_eq_getElem?] at hlast
    obtain ⟨h1, h2, h3, h4⟩ := hidx _ e hlast
    rw [Message.groupElements_length] at h3
    unfold MdEntry.ReadNextMDEntry
    rw [if_pos (by omega)]

/-- Witness for C18: the sample snapshot `snapEUR`, whose count field reads 2
and whose two elements start with `269=` at the offsets 42 and 67; the
traversal yields the elements over `[42, 67)` and `[67, 91)`. -/
theorem Message.elements_group_witness :
    snapEUR.ReadNoMDEntries = .ok (2, { snapEUR with m_cursor := 42 }) ∧
      snapEUR.m_end = 91 ∧ snapEUR.deref (snapEUR.m_end - 1) = snapEUR.m_soh ∧
      (∀ b ∈ [42, 67], snapEUR.equalAt b (chars "269" ++ [61]) = true) ∧
      Message.elements snapEUR
        = .ok [{ m_soh := 124, data := snapEUR.data, m_begin := 42, m_end := 67, m_cursor := 42,
                 m_numbeOfNextEntities := 1, m_firstTag := chars "269=" },
               { m_soh := 124, data := snapEUR.data, m_begin := 67, m_end := 91, m_cursor := 67,
                 m_numbeOfNextEntities := 0, m_firstTag := chars "269=" }] ∧
      ((2 : Nat) = 0 → snapEUR.ReadFirstMDEntry = .ok (none, { snapEUR with m_cursor := 42 })) ∧
      ∃ es : List MdEntry, snapEUR.elements = .ok es ∧ es.length = 2 ∧
        (∃ m2, snapEUR.ReadFirstMDEntry = .ok (es.head?, m2)) ∧
        (∀ i e, es[i]? = some e →
          e.m_begin = [42, 67].getD i 0 ∧ e.m_end = [42, 67].getD (i + 1) snapEUR.m_end ∧
            e.m_numbeOfNextEntities = 2 - (i + 1)) ∧
        (∀ i e e2, es[i]? = some e → es[i + 1]? = some e2 → e.m_end = e2.m_begin) ∧
        (∀ e mx, es.getLast? = some e → e.ReadNextMDEntry mx = .ok (none, mx)) :=
  ⟨by decide!, by decide!, by decide!, by decide!, by decide!,
    Message.elements_group snapEUR { snapEUR with m_cursor := 42 } 2 (chars "269") [42, 67]
      (by decide!) (by decide!) (by decide!) (by decide!) (by decide!)
      (by intro b hb; simp only [List.head?_cons, Option.some.injEq] at hb; rw [← hb])
      (by decide!) (by decide!) (by decide!) (by decide!)
      (fun p _ h2 =>
        (by decide! : ∀ p < 88, snapEUR.equalAt p (chars "269" ++ [61]) = true → p ∈ [42, 67])
          p (by
            have : (chars "269").length = 3 := by decide
            have e : snapEUR.m_end = 91 := by decide!
            rw [this, e] at h2
            omega))⟩

/-! ## Lemmas on a failing construction of a `Book` -/

theorem Levels.keys_nodup {asc : Bool} {l : Levels}
    (ho : Levels.Ordered (Bool2Sort asc) l) : (Levels.keys l).Nodup := by
  unfold Levels.keys
  rw [List.Nodup, List.pairwise_map]
  refine List.Pairwise.imp ?_ ho
  intro a b hab heq
  rw [heq, Bool2Sort_irrefl] at hab
  exact absurd hab (by decide)

/-- When `Add` returns, the key was new and the level has been inserted. -/
theorem Book.Side.Add_ok {asc : Bool} (s s2 : Book.Side asc) (price size : ℚ)
    (ho : Levels.Ordered (Bool2Sort asc) s.m_levels)
    (h : s.Add price size = .ok s2) :
    Book.Side.CreateKey price ∉ Levels.keys s.m_levels ∧
      List.Perm s2.m_levels
        ((Book.Side.CreateKey price, { price := price, value := size }) :: s.m_levels) ∧
      Levels.Ordered (Bool2Sort asc) s2.m_levels := by
  have hk : Book.Side.CreateKey price ∉ Levels.keys s.m_levels := by
    intro hmem
    have h2 := Levels.emplace_of_mem (Book.Side.CreateKey price)
      { price := price, value := size } s.m_levels ho hmem
    unfold Book.Side.Add at h
    simp only [h2] at h
    cases h
  obtain ⟨s3, hadd, hperm⟩ := Book.Side.Add_of_not_mem s price size hk
  rw [h] at hadd
  cases hadd
  have hord := Book.Side.Add_ordered s price size ho
  rw [h] at hord
  exact ⟨hk, hperm, hord⟩

/-- When the loop of the constructor returns, every entry has decoded and no
two entries of a side share a key, nor does one share a key with a level
already in the Book. -/
theorem Book.ctor_loop_ok (fuel : Nat) :
    ∀ (m : Message) (entry : Option MdEntry) (b b2 : Book),
      Levels.Ordered (Bool2Sort false) b.m_bids.m_levels →
      Levels.Ordered (Bool2Sort true) b.m_asks.m_levels →
      Book.ctor.loop fuel m entry b = .ok b2 →
      ∃ es, Message.snapshotEntries.loop fuel m entry = .ok es ∧
        (Levels.keys (levelsOf MDEntryType.MDEntryType_Bid es ++ b.m_bids.m_levels)).Nodup ∧
        (Levels.keys (levelsOf MDEntryType.MDEntryType_Offer es ++ b.m_asks.m_levels)).Nodup := by
  induction fuel with
  | zero =>
    intro m entry b b2 hb ha h
    cases entry with
    | none =>
      exact ⟨[], by simp [Message.snapshotEntries.loop],
        by simpa [levelsOf_nil] using Levels.keys_nodup hb,
        by simpa [levelsOf_nil] using Levels.keys_nodup ha⟩
    | some e => simp [Book.ctor.loop] at h
  | succ fuel ih =>
    intro m entry b b2 hb ha h
    cases entry with
    | none =>
      exact ⟨[], by simp [Message.snapshotEntries.loop],
        by simpa [levelsOf_nil] using Levels.keys_nodup hb,
        by simpa [levelsOf_nil] using Levels.keys_nodup ha⟩
    | some e =>
      simp only [Book.ctor.loop] at h
      simp only [Message.snapshotEntries.loop]
      cases h1 : e.ReadMDEntryType with
      | error err => simp [h1] at h
      | ok r1 =>
        obtain ⟨type, e1⟩ := r1
        simp only [h1] at h ⊢
        cases h2 : e1.ReadMDEntryPx with
        | error err => simp [h2] at h
        | ok r2 =>
          obtain ⟨price, e2⟩ := r2
          simp only [h2] at h ⊢
          cases h3 : e2.ReadMDEntrySize with
          | error err => simp [h3] at h
          | ok r3 =>
            obtain ⟨val, e3⟩ := r3
            simp only [h3] at h ⊢
            cases h5 : Book.ctor.switch b type price val with
            | error err => simp [h5] at h
            | ok b3 =>
              simp only [h5] at h
              cases h4 : e3.ReadNextMDEntry m with
              | error err => simp [h4] at h
              | ok r4 =>
                obtain ⟨next, m2⟩ := r4
                simp only [h4] at h ⊢
                cases type with
                | MDEntryType_Bid =>
                  simp only [Book.ctor.switch] at h5
                  cases hadd : b.m_bids.Add price val with
                  | thrown err s => simp [hadd] at h5
                  | ok s2 =>
                    simp only [hadd, Except.ok.injEq] at h5
                    subst h5
                    obtain ⟨hk, hperm, hord⟩ := Book.Side.Add_ok b.m_bids s2 price val hb hadd
                    obtain ⟨rest, hrest, hnb, hna⟩ :=
                      ih m2 next { b with m_bids := s2 } b2 hord ha h
                    refine ⟨_, by rw [hrest], ?_, ?_⟩
                    · rw [levelsOf_cons_same]
                      have hp2 := Levels.perm_insert
                        (levelsOf MDEntryType.MDEntryType_Bid rest) hperm
                      exact ((List.Perm.map Prod.fst hp2).nodup_iff).1 hnb
                    · rw [levelsOf_cons_other _ _ _ _ _ (by decide)]
                      exact hna
                | MDEntryType_Offer =>
                  simp only [Book.ctor.switch] at h5
                  cases hadd : b.m_asks.Add price val with
                  | thrown err s => simp [hadd] at h5
                  | ok s2 =>
                    simp only [hadd, Except.ok.injEq] at h5
                    subst h5
                    obtain ⟨hk, hperm, hord⟩ := Book.Side.Add_ok b.m_asks s2 price val ha hadd
                    obtain ⟨rest, hrest, hnb, hna⟩ :=
                      ih m2 next { b with m_asks := s2 } b2 hb hord h
                    refine ⟨_, by rw [hrest], ?_, ?_⟩
                    · rw [levelsOf_cons_other _ _ _ _ _ (by decide)]
                      exact hnb
                    · rw [levelsOf_cons_same]
                      have hp2 := Levels.perm_insert
                        (levelsOf MDEntryType.MDEntryType_Offer rest) hperm
                      exact ((List.Perm.map Prod.fst hp2).nodup_iff).1 hna
                | MDEntryType_Trade =>
                  simp only [Book.ctor.switch, Except.ok.injEq] at h5
                  subst h5
                  obtain ⟨rest, hrest, hnb, hna⟩ := ih m2 next b b2 hb ha h
                  refine ⟨_, by rw [hrest], ?_, ?_⟩
                  · rw [levelsOf_cons_other _ _ _ _ _ (by decide)]; exact hnb
                  · rw [levelsOf_cons_other _ _ _ _ _ (by decide)]; exact hna
                | MDEntryType_Index =>
                  simp only [Book.ctor.switch, Except.ok.injEq] at h5
                  subst h5
                  obtain ⟨rest, hrest, hnb, hna⟩ := ih m2 next b b2 hb ha h
                  refine ⟨_, by rw [hrest], ?_, ?_⟩
                  · rw [levelsOf_cons_other _ _ _ _ _ (by decide)]; exact hnb
                  · rw [levelsOf_cons_other _ _ _ _ _ (by decide)]; exact hna
                | MDEntryType_SettlementPrice =>
                  simp only [Book.ctor.switch, Except.ok.injEq] at h5
                  subst h5
                  obtain ⟨rest, hrest, hnb, hna⟩ := ih m2 next b b2 hb ha h
                  refine ⟨_, by rw [hrest], ?_, ?_⟩
                  · rw [levelsOf_cons_other _ _ _ _ _ (by decide)]; exact hnb
                  · rw [levelsOf_cons_other _ _ _ _ _ (by decide)]; exact hna

/-- The constructor returns only when every entry decodes and no two entries
of a side share a key. -/
theorem Book.ctor_ok (snapshot : Message) (b : Book) (h : Book.ctor snapshot = .ok b) :
    ∃ es, snapshot.snapshotEntries = .ok es ∧
      (Levels.keys (levelsOf MDEntryType.MDEntryType_Bid es)).Nodup ∧
      (Levels.keys (levelsOf MDEntryType.MDEntryType_Offer es)).Nodup := by
  unfold Book.ctor at h
  unfold Message.snapshotEntries
  cases hfirst : snapshot.ReadFirstMDEntry with
  | error e => simp [hfirst] at h
  | ok r =>
    obtain ⟨first, m1⟩ := r
    cases first with
    | none => exact ⟨[], rfl, by simp [levelsOf_nil, Levels.keys], by simp [levelsOf_nil, Levels.keys]⟩
    | some entry =>
      simp only [hfirst] at h ⊢
      obtain ⟨es, hes, hb, ha⟩ := Book.ctor_loop_ok _ m1 (some entry) _ b
        (by simp [Book.Side.empty, Levels.Ordered]) (by simp [Book.Side.empty, Levels.Ordered]) h
      exact ⟨es, hes, by simpa [Book.Side.empty] using hb, by simpa [Book.Side.empty] using ha⟩

/-- The constructor throws when an entry fails to decode or two entries of a
side share a key. -/
theorem Book.ctor_fails (snapshot : Message)
    (hfail : (∃ e, snapshot.snapshotEntries = .error e) ∨
      ∃ es, snapshot.snapshotEntries = .ok es ∧
        (¬ (Levels.keys (levelsOf MDEntryType.MDEntryType_Bid es)).Nodup ∨
          ¬ (Levels.keys (levelsOf MDEntryType.MDEntryType_Offer es)).Nodup)) :
    ∃ e, Book.ctor snapshot = .error e := by
  cases hc : Book.ctor snapshot with
  | error e => exact ⟨e, rfl⟩
  | ok b =>
    exfalso
    obtain ⟨es, hes, hb, ha⟩ := Book.ctor_ok snapshot b hc
    rcases hfail with ⟨e, he⟩ | ⟨es2, hes2, hdup⟩
    · rw [hes] at he; cases he
    · rw [hes] at hes2
      cases hes2
      rcases hdup with hd | hd
      · exact hd hb
      · exact hd ha

/-- The new samples are the messages the constructor builds from their text,
and the constructor of `Book` throws on both. -/
theorem Message.ctor_failing_samples :
    Message.ctor 124 snapDupEUR.data 0 snapDupEUR.data.length = .ok snapDupEUR ∧
    Message.ctor 124 snapNoSizeEUR.data 0 snapNoSizeEUR.data.length = .ok snapNoSizeEUR ∧
    snapDupEUR.snapshotEntries
      = .ok [(MDEntryType.MDEntryType_Bid, 11 / 10, 100),
             (MDEntryType.MDEntryType_Bid, 11 / 10, 50)] ∧
    Book.ctor snapDupEUR = .error Error.ProtocolError ∧
    snapNoSizeEUR.snapshotEntries = .error Error.UnknownProtocolFieldError ∧
    Book.ctor snapNoSizeEUR = .error Error.UnknownProtocolFieldError := by
  decide!

/-! ## Claim on a failing snapshot -/

/-- C21: in a BookSet where the symbol `S` has a Book `b` with stored sequence
number `seq`, `Update` with a snapshot (type `W`) for `S` whose sequence number
is above `m_seqNum` and whose Book cannot be constructed, because an entry
fails to decode or two entries of a side share a key, throws and leaves the
BookSet as it was: `S` keeps the Book `b` and the number `seq`, and `m_seqNum`
is unchanged. -/
theorem BookSet.Update_snapshot_fails (bs : BookSet) (message m1 m2 : Message)
    (seqNum seq : Nat) (S : List Int) (b : Book)
    (hhas : bs.m_books.lookup S = some (seq, some b))
    (htype : message.GetType = 87)
    (hseq : message.ReadMsgSecNum = .ok (seqNum, m1))
    (hgt : bs.m_seqNum < seqNum)
    (hsym : m1.ReadSymbol = .ok (S, m2))
    (hfail : (∃ e, m2.snapshotEntries = .error e) ∨
      ∃ es, m2.snapshotEntries = .ok es ∧
        (¬ (Levels.keys (levelsOf MDEntryType.MDEntryType_Bid es)).Nodup ∨
          ¬ (Levels.keys (levelsOf MDEntryType.MDEntryType_Offer es)).Nodup)) :
    ∃ e, Book.ctor m2 = .error e ∧ bs.Update message = .thrown e bs ∧
      (bs.Update message).isOk = false ∧
      (bs.Update message).state.m_books.lookup S = some (seq, some b) ∧
      (bs.Update message).state.m_seqNum = bs.m_seqNum := by
  obtain ⟨e, he⟩ := Book.ctor_fails m2 hfail
  have hty : m2.GetType = 87 := by
    unfold Message.GetType at htype ⊢
    rw [Message.ReadSymbol_type hsym, Message.ReadMsgSecNum_type hseq, htype]
  have hsub : BookSet.subscript bs.m_books S = bs.m_books := by
    unfold BookSet.subscript
    rw [hhas]
  have hupd : bs.Update message = .thrown e bs := by
    unfold BookSet.Update
    rw [if_neg (by rw [htype]; simp)]
    simp only [hseq]
    rw [if_neg (by omega)]
    simp only [hsym, hsub]
    rw [if_pos hty]
    simp only [he]
  refine ⟨e, he, hupd, ?_, ?_, ?_⟩
  · rw [hupd]; rfl
  · rw [hupd]; exact hhas
  · rw [hupd]; rfl

/-- Witness for C21: the BookSet after `snapEUR` and the snapshot `snapDupEUR`
for the same symbol, sequence number 2, whose two Bid entries share the key
of 1.1000. -/
theorem BookSet.Update_snapshot_fails_witness :
    bookSetEUR.m_books.lookup (chars "EUR/USD")
        = some (1, some { m_asks := ⟨[(110100000, ⟨1101 / 1000, 50⟩)]⟩,
                          m_bids := ⟨[(110000000, ⟨11 / 10, 100⟩)]⟩ }) ∧
      snapDupEUR.GetType = 87 ∧
      snapDupEUR.ReadMsgSecNum = .ok (2, { snapDupEUR with m_cursor := 25 }) ∧
      bookSetEUR.m_seqNum < 2 ∧
      Message.ReadSymbol { snapDupEUR with m_cursor := 25 }
        = .ok (chars "EUR/USD", { snapDupEUR with m_cursor := 36 }) ∧
      bookSetEUR.Update snapDupEUR = .thrown Error.ProtocolError bookSetEUR ∧
      ∃ e, Book.ctor { snapDupEUR with m_cursor := 36 } = .error e ∧
        bookSetEUR.Update snapDupEUR = .thrown e bookSetEUR ∧
        (bookSetEUR.Update snapDupEUR).isOk = false ∧
        (bookSetEUR.Update snapDupEUR).state.m_books.lookup (chars "EUR/USD")
          = some (1, some { m_asks := ⟨[(110100000, ⟨1101 / 1000, 50⟩)]⟩,
                            m_bids := ⟨[(110000000, ⟨11 / 10, 100⟩)]⟩ }) ∧
        (bookSetEUR.Update snapDupEUR).state.m_seqNum = bookSetEUR.m_seqNum :=
  ⟨by decide!, by decide!, by decide!, by decide!, by decide!, by decide!,
    BookSet.Update_snapshot_fails bookSetEUR snapDupEUR { snapDupEUR with m_cursor := 25 }
      { snapDupEUR with m_cursor := 36 } 2 1 (chars "EUR/USD")
      { m_asks := ⟨[(110100000, ⟨1101 / 1000, 50⟩)]⟩,
        m_bids := ⟨[(110000000, ⟨11 / 10, 100⟩)]⟩ }
      (by decide!) (by decide!) (by decide!) (by decide!) (by decide!)
      (Or.inr ⟨[(MDEntryType.MDEntryType_Bid, 11 / 10, 100),
                (MDEntryType.MDEntryType_Bid, 11 / 10, 50)],
        by decide!, Or.inl (by decide!)⟩)⟩

/-- The other way a snapshot fails: `snapNoSizeEUR`, whose second entry has no
size field, leaves the BookSet after `snapEUR` as it was too. -/
theorem BookSet.Update_snapNoSizeEUR :
    bookSetEUR.Update snapNoSizeEUR = .thrown Error.UnknownProtocolFieldError bookSetEUR := by
  decide!

/-! ## The delimiter test of `Normalize` -/

/-- Over signed `char`s no message passes the constructor with a delimiter of
128 or above: the test `*std::prev(m_end) != m_soh` throws, as no `char`
equals the delimiter, so `CalcCheckSum` is not called. -/
theorem Message.ctor_signed_high_delimiter (soh : Int) (data : List Int) (begin_ end_ : Nat)
    (hsoh : 128 ≤ soh) (hchar : ∀ x ∈ data, -128 ≤ x ∧ x ≤ 127) :
    Message.ctor soh data begin_ end_ = .error Error.ProtocolError := by
  cases h : Message.ctor soh data begin_ end_ with
  | error e =>
    unfold Message.ctor Message.Normalize at h
    rw [Message.Normalize.checks_error h]
  | ok m =>
    exfalso
    unfold Message.ctor Message.Normalize at h
    obtain ⟨len, cursor, k1, k2, _⟩ := Message.Normalize.checks_ok h
    have hd : ∀ i, data.getD i 0 ≤ 127 := by
      intro i
      by_cases hi : i < data.length
      · rw [List.getD_eq_getElem _ _ hi]
        exact (hchar _ (List.getElem_mem _)).2
      · rw [List.getD_eq_default _ _ (by omega)]
        decide
    have h2 : data.getD ((Message.Normalize.trimmed
        (Content.mk soh data begin_ end_ begin_)).m_end - 1) 0 = soh := k2
    have := hd ((Message.Normalize.trimmed (Content.mk soh data begin_ end_ begin_)).m_end - 1)
    omega

end fix2book
